import Mathlib

/-!
# Access-log chaincode: `chaincode/access-log/access_log.go`

A shallow embedding of the `AccessLogContract` chaincode and of the library
code its two transactions run: Go's `unicode/utf8` (`DecodeRune`,
`EncodeRune`), `encoding/json` (`Marshal` of a struct of three strings:
`appendString`; `Unmarshal` into that struct: `checkValid` with the scanner
state machine, `unquoteBytes`, the object decoder) and the ledger stub's
`GetState` / `PutState`.

Go strings and byte slices are sequences of bytes (`List Byte`); a Go string
need not be valid UTF-8.  Runes are natural numbers.  Masks and shifts of the
Go code are kept as the bitwise operations on `Nat`.

The decoder of `encoding/json` reads the text a second time after `checkValid`
and panics where it meets what the scanner would not have passed.  The panic
is a value of the error type here (`GoError.phasePanic`), and the theorems
`Unmarshal_noPanic` and `Unmarshal_error` show that it is never returned: the
only errors of `Unmarshal` are the syntax error and the type error.
-/

namespace AccessLog

/-! ## Bytes and strings -/

/-- A byte: the element type of Go strings and of `[]byte`. -/
abbrev Byte := Fin 256

/-- A Go `string`: an immutable sequence of bytes, not necessarily UTF-8. -/
abbrev GoString := List Byte

/-- The conversion `byte(n)`: truncation to eight bits. -/
def toByte (n : Nat) : Byte := ⟨n % 256, Nat.mod_lt n (by decide)⟩

/-- The bytes of an ASCII string literal of the Go source. -/
def ascii (s : String) : List Byte := s.toList.map (fun c => toByte c.toNat)

/-! ## `unicode/utf8` -/

/-- The constant `utf8.RuneError` (U+FFFD), also `unicode.ReplacementChar`. -/
def RuneError : Nat := 0xFFFD

/-- The constant `utf8.MaxRune`. -/
def MaxRune : Nat := 0x10FFFF

/-- The constant `utf8.RuneSelf`: bytes below it are single-byte runes. -/
def RuneSelf : Nat := 0x80

/-- The constant `utf8.UTFMax`: the longest encoding of a rune, in bytes. -/
def UTFMax : Nat := 4

/-- The table `utf8.first`: information about the first byte of an encoding.
`0xF0` (`as`) is ASCII, `0xF1` (`xx`) is invalid; otherwise the low three bits
are the size and the high four bits index `acceptRanges`. -/
def first (b : Nat) : Nat :=
  if b < 0x80 then 0xF0
  else if b < 0xC2 then 0xF1
  else if b < 0xE0 then 0x02
  else if b = 0xE0 then 0x13
  else if b < 0xED then 0x03
  else if b = 0xED then 0x23
  else if b < 0xF0 then 0x03
  else if b = 0xF0 then 0x34
  else if b < 0xF4 then 0x04
  else if b = 0xF4 then 0x44
  else 0xF1

/-- The table `utf8.acceptRanges`: the range `(lo, hi)` allowed for the second
byte of an encoding. -/
def acceptRanges (i : Nat) : Nat × Nat :=
  match i with
  | 0 => (0x80, 0xBF)
  | 1 => (0xA0, 0xBF)
  | 2 => (0x80, 0x9F)
  | 3 => (0x90, 0xBF)
  | 4 => (0x80, 0x8F)
  | _ => (0, 0)

/-- The function `utf8.DecodeRune` (and `DecodeRuneInString`): the first rune
of `p` and its width in bytes; `(RuneError, 0)` on empty input and
`(RuneError, 1)` on an invalid encoding. -/
def DecodeRune (p : List Byte) : Nat × Nat :=
  match p with
  | [] => (RuneError, 0)
  | p0 :: _ =>
    let x := first p0.val
    if 0xF0 ≤ x then
      -- the mask-and-or of the Go code: `p0` for `as`, `RuneError` for `xx`
      (if x = 0xF0 then p0.val else RuneError, 1)
    else
      let sz := x &&& 7
      let accept := acceptRanges (x >>> 4)
      if p.length < sz then (RuneError, 1)
      else
        let b1 := (p.getD 1 0).val
        if b1 < accept.1 ∨ accept.2 < b1 then (RuneError, 1)
        else if sz ≤ 2 then (((p0.val &&& 0x1F) <<< 6) ||| (b1 &&& 0x3F), 2)
        else
          let b2 := (p.getD 2 0).val
          if b2 < 0x80 ∨ 0xBF < b2 then (RuneError, 1)
          else if sz ≤ 3 then
            (((p0.val &&& 0x0F) <<< 12) ||| ((b1 &&& 0x3F) <<< 6) ||| (b2 &&& 0x3F), 3)
          else
            let b3 := (p.getD 3 0).val
            if b3 < 0x80 ∨ 0xBF < b3 then (RuneError, 1)
            else
              (((p0.val &&& 0x07) <<< 18) ||| ((b1 &&& 0x3F) <<< 12)
                ||| ((b2 &&& 0x3F) <<< 6) ||| (b3 &&& 0x3F), 4)

/-- The function `utf8.EncodeRune` (and `AppendRune`): the UTF-8 encoding of
`r`; surrogates and runes beyond `MaxRune` are encoded as `RuneError`. -/
def EncodeRune (r : Nat) : List Byte :=
  if r ≤ 0x7F then [toByte r]
  else if r ≤ 0x7FF then
    [toByte (0xC0 ||| ((r >>> 6) % 256)), toByte (0x80 ||| ((r % 256) &&& 0x3F))]
  else if r < 0xD800 ∨ (0xDFFF < r ∧ r ≤ 0xFFFF) then
    [toByte (0xE0 ||| ((r >>> 12) % 256)), toByte (0x80 ||| (((r >>> 6) % 256) &&& 0x3F)),
      toByte (0x80 ||| ((r % 256) &&& 0x3F))]
  else if 0xFFFF < r ∧ r ≤ MaxRune then
    [toByte (0xF0 ||| ((r >>> 18) % 256)), toByte (0x80 ||| (((r >>> 12) % 256) &&& 0x3F)),
      toByte (0x80 ||| (((r >>> 6) % 256) &&& 0x3F)), toByte (0x80 ||| ((r % 256) &&& 0x3F))]
  else [0xEF, 0xBF, 0xBD]

/-- The function `utf8.ValidString`: every rune of `s` decodes without error.
The fuel is the number of bytes left to examine. -/
def validLoop : Nat → List Byte → Bool
  | 0, s => s.isEmpty
  | _ + 1, [] => true
  | fuel + 1, b :: rest =>
    let d := DecodeRune (b :: rest)
    if d.1 = RuneError ∧ d.2 = 1 then false
    else validLoop fuel ((b :: rest).drop d.2)

/-- The function `utf8.ValidString`. -/
def ValidString (s : GoString) : Bool := validLoop s.length s

/-! ## `encoding/json`: encoding -/

/-- The string `hex` of `encoding/json`: the digits used in `\u00XX`. -/
def hex (i : Nat) : Byte := (ascii "0123456789abcdef").getD i 0

/-- The table `htmlSafeSet`: the ASCII bytes that `appendString` copies
unescaped when HTML escaping is on (the default of `Marshal`): all of
`0x20 .. 0x7F` except `"`, `&`, `<`, `>` and `\`. -/
def htmlSafeSet (b : Nat) : Bool :=
  decide (0x20 ≤ b ∧ b < 0x80 ∧ b ≠ 0x22 ∧ b ≠ 0x26 ∧ b ≠ 0x3C ∧ b ≠ 0x3E ∧ b ≠ 0x5C)

/-- The escape that `appendString` writes for an ASCII byte outside
`htmlSafeSet`. -/
def escapeASCII (b : Byte) : List Byte :=
  if b.val = 0x5C ∨ b.val = 0x22 then [0x5C, b]
  else if b.val = 0x08 then [0x5C, 0x62]
  else if b.val = 0x0C then [0x5C, 0x66]
  else if b.val = 0x0A then [0x5C, 0x6E]
  else if b.val = 0x0D then [0x5C, 0x72]
  else if b.val = 0x09 then [0x5C, 0x74]
  else [0x5C, 0x75, 0x30, 0x30, hex (b.val >>> 4), hex (b.val &&& 0xF)]

/-- The loop of `appendString(dst, src, escapeHTML = true)` on the rest
`src[i:]` of the input: what is appended to `dst` between the two quotes.
(The Go loop copies runs `src[start:i]` of unescaped bytes at once; here each
byte or rune is copied as it is passed.)  The fuel is the number of bytes left. -/
def appendStringLoop : Nat → List Byte → List Byte
  | 0, _ => []
  | _ + 1, [] => []
  | fuel + 1, b :: rest =>
    if b.val < RuneSelf then
      if htmlSafeSet b.val then b :: appendStringLoop fuel rest
      else escapeASCII b ++ appendStringLoop fuel rest
    else
      let d := DecodeRune ((b :: rest).take UTFMax)
      if d.1 = RuneError ∧ d.2 = 1 then
        ascii "\\ufffd" ++ appendStringLoop fuel rest
      else if d.1 = 0x2028 ∨ d.1 = 0x2029 then
        ascii "\\u202" ++ hex (d.1 &&& 0xF) :: appendStringLoop fuel ((b :: rest).drop d.2)
      else
        (b :: rest).take d.2 ++ appendStringLoop fuel ((b :: rest).drop d.2)

/-- The function `appendString` with `escapeHTML = true`: the JSON string
literal for the Go string `src`. -/
def appendString (src : GoString) : List Byte :=
  0x22 :: (appendStringLoop src.length src ++ [0x22])

/-! ## The record and its encoding -/

/-- The struct `Log` of `access_log.go`, with JSON names `user_id`,
`access_method` and `timestamp`. -/
structure Log where
  UserID : GoString
  AccessMethod : GoString
  Timestamp : GoString
  deriving DecidableEq, Repr

/-- The fields of `Log`, in declaration order. -/
inductive Field where
  | UserID
  | AccessMethod
  | Timestamp
  deriving DecidableEq, Repr

/-- The JSON name of a field: its `json:"..."` tag. -/
def Field.name : Field → GoString
  | .UserID => ascii "user_id"
  | .AccessMethod => ascii "access_method"
  | .Timestamp => ascii "timestamp"

/-- Assignment to a field of a `Log` (`reflect.Value.SetString`). -/
def Log.set (v : Log) (f : Field) (s : GoString) : Log :=
  match f with
  | .UserID => { v with UserID := s }
  | .AccessMethod => { v with AccessMethod := s }
  | .Timestamp => { v with Timestamp := s }

/-- The message of a `*json.SyntaxError`: either
`"invalid character " + quoteChar(c) + " " + context`, kept as the byte and
the context, or `"unexpected end of JSON input"`. -/
inductive SyntaxMsg where
  | invalidCharacter (c : Byte) (context : String)
  | unexpectedEnd
  deriving DecidableEq, Repr

/-- A `*json.SyntaxError`: the message and the offset `scan.bytes`. -/
structure SyntaxError where
  msg : SyntaxMsg
  Offset : Nat
  deriving DecidableEq, Repr

/-- The Go `error` values that occur in this program. -/
inductive GoError where
  /-- A value made by `fmt.Errorf` in `access_log.go`, with its message. -/
  | errorString (s : GoString)
  /-- An error returned by the ledger stub, with its message `Error()`. -/
  | stub (msg : GoString)
  /-- A `*json.SyntaxError`, returned by `checkValid`. -/
  | syntaxError (e : SyntaxError)
  /-- A `*json.UnmarshalTypeError`: the kind of JSON value (`Value`) that does
  not fit the Go value, and the field of `Log` being decoded (`none` at the
  top level).  Its `Type` and `Offset` are not modelled. -/
  | unmarshalTypeError (Value : String) (field : Option Field)
  /-- The decoder's `panic(phasePanicMsg)`: scanner and decoder disagree.  It
  is kept as a value so that the decoder is a total function; `Unmarshal`
  never returns it (`Unmarshal_noPanic`). -/
  | phasePanic
  deriving DecidableEq, Repr

/-- The encoder of a struct value of type `Log`: `json.Marshal(log)`.  Fields
are written in declaration order, each as `"name":` followed by
`appendString` of the field, separated by commas, with no white space.  The
encoder of a struct whose fields are strings has no failing path, so the error
is `nil`. -/
def Marshal (v : Log) : List Byte × Option GoError :=
  (ascii "\x7b\"user_id\":" ++ appendString v.UserID
    ++ ascii ",\"access_method\":" ++ appendString v.AccessMethod
    ++ ascii ",\"timestamp\":" ++ appendString v.Timestamp ++ ascii "\x7d", none)

/-! ## `encoding/json`: the scanner (`scanner.go`) -/

/-- The step functions of the scanner: `scanner.step` is one of these
(`stateBeginValue`, `stateInString`, ...). -/
inductive ScanStep where
  | BeginValueOrEmpty | BeginValue | BeginStringOrEmpty | BeginString
  | EndValue | EndTop
  | InString | InStringEsc | InStringEscU | InStringEscU1 | InStringEscU12 | InStringEscU123
  | Neg | S1 | S0 | Dot | Dot0 | E | ESign | E0
  | T | Tr | Tru | F | Fa | Fal | Fals | N | Nu | Nul
  | Error
  deriving DecidableEq, Repr

/-- The entries of `scanner.parseState`: what is being parsed at each depth. -/
inductive ParseState where
  | parseObjectKey
  | parseObjectValue
  | parseArrayValue
  deriving DecidableEq, Repr

/-- The scan codes returned by the step functions. -/
inductive Opcode where
  | scanContinue | scanBeginLiteral | scanBeginObject | scanObjectKey | scanObjectValue
  | scanEndObject | scanBeginArray | scanArrayValue | scanEndArray | scanSkipSpace
  | scanEnd | scanError
  deriving DecidableEq, Repr

/-- The struct `scanner`.  `parseState` is kept with its top (the last element
of the Go slice) at the head of the list. -/
structure scanner where
  step : ScanStep
  endTop : Bool
  parseState : List ParseState
  err : Option SyntaxError
  bytes : Nat
  deriving DecidableEq, Repr

/-- The constant `maxNestingDepth`. -/
def maxNestingDepth : Nat := 10000

/-- The method `scanner.reset`; `checkValid` counts `bytes` from zero. -/
def scanner.reset : scanner :=
  { step := .BeginValue, endTop := false, parseState := [], err := none, bytes := 0 }

/-- The method `scanner.error`: record the error and return `scanError`. -/
def scanner.error (s : scanner) (c : Byte) (context : String) : Opcode × scanner :=
  (.scanError, { s with step := .Error, err := some ⟨.invalidCharacter c context, s.bytes⟩ })

/-- The method `scanner.pushParseState`. -/
def scanner.pushParseState (s : scanner) (c : Byte) (newParseState : ParseState)
    (successState : Opcode) : Opcode × scanner :=
  let s1 := { s with parseState := newParseState :: s.parseState }
  if s1.parseState.length ≤ maxNestingDepth then (successState, s1)
  else s1.error c "exceeded max depth"

/-- The method `scanner.popParseState`. -/
def scanner.popParseState (s : scanner) : scanner :=
  let s1 := { s with parseState := s.parseState.tail }
  if s1.parseState.length = 0 then { s1 with step := .EndTop, endTop := true }
  else { s1 with step := .EndValue }

/-- The function `isSpace`. -/
def isSpace (c : Byte) : Bool :=
  decide (c.val ≤ 0x20 ∧ (c.val = 0x20 ∨ c.val = 0x09 ∨ c.val = 0x0D ∨ c.val = 0x0A))

/-- The step function `stateEndTop`: a byte that is not a space is recorded as
an error, which the next call (or `eof`) reports; the code returned is
`scanEnd` either way. -/
def stateEndTop (s : scanner) (c : Byte) : Opcode × scanner :=
  if !isSpace c then (.scanEnd, (s.error c "after top-level value").2)
  else (.scanEnd, s)

/-- The step function `stateEndValue`. -/
def stateEndValue (s : scanner) (c : Byte) : Opcode × scanner :=
  match s.parseState with
  | [] => stateEndTop { s with step := .EndTop, endTop := true } c
  | ps :: below =>
    if isSpace c then (.scanSkipSpace, { s with step := .EndValue })
    else
      match ps with
      | .parseObjectKey =>
        if c.val = 0x3A then
          (.scanObjectKey, { s with parseState := .parseObjectValue :: below, step := .BeginValue })
        else s.error c "after object key"
      | .parseObjectValue =>
        if c.val = 0x2C then
          (.scanObjectValue, { s with parseState := .parseObjectKey :: below, step := .BeginString })
        else if c.val = 0x7D then (.scanEndObject, s.popParseState)
        else s.error c "after object key:value pair"
      | .parseArrayValue =>
        if c.val = 0x2C then (.scanArrayValue, { s with step := .BeginValue })
        else if c.val = 0x5D then (.scanEndArray, s.popParseState)
        else s.error c "after array element"

/-- The step function `stateBeginValue`. -/
def stateBeginValue (s : scanner) (c : Byte) : Opcode × scanner :=
  if isSpace c then (.scanSkipSpace, s)
  else if c.val = 0x7B then
    scanner.pushParseState { s with step := .BeginStringOrEmpty } c .parseObjectKey .scanBeginObject
  else if c.val = 0x5B then
    scanner.pushParseState { s with step := .BeginValueOrEmpty } c .parseArrayValue .scanBeginArray
  else if c.val = 0x22 then (.scanBeginLiteral, { s with step := .InString })
  else if c.val = 0x2D then (.scanBeginLiteral, { s with step := .Neg })
  else if c.val = 0x30 then (.scanBeginLiteral, { s with step := .S0 })
  else if c.val = 0x74 then (.scanBeginLiteral, { s with step := .T })
  else if c.val = 0x66 then (.scanBeginLiteral, { s with step := .F })
  else if c.val = 0x6E then (.scanBeginLiteral, { s with step := .N })
  else if 0x31 ≤ c.val ∧ c.val ≤ 0x39 then (.scanBeginLiteral, { s with step := .S1 })
  else s.error c "looking for beginning of value"

/-- The step function `stateBeginValueOrEmpty`. -/
def stateBeginValueOrEmpty (s : scanner) (c : Byte) : Opcode × scanner :=
  if isSpace c then (.scanSkipSpace, s)
  else if c.val = 0x5D then stateEndValue s c
  else stateBeginValue s c

/-- The step function `stateBeginString`. -/
def stateBeginString (s : scanner) (c : Byte) : Opcode × scanner :=
  if isSpace c then (.scanSkipSpace, s)
  else if c.val = 0x22 then (.scanBeginLiteral, { s with step := .InString })
  else s.error c "looking for beginning of object key string"

/-- The step function `stateBeginStringOrEmpty`. -/
def stateBeginStringOrEmpty (s : scanner) (c : Byte) : Opcode × scanner :=
  if isSpace c then (.scanSkipSpace, s)
  else if c.val = 0x7D then
    stateEndValue { s with parseState := .parseObjectValue :: s.parseState.tail } c
  else stateBeginString s c

/-- The test for a hexadecimal digit in the `stateInStringEscU*` functions. -/
def isHexDigit (c : Byte) : Bool :=
  decide ((0x30 ≤ c.val ∧ c.val ≤ 0x39) ∨ (0x61 ≤ c.val ∧ c.val ≤ 0x66)
    ∨ (0x41 ≤ c.val ∧ c.val ≤ 0x46))

/-- The test `'0' <= c && c <= '9'`. -/
def isDigit (c : Byte) : Bool := decide (0x30 ≤ c.val ∧ c.val ≤ 0x39)

/-- The step function `state0`: after `0` in a number. -/
def state0 (s : scanner) (c : Byte) : Opcode × scanner :=
  if c.val = 0x2E then (.scanContinue, { s with step := .Dot })
  else if c.val = 0x65 ∨ c.val = 0x45 then (.scanContinue, { s with step := .E })
  else stateEndValue s c

/-- The step function `stateESign`: after `e+` or `e-` in a number. -/
def stateESign (s : scanner) (c : Byte) : Opcode × scanner :=
  if isDigit c then (.scanContinue, { s with step := .E0 })
  else s.error c "in exponent of numeric literal"

/-- One step of the scanner on the byte `c`: the call `s.step(s, c)`. -/
def scanner.doStep (s : scanner) (c : Byte) : Opcode × scanner :=
  match s.step with
  | .BeginValueOrEmpty => stateBeginValueOrEmpty s c
  | .BeginValue => stateBeginValue s c
  | .BeginStringOrEmpty => stateBeginStringOrEmpty s c
  | .BeginString => stateBeginString s c
  | .EndValue => stateEndValue s c
  | .EndTop => stateEndTop s c
  | .InString =>
    if c.val = 0x22 then (.scanContinue, { s with step := .EndValue })
    else if c.val = 0x5C then (.scanContinue, { s with step := .InStringEsc })
    else if c.val < 0x20 then s.error c "in string literal"
    else (.scanContinue, s)
  | .InStringEsc =>
    if c.val = 0x62 ∨ c.val = 0x66 ∨ c.val = 0x6E ∨ c.val = 0x72 ∨ c.val = 0x74
        ∨ c.val = 0x5C ∨ c.val = 0x2F ∨ c.val = 0x22 then
      (.scanContinue, { s with step := .InString })
    else if c.val = 0x75 then (.scanContinue, { s with step := .InStringEscU })
    else s.error c "in string escape code"
  | .InStringEscU =>
    if isHexDigit c then (.scanContinue, { s with step := .InStringEscU1 })
    else s.error c "in \\u hexadecimal character escape"
  | .InStringEscU1 =>
    if isHexDigit c then (.scanContinue, { s with step := .InStringEscU12 })
    else s.error c "in \\u hexadecimal character escape"
  | .InStringEscU12 =>
    if isHexDigit c then (.scanContinue, { s with step := .InStringEscU123 })
    else s.error c "in \\u hexadecimal character escape"
  | .InStringEscU123 =>
    if isHexDigit c then (.scanContinue, { s with step := .InString })
    else s.error c "in \\u hexadecimal character escape"
  | .Neg =>
    if c.val = 0x30 then (.scanContinue, { s with step := .S0 })
    else if 0x31 ≤ c.val ∧ c.val ≤ 0x39 then (.scanContinue, { s with step := .S1 })
    else s.error c "in numeric literal"
  | .S1 =>
    if isDigit c then (.scanContinue, { s with step := .S1 })
    else state0 s c
  | .S0 => state0 s c
  | .Dot =>
    if isDigit c then (.scanContinue, { s with step := .Dot0 })
    else s.error c "after decimal point in numeric literal"
  | .Dot0 =>
    if isDigit c then (.scanContinue, s)
    else if c.val = 0x65 ∨ c.val = 0x45 then (.scanContinue, { s with step := .E })
    else stateEndValue s c
  | .E =>
    if c.val = 0x2B ∨ c.val = 0x2D then (.scanContinue, { s with step := .ESign })
    else stateESign s c
  | .ESign => stateESign s c
  | .E0 =>
    if isDigit c then (.scanContinue, s)
    else stateEndValue s c
  | .T =>
    if c.val = 0x72 then (.scanContinue, { s with step := .Tr })
    else s.error c "in literal true (expecting 'r')"
  | .Tr =>
    if c.val = 0x75 then (.scanContinue, { s with step := .Tru })
    else s.error c "in literal true (expecting 'u')"
  | .Tru =>
    if c.val = 0x65 then (.scanContinue, { s with step := .EndValue })
    else s.error c "in literal true (expecting 'e')"
  | .F =>
    if c.val = 0x61 then (.scanContinue, { s with step := .Fa })
    else s.error c "in literal false (expecting 'a')"
  | .Fa =>
    if c.val = 0x6C then (.scanContinue, { s with step := .Fal })
    else s.error c "in literal false (expecting 'l')"
  | .Fal =>
    if c.val = 0x73 then (.scanContinue, { s with step := .Fals })
    else s.error c "in literal false (expecting 's')"
  | .Fals =>
    if c.val = 0x65 then (.scanContinue, { s with step := .EndValue })
    else s.error c "in literal false (expecting 'e')"
  | .N =>
    if c.val = 0x75 then (.scanContinue, { s with step := .Nu })
    else s.error c "in literal null (expecting 'u')"
  | .Nu =>
    if c.val = 0x6C then (.scanContinue, { s with step := .Nul })
    else s.error c "in literal null (expecting 'l')"
  | .Nul =>
    if c.val = 0x6C then (.scanContinue, { s with step := .EndValue })
    else s.error c "in literal null (expecting 'l')"
  | .Error => (.scanError, s)

/-- The method `scanner.eof`: the scan code at the end of the input. -/
def scanner.eof (s : scanner) : Opcode × scanner :=
  if s.err.isSome then (.scanError, s)
  else if s.endTop then (.scanEnd, s)
  else
    let s1 := (s.doStep 0x20).2
    if s1.endTop then (.scanEnd, s1)
    else if s1.err.isNone then
      (.scanError, { s1 with err := some ⟨.unexpectedEnd, s1.bytes⟩ })
    else (.scanError, s1)

/-- The loop of `checkValid` over the bytes of `data`: stop at the first byte
whose step returns `scanError`. -/
def checkValidLoop (s : scanner) : List Byte → scanner × Bool
  | [] => (s, true)
  | c :: rest =>
    let r := scanner.doStep { s with bytes := s.bytes + 1 } c
    if r.1 = .scanError then (r.2, false) else checkValidLoop r.2 rest

/-- The function `checkValid`: `none` when `data` is a valid JSON text, the
syntax error otherwise. -/
def checkValid (data : List Byte) : Option SyntaxError :=
  let r := checkValidLoop scanner.reset data
  if r.2 = false then r.1.err
  else
    let e := r.1.eof
    if e.1 = .scanError then e.2.err else none

/-! ## `encoding/json`: decoding (`decode.go`, `fold.go`) -/

/-- The value of a hexadecimal digit in `getu4`; `none` for any other byte. -/
def hexValue (c : Byte) : Option Nat :=
  if 0x30 ≤ c.val ∧ c.val ≤ 0x39 then some (c.val - 0x30)
  else if 0x61 ≤ c.val ∧ c.val ≤ 0x66 then some (c.val - 0x61 + 10)
  else if 0x41 ≤ c.val ∧ c.val ≤ 0x46 then some (c.val - 0x41 + 10)
  else none

/-- The function `getu4`: the rune of a `\uXXXX` escape at the beginning of
`s`, or `none` (the Go code returns `-1`) when there is none. -/
def getu4 (s : List Byte) : Option Nat :=
  match s with
  | b0 :: b1 :: c0 :: c1 :: c2 :: c3 :: _ =>
    if b0.val ≠ 0x5C ∨ b1.val ≠ 0x75 then none
    else
      match hexValue c0, hexValue c1, hexValue c2, hexValue c3 with
      | some h0, some h1, some h2, some h3 => some (((h0 * 16 + h1) * 16 + h2) * 16 + h3)
      | _, _, _, _ => none
  | _ => none

/-- The function `utf16.IsSurrogate`. -/
def IsSurrogate (r : Nat) : Bool := decide (0xD800 ≤ r ∧ r < 0xE000)

/-- The function `utf16.DecodeRune` on a first rune and an optional second one
(`none` is the `-1` of `getu4`): the code point of a valid surrogate pair,
else `unicode.ReplacementChar`. -/
def utf16DecodeRune (r1 : Nat) (r2 : Option Nat) : Nat :=
  match r2 with
  | some r2 =>
    if 0xD800 ≤ r1 ∧ r1 < 0xDC00 ∧ 0xDC00 ≤ r2 ∧ r2 < 0xE000 then
      (((r1 - 0xD800) <<< 10) ||| (r2 - 0xDC00)) + 0x10000
    else RuneError
  | none => RuneError

/-- The first loop of `unquoteBytes`: the number `r` of leading bytes of `s`
that need no unquoting (no backslash, quote, control byte or invalid UTF-8).
The fuel is the number of bytes left. -/
def unquoteScan : Nat → List Byte → Nat
  | 0, _ => 0
  | _ + 1, [] => 0
  | fuel + 1, c :: rest =>
    if c.val = 0x5C ∨ c.val = 0x22 ∨ c.val < 0x20 then 0
    else if c.val < RuneSelf then unquoteScan fuel rest + 1
    else
      let d := DecodeRune (c :: rest)
      if d.1 = RuneError ∧ d.2 = 1 then 0
      else unquoteScan fuel ((c :: rest).drop d.2) + d.2

/-- The second loop of `unquoteBytes` on the rest `s[r:]`: the bytes written to
the buffer `b`, or `none` where the Go code returns `ok = false`.  The fuel is
the number of bytes left. -/
def unquoteLoop : Nat → List Byte → Option (List Byte)
  | 0, _ => some []
  | _ + 1, [] => some []
  | fuel + 1, c :: rest =>
    if c.val = 0x5C then
      match rest with
      | [] => none
      | e :: rest1 =>
        if e.val = 0x22 ∨ e.val = 0x5C ∨ e.val = 0x2F ∨ e.val = 0x27 then
          (unquoteLoop fuel rest1).map (fun t => e :: t)
        else if e.val = 0x62 then (unquoteLoop fuel rest1).map (fun t => 0x08 :: t)
        else if e.val = 0x66 then (unquoteLoop fuel rest1).map (fun t => 0x0C :: t)
        else if e.val = 0x6E then (unquoteLoop fuel rest1).map (fun t => 0x0A :: t)
        else if e.val = 0x72 then (unquoteLoop fuel rest1).map (fun t => 0x0D :: t)
        else if e.val = 0x74 then (unquoteLoop fuel rest1).map (fun t => 0x09 :: t)
        else if e.val = 0x75 then
          match getu4 (c :: rest) with
          | none => none
          | some rr =>
            let after := (c :: rest).drop 6
            if IsSurrogate rr then
              let dec := utf16DecodeRune rr (getu4 after)
              if dec ≠ RuneError then
                (unquoteLoop fuel (after.drop 6)).map (fun t => EncodeRune dec ++ t)
              else (unquoteLoop fuel after).map (fun t => EncodeRune RuneError ++ t)
            else (unquoteLoop fuel after).map (fun t => EncodeRune rr ++ t)
        else none
    else if c.val = 0x22 ∨ c.val < 0x20 then none
    else if c.val < RuneSelf then (unquoteLoop fuel rest).map (fun t => c :: t)
    else
      let d := DecodeRune (c :: rest)
      (unquoteLoop fuel ((c :: rest).drop d.2)).map (fun t => EncodeRune d.1 ++ t)

/-- The function `unquoteBytes`: the contents of the quoted JSON string literal
`s` as bytes, coerced to valid UTF-8; `none` is `ok = false`. -/
def unquoteBytes (s : List Byte) : Option (List Byte) :=
  if s.length < 2 ∨ (s.head?.map Fin.val) ≠ some 0x22 ∨ (s.getLast?.map Fin.val) ≠ some 0x22 then
    none
  else
    let s := (s.drop 1).dropLast
    let r := unquoteScan s.length s
    if r = s.length then some s
    else (unquoteLoop (s.length - r) (s.drop r)).map (fun t => s.take r ++ t)

/-- The function `foldRune` of `fold.go`: the smallest rune of the simple
case-folding orbit of `r`, for a rune `r` that is not ASCII.  Only the orbits
of `K` (with U+212A KELVIN SIGN) and `S` (with U+017F LONG S) hold an ASCII
letter; for every other rune the result is again not ASCII, which is all the
lookup of a field name observes, and `r` itself stands for it here. -/
def foldRune (r : Nat) : Nat :=
  if r = 0x212A then 0x4B
  else if r = 0x17F then 0x53
  else r

/-- The function `appendFoldedName` (`foldName`): ASCII letters are made upper
case, other runes are replaced by `foldRune`.  The fuel is the number of bytes
left. -/
def foldNameLoop : Nat → List Byte → List Byte
  | 0, _ => []
  | _ + 1, [] => []
  | fuel + 1, c :: rest =>
    if c.val < RuneSelf then
      (if 0x61 ≤ c.val ∧ c.val ≤ 0x7A then toByte (c.val - (0x61 - 0x41)) else c)
        :: foldNameLoop fuel rest
    else
      let d := DecodeRune (c :: rest)
      EncodeRune (foldRune d.1) ++ foldNameLoop fuel ((c :: rest).drop d.2)

/-- The function `foldName`. -/
def foldName (name : List Byte) : List Byte := foldNameLoop name.length name

/-- The fields of `Log` as `cachedTypeFields` lists them. -/
def structFields : List Field := [.UserID, .AccessMethod, .Timestamp]

/-- The field that a JSON object key selects: the lookup in `byExactName`,
then in `byFoldedName`. -/
def lookupField (key : List Byte) : Option Field :=
  match structFields.find? (fun f => decide (f.name = key)) with
  | some f => some f
  | none => structFields.find? (fun f => decide (foldName f.name = foldName key))

/-- The value that a JSON value is decoded into: the `Log` itself at the top
level, or one of its string fields. -/
inductive Target where
  | top
  | field (f : Field)
  deriving DecidableEq, Repr

/-- The field named in the error context of a target. -/
def Target.errorField : Target → Option Field
  | .top => none
  | .field f => some f

/-- The struct `decodeState`, after `checkValid`: the input not yet read
(`d.data[d.off:]`), the first error saved, and the value being filled.  The Go
struct also holds the scanner `d.scan` and the last scan code `d.opcode`, by
which the decoder finds its way; here the decoder tests the byte that the scan
code was returned for.  On a text that `checkValid` has passed the scanner
returns no other code there (`acceptsAt_beginValue`, `acceptsAt_beginString`,
`acceptsAt_afterKey`, `acceptsAt_afterValue`), and on no other text is the
decoder run. -/
structure decodeState where
  data : List Byte
  savedError : Option GoError
  v : Log
  deriving DecidableEq, Repr

/-- The method `decodeState.saveError`: keep the first error. -/
def decodeState.saveError (d : decodeState) (err : GoError) : decodeState :=
  if d.savedError.isNone then { d with savedError := some err } else d

/-- The statement `panic(phasePanicMsg)`: decoding stops. -/
def decodeState.phasePanic (d : decodeState) : decodeState :=
  { d with data := [], savedError := some .phasePanic }

/-- The call `d.scanWhile(scanSkipSpace)` between tokens: skip white space. -/
def skipSpace : List Byte → List Byte
  | [] => []
  | c :: rest => if isSpace c then skipSpace rest else c :: rest

/-- The string case of `rescanLiteral`, after the opening quote: the bytes up
to and including the closing quote (a backslash takes the next byte with it),
and the input after them. -/
def rescanString : List Byte → List Byte × List Byte
  | [] => ([], [])
  | [c] => ([c], [])
  | c :: e :: rest =>
    if c.val = 0x5C then
      let r := rescanString rest
      (c :: e :: r.1, r.2)
    else if c.val = 0x22 then ([c], e :: rest)
    else
      let r := rescanString (e :: rest)
      (c :: r.1, r.2)

/-- The number case of `rescanLiteral`, after the first byte: the following
bytes among `0-9 . e E + -`, and the input after them. -/
def rescanNumber : List Byte → List Byte × List Byte
  | [] => ([], [])
  | c :: rest =>
    if isDigit c ∨ c.val = 0x2E ∨ c.val = 0x65 ∨ c.val = 0x45 ∨ c.val = 0x2B ∨ c.val = 0x2D then
      let r := rescanNumber rest
      (c :: r.1, r.2)
    else ([], c :: rest)

/-- The method `decodeState.rescanLiteral` on input that begins with the first
byte of a literal: the literal (`item`) and the input after it. -/
def rescanLiteral (data : List Byte) : List Byte × List Byte :=
  match data with
  | [] => ([], [])
  | c :: rest =>
    if c.val = 0x22 then
      let r := rescanString rest
      (c :: r.1, r.2)
    else if isDigit c ∨ c.val = 0x2D then
      let r := rescanNumber rest
      (c :: r.1, r.2)
    else if c.val = 0x74 then (data.take 4, data.drop 4)
    else if c.val = 0x66 then (data.take 5, data.drop 5)
    else if c.val = 0x6E then (data.take 4, data.drop 4)
    else ([c], rest)

/-- The loop of `decodeState.skip`: step the scanner until the value that was
open when the loop began is closed; the input after it. -/
def skipLoop (s : scanner) : List Byte → List Byte
  | [] => []
  | c :: rest =>
    let r := s.doStep c
    if r.2.parseState.length < 1 then rest else skipLoop r.2 rest

/-- The method `decodeState.skip` on input that begins with the `[` or the
`\x7b` of an array or object: the input after the matching bracket.  The Go
code goes on with the scanner of the whole text, from inside the bracket, until
its stack is shorter than it was; the scanner started afresh at the bracket
takes the same steps and empties its stack at the same byte (`doStep_nested`,
`skip_acceptsAt`). -/
def skip (data : List Byte) : List Byte := skipLoop scanner.reset data

/-- The method `decodeState.literalStore(item, v, false)` for a literal
`item` whose first byte is `c`. -/
def literalStore (d : decodeState) (c : Byte) (item : List Byte) (target : Target) :
    decodeState :=
  if c.val = 0x6E then d
  else if c.val = 0x74 ∨ c.val = 0x66 then
    d.saveError (.unmarshalTypeError "bool" target.errorField)
  else if c.val = 0x22 then
    match unquoteBytes item with
    | none => d.phasePanic
    | some s =>
      match target with
      | .field f => { d with v := d.v.set f s }
      | .top => d.saveError (.unmarshalTypeError "string" none)
  else if c.val ≠ 0x2D ∧ (c.val < 0x30 ∨ 0x39 < c.val) then d.phasePanic
  else d.saveError (.unmarshalTypeError "number" target.errorField)

/-- The method `decodeState.value(subv)` for the value of an object member:
`field` is the field of `Log` that the key selected, `none` for an unknown key
(`subv` invalid: the value is skipped).  The input begins with the value. -/
def valueField (d : decodeState) (field : Option Field) : decodeState :=
  match d.data with
  | [] => d.phasePanic
  | c :: _ =>
    if c.val = 0x5B then
      match field with
      | some f =>
        { d.saveError (.unmarshalTypeError "array" (some f)) with data := skip d.data }
      | none => { d with data := skip d.data }
    else if c.val = 0x7B then
      match field with
      | some f =>
        { d.saveError (.unmarshalTypeError "object" (some f)) with data := skip d.data }
      | none => { d with data := skip d.data }
    else
      let lit := rescanLiteral d.data
      match field with
      | some f => literalStore { d with data := lit.2 } c lit.1 (.field f)
      | none => { d with data := lit.2 }

/-- The loop of `decodeState.object(v)` for `v` of type `Log`, on the input
after the `\x7b` or after a comma: read a key, find its field, read the colon
and the value, then a comma or the closing brace.  The fuel is the number of
bytes left. -/
def objectLoop : Nat → decodeState → decodeState
  | 0, d => d.phasePanic
  | fuel + 1, d =>
    match skipSpace d.data with
    | [] => d.phasePanic
    | c :: rest =>
      if c.val = 0x7D then { d with data := rest }
      else if c.val ≠ 0x22 then d.phasePanic
      else
        let lit := rescanLiteral (c :: rest)
        match unquoteBytes lit.1 with
        | none => d.phasePanic
        | some key =>
          match skipSpace lit.2 with
          | [] => d.phasePanic
          | colon :: rest1 =>
            if colon.val ≠ 0x3A then d.phasePanic
            else
              let d1 := valueField { d with data := skipSpace rest1 } (lookupField key)
              match skipSpace d1.data with
              | [] => d1.phasePanic
              | sep :: rest2 =>
                if sep.val = 0x7D then { d1 with data := rest2 }
                else if sep.val = 0x2C then objectLoop fuel { d1 with data := rest2 }
                else d1.phasePanic

/-- The method `decodeState.unmarshal(&log)`: decode the top-level value into
the `Log`, and return the saved error. -/
def decodeState.unmarshal (d : decodeState) : decodeState :=
  match skipSpace d.data with
  | [] => d.phasePanic
  | c :: rest =>
    if c.val = 0x5B then
      { d.saveError (.unmarshalTypeError "array" none) with data := skip (c :: rest) }
    else if c.val = 0x7B then objectLoop (rest.length + 1) { d with data := rest }
    else
      let lit := rescanLiteral (c :: rest)
      literalStore { d with data := lit.2 } c lit.1 .top

/-- The function `json.Unmarshal(data, &v)` for `v` of type `Log`: the value
of `v` afterwards and the error.  The text is checked first; an invalid text
leaves `v` as it was. -/
def Unmarshal (data : List Byte) (v : Log) : Log × Option GoError :=
  match checkValid data with
  | some e => (v, some (.syntaxError e))
  | none =>
    let d := decodeState.unmarshal { data := data, savedError := none, v := v }
    (d.v, d.savedError)

/-! ## The ledger stub -/

/-- Modelled from the spec: the World State Store that the transaction context
hands to the contract (`ctx.GetStub()`, of the Fabric library, which is not
part of this repository).  It holds at most one value per key; `Get` returns
the bytes or the absent marker and may fail with a read error, `Put` sets one
key and may fail with a write error, in which case nothing is written.  Which
calls fail is given by `getFault` and `putFault` (the message of the error). -/
structure Stub where
  state : GoString → Option (List Byte)
  getFault : GoString → Option GoString
  putFault : GoString → List Byte → Option GoString

/-- Modelled from the spec: `GetState(key)`, the value (`none` is the `nil` of
an absent key) and the error (`none` is `nil`), an error being given by its
message. -/
def Stub.GetState (ctx : Stub) (key : GoString) : Option (List Byte) × Option GoString :=
  match ctx.getFault key with
  | some msg => (none, some msg)
  | none => (ctx.state key, none)

/-- Modelled from the spec: `PutState(key, value)`, the error and the stub
afterwards: the key is set, every other key is as before; a failed write
changes nothing. -/
def Stub.PutState (ctx : Stub) (key : GoString) (value : List Byte) : Option GoString × Stub :=
  match ctx.putFault key value with
  | some msg => (some msg, ctx)
  | none => (none, { ctx with state := fun k => if k = key then some value else ctx.state k })

/-- A stub with nothing stored. -/
def Stub.fresh (getFault : GoString → Option GoString)
    (putFault : GoString → List Byte → Option GoString) : Stub :=
  { state := fun _ => none, getFault := getFault, putFault := putFault }

/-! ## The contract (`access_log.go`) -/

/-- The transaction `InitLedger`: nothing is read or written. -/
def InitLedger (ctx : Stub) : Option GoError × Stub := (none, ctx)

/-- The transaction `CreateLog`: the error returned and the stub afterwards. -/
def CreateLog (ctx : Stub) (userID accessMethod timestamp : GoString) : Option GoError × Stub :=
  let log : Log := { UserID := userID, AccessMethod := accessMethod, Timestamp := timestamp }
  let r := Marshal log
  match r.2 with
  | some err => (some err, ctx)
  | none =>
    let w := ctx.PutState userID r.1
    (w.1.map GoError.stub, w.2)

/-- The transaction `QueryLog`: the record (`none` is the `nil` pointer) and
the error. -/
def QueryLog (ctx : Stub) (userID : GoString) : Option Log × Option GoError :=
  let r := ctx.GetState userID
  match r.2 with
  | some msg =>
    (none, some (.errorString (ascii "failed to read from world state: " ++ msg)))
  | none =>
    match r.1 with
    | none => (none, some (.errorString (ascii "the log " ++ userID ++ ascii " does not exist")))
    | some logAsBytes =>
      let u := Unmarshal logAsBytes { UserID := [], AccessMethod := [], Timestamp := [] }
      match u.2 with
      | some err => (none, some err)
      | none => (some u.1, none)

/-! ## Specification-level definitions used to state the theorems -/

/-- The coercion to valid UTF-8 that `Marshal` applies to a string ("replacing
invalid bytes with the Unicode replacement rune"): each byte at which
`DecodeRune` fails becomes U+FFFD, well-formed encodings are kept.  The fuel is
the number of bytes left. -/
def toValidLoop : Nat → List Byte → List Byte
  | 0, _ => []
  | _ + 1, [] => []
  | fuel + 1, b :: rest =>
    let d := DecodeRune (b :: rest)
    if d.1 = RuneError ∧ d.2 = 1 then EncodeRune RuneError ++ toValidLoop fuel rest
    else (b :: rest).take d.2 ++ toValidLoop fuel ((b :: rest).drop d.2)

/-- The string `s` coerced to valid UTF-8. -/
def toValidUTF8 (s : GoString) : GoString := toValidLoop s.length s

/-- The contents of a JSON string literal as the scanner sees them: bytes from
`0x20` up other than the quote and the backslash, two-byte escapes, and
`\uXXXX` escapes. -/
inductive StringBody : List Byte → Prop where
  | nil : StringBody []
  | plain (b : Byte) (t : List Byte) (h : 0x20 ≤ b.val ∧ b.val ≠ 0x22 ∧ b.val ≠ 0x5C) :
      StringBody t → StringBody (b :: t)
  | esc (e : Byte) (t : List Byte)
      (h : e.val = 0x62 ∨ e.val = 0x66 ∨ e.val = 0x6E ∨ e.val = 0x72 ∨ e.val = 0x74
        ∨ e.val = 0x5C ∨ e.val = 0x2F ∨ e.val = 0x22) :
      StringBody t → StringBody (0x5C :: e :: t)
  | escU (h0 h1 h2 h3 : Byte) (t : List Byte)
      (h : isHexDigit h0 = true ∧ isHexDigit h1 = true ∧ isHexDigit h2 = true
        ∧ isHexDigit h3 = true) :
      StringBody t → StringBody (0x5C :: 0x75 :: h0 :: h1 :: h2 :: h3 :: t)

/-- The stubs that can arise from a stub with nothing stored by transactions
`CreateLog`, successful or failed, the faults of the store being free to
change between transactions. -/
inductive Reachable : Stub → Prop where
  | fresh (getFault : GoString → Option GoString)
      (putFault : GoString → List Byte → Option GoString) :
      Reachable (Stub.fresh getFault putFault)
  | createLog (ctx : Stub) (userID accessMethod timestamp : GoString) :
      Reachable ctx → Reachable (CreateLog ctx userID accessMethod timestamp).2
  | faults (ctx : Stub) (getFault : GoString → Option GoString)
      (putFault : GoString → List Byte → Option GoString) :
      Reachable ctx → Reachable { ctx with getFault := getFault, putFault := putFault }

/-- The outcome "read failure" of `QueryLog`: no record, and the error made
from the error of the store. -/
def IsReadFailure (r : Option Log × Option GoError) : Prop :=
  ∃ msg, r = (none, some (.errorString (ascii "failed to read from world state: " ++ msg)))

/-- The outcome "not found" of `QueryLog userID`: no record, and the error
`the log <userID> does not exist`. -/
def IsNotFound (userID : GoString) (r : Option Log × Option GoError) : Prop :=
  r = (none, some (.errorString (ascii "the log " ++ userID ++ ascii " does not exist")))

/-- The errors that `json.Unmarshal` returns: a `*json.SyntaxError` or a
`*json.UnmarshalTypeError`. -/
def GoError.isDecodeError : GoError → Bool
  | .syntaxError _ => true
  | .unmarshalTypeError _ _ => true
  | _ => false

/-- The outcome "decode failure" of `QueryLog`: no record, and an error of the
JSON decoder (a syntax error or a type error; not an error made by
`fmt.Errorf`, and not a panic of the decoder). -/
def IsDecodeFailure (r : Option Log × Option GoError) : Prop :=
  ∃ err, r = (none, some err) ∧ err.isDecodeError = true

/-- The outcome "record" of `QueryLog`: a record and no error. -/
def IsRecord (r : Option Log × Option GoError) : Prop :=
  ∃ log, r = (some log, none)

/-- The scanner, started in the state `s`, passes over `rest` without error
and accepts at the end of the input: what `checkValid` requires of each
suffix of its input. -/
def scanner.accepts : scanner → List Byte → Prop
  | s, [] => s.eof.1 ≠ .scanError
  | s, c :: rest =>
    (scanner.doStep { s with bytes := s.bytes + 1 } c).1 ≠ .scanError
      ∧ scanner.accepts (scanner.doStep { s with bytes := s.bytes + 1 } c).2 rest

/-- The result of a step of the scanner is sound: if it installs the step
function `stateError`, or returns `scanError`, an error has been recorded. -/
def scanner.recorded (r : Opcode × scanner) : Prop :=
  (r.2.step = .Error → r.2.err.isSome = true) ∧ (r.1 = .scanError → r.2.err.isSome = true)

/-- The scanner accepts `data` from the step function `st` with the stack `ps`,
no error recorded and the top-level value not yet ended, whatever the number
of bytes read so far. -/
def scanner.acceptsAt (st : ScanStep) (ps : List ParseState) (data : List Byte) : Prop :=
  ∃ b, scanner.accepts ⟨st, false, ps, none, b⟩ data

/-- The step functions inside a number literal. -/
def ScanStep.inNumber : ScanStep → Bool
  | .Neg | .S1 | .S0 | .Dot | .Dot0 | .E | .ESign | .E0 => true
  | _ => false

/-- The relation between the result `R` of a step of the scanner of the whole
text, inside a value nested in the stack `base`, and the result `F` of the same
step of a scanner started afresh at the bracket that opens the value: if `R`
is no error and the rest is accepted, either both are in the same state, `R`
with `base` below the stack of `F`, or the value has just been closed. -/
def scanner.nested (base : List ParseState) (b : Nat) (rest : List Byte)
    (R F : Opcode × scanner) : Prop :=
  R.1 ≠ .scanError → scanner.accepts R.2 rest →
    (∃ st1 fs1, F.2 = ⟨st1, false, fs1, none, 0⟩ ∧ fs1 ≠ []
        ∧ R.2 = ⟨st1, false, fs1 ++ base, none, b⟩)
    ∨ (R.2 = ⟨.EndValue, false, base, none, b⟩ ∧ F.2.parseState = [])

/-- The kind of the JSON value that begins with the byte `c`, by the name
that a `*json.UnmarshalTypeError` gives it in its field `Value`. -/
def valueKind (c : Byte) : String :=
  if c.val = 0x5B then "array"
  else if c.val = 0x7B then "object"
  else if c.val = 0x22 then "string"
  else if c.val = 0x74 ∨ c.val = 0x66 then "bool"
  else if c.val = 0x6E then "null"
  else "number"

/-- The members of a JSON object, read off the text after its opening brace:
for each member, in the order of the text, its name (the key, unquoted) and the
first byte of its value, which tells the kind of the value.  A value that is
an array or an object is passed over with `skip`, any other with
`rescanLiteral`; the list ends at the closing brace.  The fuel is the number of
bytes left. -/
def membersLoop : Nat → List Byte → List (List Byte × Byte)
  | 0, _ => []
  | fuel + 1, data =>
    match skipSpace data with
    | [] => []
    | c :: rest =>
      if c.val ≠ 0x22 then []
      else
        match unquoteBytes (rescanLiteral (c :: rest)).1 with
        | none => []
        | some key =>
          match skipSpace (skipSpace (rescanLiteral (c :: rest)).2).tail with
          | [] => []
          | v :: vrest =>
            (key, v) ::
              (match skipSpace (if v.val = 0x5B ∨ v.val = 0x7B then skip (v :: vrest)
                  else (rescanLiteral (v :: vrest)).2) with
                | [] => []
                | sep :: rest2 => if sep.val = 0x2C then membersLoop fuel rest2 else [])

/-- The members of the JSON object whose text, after the opening brace, is
`rest`. -/
def objectMembers (rest : List Byte) : List (List Byte × Byte) :=
  membersLoop (rest.length + 1) rest

/-- The shape that `Log` expects of one member of the object: if the name of
the member selects a field of `Log` (all three are strings), its value must be
a string (or `null`, which leaves the field as it is); `fieldError` is the type
error for a value of another kind, `none` if the member fits. -/
def fieldError (field : Option Field) (v : Byte) : Option GoError :=
  match field with
  | some f =>
    if v.val = 0x22 ∨ v.val = 0x6E then none
    else some (.unmarshalTypeError (valueKind v) (some f))
  | none => none

/-- The type error of the first member that does not fit, `none` if every
member whose name selects a field of `Log` holds a string or `null`. -/
def firstMemberError (ms : List (List Byte × Byte)) : Option GoError :=
  ms.findSome? (fun m => fieldError (lookupField m.1) m.2)

/-! # Theorems -/

theorem and_0x3F (x : Nat) : x &&& 0x3F = x % 64 := Nat.and_pow_two_sub_one_eq_mod x 6
theorem and_0x1F (x : Nat) : x &&& 0x1F = x % 32 := Nat.and_pow_two_sub_one_eq_mod x 5
theorem and_0x0F (x : Nat) : x &&& 0x0F = x % 16 := Nat.and_pow_two_sub_one_eq_mod x 4
theorem and_0x07 (x : Nat) : x &&& 0x07 = x % 8 := Nat.and_pow_two_sub_one_eq_mod x 3

theorem or_low (i a b : Nat) (h : b < 2 ^ i) : (a <<< i) ||| b = a * 2 ^ i + b := by
  rw [Nat.shiftLeft_eq, Nat.mul_comm, Nat.mul_add_lt_is_or h]

theorem or_tag (i t b : Nat) (h : b < 2 ^ i) : (2 ^ i * t) ||| b = 2 ^ i * t + b :=
  (Nat.mul_add_lt_is_or h t).symm

theorem decode2 (b0 b1 : Nat) :
    ((b0 &&& 0x1F) <<< 6) ||| (b1 &&& 0x3F) = (b0 % 32) * 64 + b1 % 64 := by
  rw [and_0x3F, and_0x1F, or_low 6 _ _ (by omega)]; omega

theorem shr6 (r : Nat) : r >>> 6 = r / 64 := Nat.shiftRight_eq_div_pow r 6
theorem shr12 (r : Nat) : r >>> 12 = r / 4096 := Nat.shiftRight_eq_div_pow r 12
theorem shr18 (r : Nat) : r >>> 18 = r / 262144 := Nat.shiftRight_eq_div_pow r 18

theorem tag_x (y : Nat) : 0x80 ||| (y &&& 0x3F) = 0x80 + y % 64 := by
  rw [and_0x3F]; exact or_tag 7 1 _ (by omega)
theorem tag_2 (y : Nat) (h : y < 32) : 0xC0 ||| y = 0xC0 + y := or_tag 6 3 _ (by omega)
theorem tag_3 (y : Nat) (h : y < 16) : 0xE0 ||| y = 0xE0 + y := or_tag 5 7 _ (by omega)
theorem tag_4 (y : Nat) (h : y < 8) : 0xF0 ||| y = 0xF0 + y := or_tag 4 15 _ (by omega)

/-- `EncodeRune` in arithmetic form. -/
theorem EncodeRune_eq (r : Nat) : EncodeRune r =
    if r ≤ 0x7F then [toByte r]
    else if r ≤ 0x7FF then [toByte (0xC0 + r / 64), toByte (0x80 + r % 64)]
    else if r < 0xD800 ∨ (0xDFFF < r ∧ r ≤ 0xFFFF) then
      [toByte (0xE0 + r / 4096), toByte (0x80 + r / 64 % 64), toByte (0x80 + r % 64)]
    else if 0xFFFF < r ∧ r ≤ 0x10FFFF then
      [toByte (0xF0 + r / 262144), toByte (0x80 + r / 4096 % 64), toByte (0x80 + r / 64 % 64),
        toByte (0x80 + r % 64)]
    else [0xEF, 0xBF, 0xBD] := by
  unfold EncodeRune MaxRune
  simp only [tag_x, shr6, shr12, shr18]
  split_ifs with h1 h2 h3 h4
  · rfl
  · rw [tag_2 _ (by omega)]
    have e1 : r / 64 % 256 = r / 64 := by omega
    have e2 : r % 256 % 64 = r % 64 := by omega
    rw [e1, e2]
  · rw [tag_3 _ (by omega)]
    have e1 : r / 4096 % 256 = r / 4096 := by omega
    have e2 : r % 256 % 64 = r % 64 := by omega
    have e3 : r / 64 % 256 % 64 = r / 64 % 64 := by omega
    rw [e1, e2, e3]
  · rw [tag_4 _ (by omega)]
    have e1 : r / 262144 % 256 = r / 262144 := by omega
    have e2 : r % 256 % 64 = r % 64 := by omega
    have e3 : r / 64 % 256 % 64 = r / 64 % 64 := by omega
    have e4 : r / 4096 % 256 % 64 = r / 4096 % 64 := by omega
    rw [e1, e2, e3, e4]
  · rfl

theorem decode3 (b0 b1 b2 : Nat) :
    ((b0 &&& 0x0F) <<< 12) ||| ((b1 &&& 0x3F) <<< 6) ||| (b2 &&& 0x3F)
      = (b0 % 16) * 4096 + (b1 % 64) * 64 + b2 % 64 := by
  rw [and_0x3F, and_0x3F, and_0x0F, or_low 12 _ ((b1 % 64) <<< 6) (by rw [Nat.shiftLeft_eq]; omega),
    Nat.shiftLeft_eq]
  have : (b0 % 16 * 2 ^ 12 + b1 % 64 * 2 ^ 6) = (b0 % 16 * 64 + b1 % 64) <<< 6 := by
    rw [Nat.shiftLeft_eq]; omega
  rw [this, or_low 6 _ _ (by omega)]; omega

theorem decode4 (b0 b1 b2 b3 : Nat) :
    ((b0 &&& 0x07) <<< 18) ||| ((b1 &&& 0x3F) <<< 12) ||| ((b2 &&& 0x3F) <<< 6) ||| (b3 &&& 0x3F)
      = (b0 % 8) * 262144 + (b1 % 64) * 4096 + (b2 % 64) * 64 + b3 % 64 := by
  rw [and_0x3F, and_0x3F, and_0x3F, and_0x07,
    or_low 18 _ ((b1 % 64) <<< 12) (by rw [Nat.shiftLeft_eq]; omega), Nat.shiftLeft_eq (b1 % 64)]
  have e1 : (b0 % 8 * 2 ^ 18 + b1 % 64 * 2 ^ 12) = (b0 % 8 * 64 + b1 % 64) <<< 12 := by
    rw [Nat.shiftLeft_eq]; omega
  rw [e1, or_low 12 _ ((b2 % 64) <<< 6) (by rw [Nat.shiftLeft_eq]; omega), Nat.shiftLeft_eq (b2 % 64)]
  have e2 : ((b0 % 8 * 64 + b1 % 64) * 2 ^ 12 + b2 % 64 * 2 ^ 6)
      = ((b0 % 8 * 64 + b1 % 64) * 64 + b2 % 64) <<< 6 := by
    rw [Nat.shiftLeft_eq]; omega
  rw [e2, or_low 6 _ _ (by omega)]; omega

theorem first_bad (b : Nat) (h : 0x80 ≤ b) (h2 : b < 0xC2 ∨ 0xF4 < b) : first b = 0xF1 := by
  unfold first; split_ifs <;> first | rfl | omega

theorem DecodeRune_bad (b : Byte) (rest : List Byte) (h : 0x80 ≤ b.val)
    (h2 : b.val < 0xC2 ∨ 0xF4 < b.val) : DecodeRune (b :: rest) = (RuneError, 1) := by
  simp [DecodeRune, first_bad b.val h h2]

theorem DecodeRune_ascii (b : Byte) (rest : List Byte) (h : b.val < 0x80) :
    DecodeRune (b :: rest) = (b.val, 1) := by
  have : first b.val = 0xF0 := by unfold first; simp [h]
  simp [DecodeRune, this]

/-- The size and the accepted range of the second byte, for a first byte in
`0xC2 .. 0xF4`. -/
theorem first_info (b : Nat) (h : 0xC2 ≤ b) (h2 : b ≤ 0xF4) :
    first b < 0xF0 ∧ first b &&& 7 = (if b < 0xE0 then 2 else if b < 0xF0 then 3 else 4) ∧
    acceptRanges (first b >>> 4) =
      (if b = 0xE0 then 0xA0 else if b = 0xF0 then 0x90 else 0x80,
       if b = 0xED then 0x9F else if b = 0xF4 then 0x8F else 0xBF) := by
  interval_cases b <;> exact ⟨by decide, rfl, rfl⟩

theorem DecodeRune_multi (p0 : Byte) (rest : List Byte) (h : 0xC2 ≤ p0.val) (h2 : p0.val ≤ 0xF4) :
    DecodeRune (p0 :: rest) =
      (let sz := if p0.val < 0xE0 then 2 else if p0.val < 0xF0 then 3 else 4
       let lo := if p0.val = 0xE0 then 0xA0 else if p0.val = 0xF0 then 0x90 else 0x80
       let hi := if p0.val = 0xED then 0x9F else if p0.val = 0xF4 then 0x8F else 0xBF
       if (p0 :: rest).length < sz then (RuneError, 1)
       else
        let b1 := ((p0 :: rest).getD 1 0).val
        if b1 < lo ∨ hi < b1 then (RuneError, 1)
        else if sz ≤ 2 then (p0.val % 32 * 64 + b1 % 64, 2)
        else
          let b2 := ((p0 :: rest).getD 2 0).val
          if b2 < 0x80 ∨ 0xBF < b2 then (RuneError, 1)
          else if sz ≤ 3 then (p0.val % 16 * 4096 + b1 % 64 * 64 + b2 % 64, 3)
          else
            let b3 := ((p0 :: rest).getD 3 0).val
            if b3 < 0x80 ∨ 0xBF < b3 then (RuneError, 1)
            else (p0.val % 8 * 262144 + b1 % 64 * 4096 + b2 % 64 * 64 + b3 % 64, 4)) := by
  obtain ⟨h1, h3, h4⟩ := first_info p0.val h h2
  simp only [DecodeRune, h3, h4, decode2, decode3, decode4, Nat.not_le.mpr h1, if_false]

theorem toByte_val (b : Byte) : toByte b.val = b := by
  apply Fin.ext; simp [toByte]

theorem toByte_of_eq (n : Nat) (b : Byte) (h : n = b.val) : toByte n = b := by
  subst h; exact toByte_val b

/-- What `DecodeRune` returns at a byte that is not ASCII: either the error
`(RuneError, 1)`, or the rune of a well-formed encoding `enc` of two to four
bytes at the head of the input, which `EncodeRune` gives back. -/
theorem DecodeRune_spec (b : Byte) (rest : List Byte) (hb : 0x80 ≤ b.val)
    (h : ¬ ((DecodeRune (b :: rest)).1 = RuneError ∧ (DecodeRune (b :: rest)).2 = 1)) :
    ∃ enc tail, b :: rest = enc ++ tail ∧ (DecodeRune (b :: rest)).2 = enc.length ∧
      2 ≤ enc.length ∧ enc.length ≤ 4 ∧
      EncodeRune (DecodeRune (b :: rest)).1 = enc ∧ (∀ x ∈ enc, 0x80 ≤ x.val) ∧
      (∀ t, DecodeRune (enc ++ t) = DecodeRune (b :: rest)) ∧
      0x80 ≤ (DecodeRune (b :: rest)).1 := by
  by_cases hbad : b.val < 0xC2 ∨ 0xF4 < b.val
  · rw [DecodeRune_bad b rest hb hbad] at h; simp at h
  have hlo : 0xC2 ≤ b.val := by omega
  have hhi : b.val ≤ 0xF4 := by omega
  by_cases h2 : b.val < 0xE0
  · -- two bytes
    rcases rest with _ | ⟨b1, t⟩
    · rw [DecodeRune_multi b [] hlo hhi] at h; simp [h2] at h
    · have e : ∀ t, DecodeRune (b :: b1 :: t) =
          if b1.val < 0x80 ∨ 0xBF < b1.val then (RuneError, 1)
          else (b.val % 32 * 64 + b1.val % 64, 2) := by
        intro t
        rw [DecodeRune_multi b _ hlo hhi]
        have : ¬ b.val = 0xE0 := by omega
        have : ¬ b.val = 0xF0 := by omega
        have : ¬ b.val = 0xED := by omega
        have : ¬ b.val = 0xF4 := by omega
        simp [*]
      by_cases hb1 : b1.val < 0x80 ∨ 0xBF < b1.val
      · rw [e, if_pos hb1] at h; simp at h
      · refine ⟨[b, b1], t, rfl, ?_, by simp, by simp, ?_, ?_, ?_, ?_⟩
        · rw [e, if_neg hb1]; rfl
        · rw [e, if_neg hb1, EncodeRune_eq]
          have hr1 : ¬ (b.val % 32 * 64 + b1.val % 64 ≤ 0x7F) := by omega
          have hr2 : b.val % 32 * 64 + b1.val % 64 ≤ 0x7FF := by omega
          simp only [if_neg hr1, if_pos hr2]
          rw [toByte_of_eq _ b (by omega), toByte_of_eq _ b1 (by omega)]
        · intro x hx
          simp at hx
          rcases hx with rfl | rfl <;> omega
        · intro t'
          simp only [List.cons_append, List.nil_append]
          rw [e, e]
        · rw [e, if_neg hb1]; simp only; omega
  have hE0 : 0xE0 ≤ b.val := by omega
  by_cases h3 : b.val < 0xF0
  · -- three bytes
    have hF0 : ¬ b.val = 0xF0 := by omega
    have hF4 : ¬ b.val = 0xF4 := by omega
    rcases rest with _ | ⟨b1, _ | ⟨b2, t⟩⟩
    · rw [DecodeRune_multi b [] hlo hhi] at h; simp [h2, h3] at h
    · rw [DecodeRune_multi b _ hlo hhi] at h; simp [h2, h3] at h
    · have e : ∀ t, DecodeRune (b :: b1 :: b2 :: t) =
          if b1.val < (if b.val = 0xE0 then 0xA0 else 0x80)
              ∨ (if b.val = 0xED then 0x9F else 0xBF) < b1.val then (RuneError, 1)
          else if b2.val < 0x80 ∨ 0xBF < b2.val then (RuneError, 1)
          else (b.val % 16 * 4096 + b1.val % 64 * 64 + b2.val % 64, 3) := by
        intro t
        rw [DecodeRune_multi b _ hlo hhi]
        simp [h2, h3, hF0, hF4]
      by_cases hb1 : b1.val < (if b.val = 0xE0 then 0xA0 else 0x80)
              ∨ (if b.val = 0xED then 0x9F else 0xBF) < b1.val
      · rw [e, if_pos hb1] at h; simp at h
      by_cases hb2 : b2.val < 0x80 ∨ 0xBF < b2.val
      · rw [e, if_neg hb1, if_pos hb2] at h; simp at h
      have hb1a : 0x80 ≤ b1.val ∧ b1.val ≤ 0xBF ∧ (b.val = 0xE0 → 0xA0 ≤ b1.val)
          ∧ (b.val = 0xED → b1.val ≤ 0x9F) := by
        split_ifs at hb1 <;> omega
      refine ⟨[b, b1, b2], t, rfl, ?_, by simp, by simp, ?_, ?_, ?_, ?_⟩
      · rw [e, if_neg hb1, if_neg hb2]; rfl
      · rw [e, if_neg hb1, if_neg hb2, EncodeRune_eq]
        have hr1 : ¬ (b.val % 16 * 4096 + b1.val % 64 * 64 + b2.val % 64 ≤ 0x7F) := by omega
        have hr2 : ¬ (b.val % 16 * 4096 + b1.val % 64 * 64 + b2.val % 64 ≤ 0x7FF) := by omega
        have hr3 : b.val % 16 * 4096 + b1.val % 64 * 64 + b2.val % 64 < 0xD800
            ∨ (0xDFFF < b.val % 16 * 4096 + b1.val % 64 * 64 + b2.val % 64
              ∧ b.val % 16 * 4096 + b1.val % 64 * 64 + b2.val % 64 ≤ 0xFFFF) := by omega
        simp only [if_neg hr1, if_neg hr2, if_pos hr3]
        rw [toByte_of_eq _ b (by omega), toByte_of_eq _ b1 (by omega),
          toByte_of_eq _ b2 (by omega)]
      · intro x hx
        simp at hx
        rcases hx with rfl | rfl | rfl <;> omega
      · intro t'
        simp only [List.cons_append, List.nil_append]
        rw [e, e]
      · rw [e, if_neg hb1, if_neg hb2]; simp only; omega
  · -- four bytes
    have hF0 : 0xF0 ≤ b.val := by omega
    have hnE0 : ¬ b.val = 0xE0 := by omega
    have hnED : ¬ b.val = 0xED := by omega
    rcases rest with _ | ⟨b1, _ | ⟨b2, _ | ⟨b3, t⟩⟩⟩
    · rw [DecodeRune_multi b [] hlo hhi] at h; simp [h2, h3] at h
    · rw [DecodeRune_multi b _ hlo hhi] at h; simp [h2, h3] at h
    · rw [DecodeRune_multi b _ hlo hhi] at h; simp [h2, h3] at h
    · have e : ∀ t, DecodeRune (b :: b1 :: b2 :: b3 :: t) =
          if b1.val < (if b.val = 0xF0 then 0x90 else 0x80)
              ∨ (if b.val = 0xF4 then 0x8F else 0xBF) < b1.val then (RuneError, 1)
          else if b2.val < 0x80 ∨ 0xBF < b2.val then (RuneError, 1)
          else if b3.val < 0x80 ∨ 0xBF < b3.val then (RuneError, 1)
          else (b.val % 8 * 262144 + b1.val % 64 * 4096 + b2.val % 64 * 64 + b3.val % 64, 4) := by
        intro t
        rw [DecodeRune_multi b _ hlo hhi]
        simp [h2, h3, hnE0, hnED]
      by_cases hb1 : b1.val < (if b.val = 0xF0 then 0x90 else 0x80)
              ∨ (if b.val = 0xF4 then 0x8F else 0xBF) < b1.val
      · rw [e, if_pos hb1] at h; simp at h
      by_cases hb2 : b2.val < 0x80 ∨ 0xBF < b2.val
      · rw [e, if_neg hb1, if_pos hb2] at h; simp at h
      by_cases hb3 : b3.val < 0x80 ∨ 0xBF < b3.val
      · rw [e, if_neg hb1, if_neg hb2, if_pos hb3] at h; simp at h
      have hb1a : 0x80 ≤ b1.val ∧ b1.val ≤ 0xBF ∧ (b.val = 0xF0 → 0x90 ≤ b1.val)
          ∧ (b.val = 0xF4 → b1.val ≤ 0x8F) := by
        split_ifs at hb1 <;> omega
      refine ⟨[b, b1, b2, b3], t, rfl, ?_, by simp, by simp, ?_, ?_, ?_, ?_⟩
      · rw [e, if_neg hb1, if_neg hb2, if_neg hb3]; rfl
      · rw [e, if_neg hb1, if_neg hb2, if_neg hb3, EncodeRune_eq]
        have hr1 : ¬ (b.val % 8 * 262144 + b1.val % 64 * 4096 + b2.val % 64 * 64 + b3.val % 64
            ≤ 0x7F) := by omega
        have hr2 : ¬ (b.val % 8 * 262144 + b1.val % 64 * 4096 + b2.val % 64 * 64 + b3.val % 64
            ≤ 0x7FF) := by omega
        have hr3 : ¬ (b.val % 8 * 262144 + b1.val % 64 * 4096 + b2.val % 64 * 64 + b3.val % 64
              < 0xD800
            ∨ (0xDFFF < b.val % 8 * 262144 + b1.val % 64 * 4096 + b2.val % 64 * 64 + b3.val % 64
              ∧ b.val % 8 * 262144 + b1.val % 64 * 4096 + b2.val % 64 * 64 + b3.val % 64
                ≤ 0xFFFF)) := by omega
        have hr4 : 0xFFFF < b.val % 8 * 262144 + b1.val % 64 * 4096 + b2.val % 64 * 64
              + b3.val % 64
            ∧ b.val % 8 * 262144 + b1.val % 64 * 4096 + b2.val % 64 * 64 + b3.val % 64
              ≤ 0x10FFFF := by omega
        simp only [if_neg hr1, if_neg hr2, if_neg hr3, if_pos hr4]
        rw [toByte_of_eq _ b (by omega), toByte_of_eq _ b1 (by omega),
          toByte_of_eq _ b2 (by omega), toByte_of_eq _ b3 (by omega)]
      · intro x hx
        simp at hx
        rcases hx with rfl | rfl | rfl | rfl <;> omega
      · intro t'
        simp only [List.cons_append, List.nil_append]
        rw [e, e]
      · rw [e, if_neg hb1, if_neg hb2, if_neg hb3]; simp only; omega

theorem DecodeRune_size (b : Byte) (rest : List Byte) :
    1 ≤ (DecodeRune (b :: rest)).2 ∧ (DecodeRune (b :: rest)).2 ≤ 4 := by
  by_cases hb : b.val < 0x80
  · rw [DecodeRune_ascii b rest hb]; simp
  · by_cases h : (DecodeRune (b :: rest)).1 = RuneError ∧ (DecodeRune (b :: rest)).2 = 1
    · rw [h.2]; simp
    · obtain ⟨enc, tail, -, h2, h3, h4, -⟩ := DecodeRune_spec b rest (by omega) h
      omega

theorem unquoteLoop_fuel : ∀ (F G : Nat) (x : List Byte), x.length ≤ F → x.length ≤ G →
    unquoteLoop F x = unquoteLoop G x := by
  intro F
  induction F with
  | zero =>
    intro G x hF hG
    have : x = [] := List.length_eq_zero.mp (by omega)
    subst this
    cases G <;> simp [unquoteLoop]
  | succ F ih =>
    intro G x hF hG
    rcases x with _ | ⟨c, rest⟩
    · cases G <;> simp [unquoteLoop]
    · rcases G with _ | G
      · simp at hG
      have hsz := DecodeRune_size c rest
      simp only [List.length_cons] at hF hG
      have key : ∀ y : List Byte, y.length ≤ rest.length → unquoteLoop F y = unquoteLoop G y :=
        fun y hy => ih G y (by omega) (by omega)
      rcases rest with _ | ⟨e, rest1⟩
      · simp only [unquoteLoop]
        have k0 := key [] (by simp)
        have k5 := key ([c].drop (DecodeRune [c]).2) (by simp; omega)
        rw [k0, k5]
      · simp only [unquoteLoop]
        have k1 := key rest1 (by simp)
        have k2 := key (e :: rest1) (by simp)
        have k3 := key ((c :: e :: rest1).drop 6) (by simp; omega)
        have k4 := key (((c :: e :: rest1).drop 6).drop 6) (by simp; omega)
        have k5 := key ((c :: e :: rest1).drop (DecodeRune (c :: e :: rest1)).2)
          (by simp; omega)
        rw [k1, k2, k3, k4, k5]

theorem DecodeRune_take (p : List Byte) : DecodeRune (p.take UTFMax) = DecodeRune p := by
  rcases p with _ | ⟨b, rest⟩
  · rfl
  by_cases hb : b.val < 0x80
  · simp only [UTFMax, List.take_succ_cons]
    rw [DecodeRune_ascii b _ hb, DecodeRune_ascii b _ hb]
  have hb2 : 0x80 ≤ b.val := by omega
  by_cases h : (DecodeRune (b :: rest)).1 = RuneError ∧ (DecodeRune (b :: rest)).2 = 1
  · by_cases h2 : (DecodeRune ((b :: rest).take UTFMax)).1 = RuneError
        ∧ (DecodeRune ((b :: rest).take UTFMax)).2 = 1
    · exact Prod.ext (h2.1.trans h.1.symm) (h2.2.trans h.2.symm)
    · exfalso
      simp only [UTFMax, List.take_succ_cons] at h2
      obtain ⟨enc, tail, h3, -, -, -, -, -, h4, -⟩ := DecodeRune_spec b _ hb2 h2
      have e : b :: rest = enc ++ (tail ++ rest.drop 3) := by
        rw [← List.append_assoc, ← h3]; simp
      rw [e, h4] at h
      exact h2 h
  · obtain ⟨enc, tail, h3, h5, h6, h7, -, -, h4, -⟩ := DecodeRune_spec b _ hb2 h
    have e : (b :: rest).take UTFMax = enc ++ tail.take (UTFMax - enc.length) := by
      rw [h3, List.take_append_eq_append_take, List.take_of_length_le (by simp [UTFMax]; omega)]
    rw [e, h4]

theorem getu4_hex : ∀ b : Nat, b < 0x80 →
    getu4 (0x5C :: 0x75 :: 0x30 :: 0x30 :: hex (b >>> 4) :: hex (b &&& 0xF) :: []) = some b := by
  decide

theorem getu4_tail (a b c d e f : Byte) (X : List Byte) :
    getu4 (a :: b :: c :: d :: e :: f :: X) = getu4 [a, b, c, d, e, f] := rfl

theorem unquoteLoop_plain (F : Nat) (c : Byte) (rest : List Byte)
    (h : c.val ≠ 0x5C ∧ c.val ≠ 0x22 ∧ 0x20 ≤ c.val ∧ c.val < 0x80) :
    unquoteLoop (F + 1) (c :: rest) = (unquoteLoop F rest).map (fun t => c :: t) := by
  obtain ⟨h1, h2, h3, h4⟩ := h
  have h5 : ¬ (c.val = 0x22 ∨ c.val < 0x20) := by omega
  simp only [unquoteLoop, if_neg h1, if_neg h5, RuneSelf, if_pos h4]

theorem unquoteLoop_rune (F : Nat) (enc X : List Byte) (r : Nat)
    (h1 : ∀ t, DecodeRune (enc ++ t) = (r, enc.length)) (h2 : EncodeRune r = enc)
    (h3 : ∀ x ∈ enc, 0x80 ≤ x.val) (h4 : 2 ≤ enc.length) :
    unquoteLoop (F + 1) (enc ++ X) = (unquoteLoop F X).map (fun t => enc ++ t) := by
  rcases enc with _ | ⟨c, enc1⟩
  · simp at h4
  have hc := h3 c (by simp)
  have e1 : ¬ c.val = 0x5C := by omega
  have e2 : ¬ (c.val = 0x22 ∨ c.val < 0x20) := by omega
  have e3 : ¬ c.val < RuneSelf := by simp [RuneSelf]; omega
  have e4 := h1 X
  simp only [List.cons_append] at e4
  rw [List.cons_append]
  simp only [unquoteLoop, if_neg e1, if_neg e2, if_neg e3]
  rw [e4]
  simp only [h2]
  have e5 : List.drop (c :: enc1).length (c :: (enc1 ++ X)) = X := by
    rw [← List.cons_append, List.drop_left]
  rw [e5]

theorem unquoteLoop_u (F : Nat) (h0 h1 h2 h3 : Byte) (X : List Byte) (r : Nat)
    (h : getu4 [0x5C, 0x75, h0, h1, h2, h3] = some r) (hs : IsSurrogate r = false) :
    unquoteLoop (F + 1) (0x5C :: 0x75 :: h0 :: h1 :: h2 :: h3 :: X)
      = (unquoteLoop F X).map (fun t => EncodeRune r ++ t) := by
  simp [unquoteLoop, getu4_tail, h, hs, Fin.coe_ofNat_eq_mod]

theorem EncodeRune_ascii (b : Byte) (h : b.val < 0x80) : EncodeRune b.val = [b] := by
  rw [EncodeRune_eq, if_pos (by omega), toByte_val]

theorem unquoteLoop_escapeASCII (F : Nat) (b : Byte) (X : List Byte) (hb : b.val < 0x80)
    (hs : htmlSafeSet b.val = false) :
    unquoteLoop (F + 1) (escapeASCII b ++ X) = (unquoteLoop F X).map (fun t => b :: t) := by
  unfold escapeASCII
  split_ifs with c1 c2 c3 c4 c5 c6
  · rcases c1 with c1 | c1 <;> simp [unquoteLoop, c1, Fin.coe_ofNat_eq_mod]
  · have : b = 0x08 := Fin.ext c2
    subst this; simp [unquoteLoop, Fin.coe_ofNat_eq_mod]
  · have : b = 0x0C := Fin.ext c3
    subst this; simp [unquoteLoop, Fin.coe_ofNat_eq_mod]
  · have : b = 0x0A := Fin.ext c4
    subst this; simp [unquoteLoop, Fin.coe_ofNat_eq_mod]
  · have : b = 0x0D := Fin.ext c5
    subst this; simp [unquoteLoop, Fin.coe_ofNat_eq_mod]
  · have : b = 0x09 := Fin.ext c6
    subst this; simp [unquoteLoop, Fin.coe_ofNat_eq_mod]
  · have e := unquoteLoop_u F 0x30 0x30 (hex (b.val >>> 4)) (hex (b.val &&& 0xF)) X b.val
      (getu4_hex b.val hb) (by simp [IsSurrogate]; omega)
    rw [EncodeRune_ascii b hb] at e
    simpa using e

theorem ascii_ufffd : ascii "\\ufffd" = [0x5C, 0x75, 0x66, 0x66, 0x66, 0x64] := by decide

theorem ascii_u202 : ascii "\\u202" = [0x5C, 0x75, 0x32, 0x30, 0x32] := by decide

/-- The two cases of `appendStringLoop` and of `toValidLoop` at a byte that is
not ASCII, in terms of the encoding at the head of the input. -/
theorem loops_at_rune (fuel : Nat) (b : Byte) (rest : List Byte) (hb : 0x80 ≤ b.val) :
    (DecodeRune (b :: rest) = (RuneError, 1) ∧
      appendStringLoop (fuel + 1) (b :: rest)
        = [0x5C, 0x75, 0x66, 0x66, 0x66, 0x64] ++ appendStringLoop fuel rest ∧
      toValidLoop (fuel + 1) (b :: rest) = EncodeRune RuneError ++ toValidLoop fuel rest) ∨
    (∃ enc tail r, b :: rest = enc ++ tail ∧ 2 ≤ enc.length ∧ enc.length ≤ 4 ∧
      (∀ t, DecodeRune (enc ++ t) = (r, enc.length)) ∧ EncodeRune r = enc ∧
      (∀ x ∈ enc, 0x80 ≤ x.val) ∧ 0x80 ≤ r ∧
      toValidLoop (fuel + 1) (b :: rest) = enc ++ toValidLoop fuel tail ∧
      ((r = 0x2028 ∨ r = 0x2029) ∧ appendStringLoop (fuel + 1) (b :: rest)
          = [0x5C, 0x75, 0x32, 0x30, 0x32, hex (r &&& 0xF)] ++ appendStringLoop fuel tail
        ∨ ¬ (r = 0x2028 ∨ r = 0x2029) ∧ appendStringLoop (fuel + 1) (b :: rest)
          = enc ++ appendStringLoop fuel tail)) := by
  have hb1 : ¬ b.val < RuneSelf := by simp [RuneSelf]; omega
  by_cases hd : (DecodeRune (b :: rest)).1 = RuneError ∧ (DecodeRune (b :: rest)).2 = 1
  · left
    refine ⟨Prod.ext hd.1 hd.2, ?_, ?_⟩
    · simp only [appendStringLoop, if_neg hb1, DecodeRune_take, if_pos hd, ascii_ufffd]
    · simp only [toValidLoop, if_pos hd]
  · right
    obtain ⟨enc, tail, h1, h2, h3, h4, h5, h6, h7, h8⟩ := DecodeRune_spec b rest hb hd
    have e : DecodeRune (b :: rest) = ((DecodeRune (b :: rest)).1, enc.length) :=
      Prod.ext rfl h2
    have etake : (b :: rest).take (DecodeRune (b :: rest)).2 = enc := by
      rw [h2, h1, List.take_left]
    have edrop : (b :: rest).drop (DecodeRune (b :: rest)).2 = tail := by
      rw [h2, h1, List.drop_left]
    refine ⟨enc, tail, (DecodeRune (b :: rest)).1, h1, h3, h4, ?_, h5, h6, h8, ?_, ?_⟩
    · intro t; rw [h7 t]; exact e
    · simp only [toValidLoop, if_neg hd, etake, edrop]
    · by_cases h28 : (DecodeRune (b :: rest)).1 = 0x2028 ∨ (DecodeRune (b :: rest)).1 = 0x2029
      · left
        refine ⟨h28, ?_⟩
        simp only [appendStringLoop, if_neg hb1, DecodeRune_take, if_neg hd, if_pos h28,
          ascii_u202, edrop]
        rfl
      · right
        refine ⟨h28, ?_⟩
        simp only [appendStringLoop, if_neg hb1, DecodeRune_take, if_neg hd, if_neg h28,
          etake, edrop]

theorem loops_at_ascii (fuel : Nat) (b : Byte) (rest : List Byte) (hb : b.val < 0x80) :
    toValidLoop (fuel + 1) (b :: rest) = b :: toValidLoop fuel rest ∧
    appendStringLoop (fuel + 1) (b :: rest)
      = (if htmlSafeSet b.val then [b] else escapeASCII b) ++ appendStringLoop fuel rest := by
  have hb1 : b.val < RuneSelf := by simp [RuneSelf]; omega
  constructor
  · have : ¬ (b.val = RuneError) := by simp [RuneError]; omega
    simp [toValidLoop, DecodeRune_ascii b rest hb, this]
  · simp only [appendStringLoop, if_pos hb1]
    split_ifs <;> rfl

/-- Unquoting what `appendString` wrote between the quotes gives the source
string coerced to valid UTF-8. -/
theorem unquoteLoop_appendStringLoop : ∀ (fuel : Nat) (src : List Byte) (F : Nat),
    src.length ≤ fuel → (appendStringLoop fuel src).length ≤ F →
    unquoteLoop F (appendStringLoop fuel src) = some (toValidLoop fuel src) := by
  intro fuel
  induction fuel with
  | zero =>
    intro src F _ _
    cases F <;> simp [appendStringLoop, unquoteLoop, toValidLoop]
  | succ fuel ih =>
    intro src F hsrc hF
    rcases src with _ | ⟨b, rest⟩
    · cases F <;> simp [appendStringLoop, unquoteLoop, toValidLoop]
    simp only [List.length_cons] at hsrc
    by_cases hb : b.val < 0x80
    · obtain ⟨e1, e2⟩ := loops_at_ascii fuel b rest hb
      rw [e2] at hF ⊢
      rw [e1]
      by_cases hs : htmlSafeSet b.val = true
      · simp only [hs, if_true, List.singleton_append, List.length_cons] at hF ⊢
        obtain ⟨F, rfl⟩ : ∃ F', F = F' + 1 := ⟨F - 1, by omega⟩
        have hp : b.val ≠ 0x5C ∧ b.val ≠ 0x22 ∧ 0x20 ≤ b.val ∧ b.val < 0x80 := by
          simp [htmlSafeSet] at hs; omega
        rw [unquoteLoop_plain F b _ hp, ih rest F (by omega) (by omega)]
        rfl
      · have hs2 : htmlSafeSet b.val = false := by simpa using hs
        simp only [hs2, Bool.false_eq_true, if_false, List.length_append] at hF ⊢
        have hl : 2 ≤ (escapeASCII b).length := by
          unfold escapeASCII; split_ifs <;> simp
        obtain ⟨F, rfl⟩ : ∃ F', F = F' + 1 := ⟨F - 1, by omega⟩
        rw [unquoteLoop_escapeASCII F b _ hb hs2, ih rest F (by omega) (by omega)]
        rfl
    · rcases loops_at_rune fuel b rest (by omega) with ⟨-, e1, e2⟩ |
        ⟨enc, tail, r, h1, h2, h3, h4, h5, h6, h7, e2, e1⟩
      · rw [e1] at hF ⊢
        rw [e2]
        simp only [List.length_append, List.length_cons, List.length_nil] at hF
        obtain ⟨F, rfl⟩ : ∃ F', F = F' + 1 := ⟨F - 1, by omega⟩
        have := unquoteLoop_u F 0x66 0x66 0x66 0x64 (appendStringLoop fuel rest) RuneError
          (by decide) (by decide)
        simp only [List.cons_append, List.nil_append] at this ⊢
        rw [this, ih rest F (by omega) (by omega)]
        rfl
      · have hlen : enc.length + tail.length = rest.length + 1 := by
          have := congrArg List.length h1
          simp only [List.length_cons, List.length_append] at this
          omega
        rw [e2]
        rcases e1 with ⟨h28, e1⟩ | ⟨h28, e1⟩
        · rw [e1] at hF ⊢
          simp only [List.length_append, List.length_cons, List.length_nil] at hF
          obtain ⟨F, rfl⟩ : ∃ F', F = F' + 1 := ⟨F - 1, by omega⟩
          have hg : getu4 [0x5C, 0x75, 0x32, 0x30, 0x32, hex (r &&& 0xF)] = some r := by
            rcases h28 with rfl | rfl <;> decide
          have := unquoteLoop_u F 0x32 0x30 0x32 (hex (r &&& 0xF)) (appendStringLoop fuel tail) r
            hg (by rcases h28 with rfl | rfl <;> decide)
          simp only [List.cons_append, List.nil_append] at this ⊢
          rw [this, ih tail F (by omega) (by omega), h5]
          rfl
        · rw [e1] at hF ⊢
          simp only [List.length_append] at hF
          obtain ⟨F, rfl⟩ : ∃ F', F = F' + 1 := ⟨F - 1, by omega⟩
          rw [unquoteLoop_rune F enc _ r h4 h5 h6 h2, ih tail F (by omega) (by omega)]
          rfl

theorem unquoteLoop_nil (F : Nat) : unquoteLoop F [] = some [] := by
  cases F <;> rfl

/-- The first loop of `unquoteBytes` passes over bytes that the second loop
copies unchanged. -/
theorem unquoteScan_spec : ∀ (F : Nat) (x : List Byte) (G : Nat), x.length ≤ F → x.length ≤ G →
    unquoteScan F x ≤ x.length ∧
    unquoteLoop G x = (unquoteLoop (x.length - unquoteScan F x) (x.drop (unquoteScan F x))).map
      (fun t => x.take (unquoteScan F x) ++ t) := by
  intro F
  induction F with
  | zero =>
    intro x G hF _
    have : x = [] := List.length_eq_zero.mp (by omega)
    subst this
    simp [unquoteScan, unquoteLoop_nil]
  | succ F ih =>
    intro x G hF hG
    rcases x with _ | ⟨c, rest⟩
    · simp [unquoteScan, unquoteLoop_nil]
    simp only [List.length_cons] at hF hG
    have zero_case : unquoteScan (F + 1) (c :: rest) = 0 →
        unquoteScan (F + 1) (c :: rest) ≤ (c :: rest).length ∧
        unquoteLoop G (c :: rest) = (unquoteLoop ((c :: rest).length - unquoteScan (F + 1) (c :: rest))
          ((c :: rest).drop (unquoteScan (F + 1) (c :: rest)))).map
          (fun t => (c :: rest).take (unquoteScan (F + 1) (c :: rest)) ++ t) := by
      intro h0
      rw [h0]
      refine ⟨by omega, ?_⟩
      simp only [Nat.sub_zero, List.drop_zero, List.take_zero, List.nil_append]
      rw [unquoteLoop_fuel G (c :: rest).length (c :: rest) (by simpa using hG) (le_refl _)]
      simp
    by_cases hsp : c.val = 0x5C ∨ c.val = 0x22 ∨ c.val < 0x20
    · exact zero_case (by simp only [unquoteScan, if_pos hsp])
    obtain ⟨G, rfl⟩ : ∃ G', G = G' + 1 := ⟨G - 1, by omega⟩
    by_cases hb : c.val < 0x80
    · have hb1 : c.val < RuneSelf := by simp [RuneSelf]; omega
      have es : unquoteScan (F + 1) (c :: rest) = unquoteScan F rest + 1 := by
        simp only [unquoteScan, if_neg hsp, if_pos hb1]
      obtain ⟨i1, i2⟩ := ih rest G (by omega) (by omega)
      rw [es, unquoteLoop_plain G c rest (by omega), i2]
      refine ⟨by simp only [List.length_cons]; omega, ?_⟩
      simp only [List.length_cons, Nat.add_sub_add_right, List.drop_succ_cons,
        List.take_succ_cons, Option.map_map]
      rfl
    · have hb1 : ¬ c.val < RuneSelf := by simp [RuneSelf]; omega
      by_cases hd : (DecodeRune (c :: rest)).1 = RuneError ∧ (DecodeRune (c :: rest)).2 = 1
      · exact zero_case (by simp only [unquoteScan, if_neg hsp, if_neg hb1, if_pos hd])
      · obtain ⟨enc, tail, h1, h2, h3, h4, h5, h6, h7, h8⟩ :=
          DecodeRune_spec c rest (by omega) hd
        have es : unquoteScan (F + 1) (c :: rest) = unquoteScan F tail + enc.length := by
          simp only [unquoteScan, if_neg hsp, if_neg hb1, if_neg hd]
          rw [h2, h1, List.drop_left]
        have hlen : enc.length + tail.length = rest.length + 1 := by
          have := congrArg List.length h1
          simp only [List.length_cons, List.length_append] at this
          omega
        obtain ⟨i1, i2⟩ := ih tail G (by omega) (by omega)
        have hr : ∀ t, DecodeRune (enc ++ t) = ((DecodeRune (c :: rest)).1, enc.length) := by
          intro t; rw [h7 t]; exact Prod.ext rfl h2
        rw [es, h1, unquoteLoop_rune G enc tail _ hr h5 h6 h3, i2]
        refine ⟨by simp only [List.length_append]; omega, ?_⟩
        have e1 : (enc ++ tail).length - (unquoteScan F tail + enc.length)
            = tail.length - unquoteScan F tail := by
          simp only [List.length_append]; omega
        have e2 : (enc ++ tail).drop (unquoteScan F tail + enc.length)
            = tail.drop (unquoteScan F tail) := by
          rw [Nat.add_comm, ← List.drop_drop, List.drop_left]
        have e3 : (enc ++ tail).take (unquoteScan F tail + enc.length)
            = enc ++ tail.take (unquoteScan F tail) := by
          rw [Nat.add_comm, List.take_append]
        rw [e1, e2, e3]
        simp only [Option.map_map]
        congr 1
        funext t
        simp

/-- The function `unquoteBytes` on a quoted literal is its second loop run over
everything between the quotes. -/
theorem unquoteBytes_quote (body : List Byte) :
    unquoteBytes (0x22 :: (body ++ [0x22])) = unquoteLoop body.length body := by
  have e1 : ¬ ((0x22 :: (body ++ [0x22])).length < 2
      ∨ ((0x22 :: (body ++ [0x22])).head?.map Fin.val) ≠ some 0x22
      ∨ ((0x22 :: (body ++ [0x22])).getLast?.map Fin.val) ≠ some 0x22) := by
    have : (0x22 :: (body ++ [0x22])).getLast? = some (0x22 : Byte) := by
      rw [← List.cons_append, List.getLast?_append]; simp
    rw [this]
    simp [Fin.coe_ofNat_eq_mod]
  have e2 : ((0x22 :: (body ++ [0x22])).drop 1).dropLast = body := by
    simp
  unfold unquoteBytes
  rw [if_neg e1]
  simp only [e2]
  obtain ⟨i1, i2⟩ := unquoteScan_spec body.length body body.length (le_refl _) (le_refl _)
  split_ifs with h
  · rw [i2, h]; simp [unquoteLoop_nil]
  · rw [i2]

/-- Unquoting the literal that `appendString` writes for `src` gives `src`
coerced to valid UTF-8. -/
theorem unquoteBytes_appendString (src : GoString) :
    unquoteBytes (appendString src) = some (toValidUTF8 src) := by
  unfold appendString toValidUTF8
  rw [unquoteBytes_quote]
  exact unquoteLoop_appendStringLoop src.length src _ (le_refl _) (le_refl _)

theorem validLoop_toValidLoop : ∀ (fuel : Nat) (s : List Byte), s.length ≤ fuel →
    validLoop fuel s = true → toValidLoop fuel s = s := by
  intro fuel
  induction fuel with
  | zero =>
    intro s h _
    have : s = [] := List.length_eq_zero.mp (by omega)
    subst this; rfl
  | succ fuel ih =>
    intro s h hv
    rcases s with _ | ⟨b, rest⟩
    · rfl
    have hsz := DecodeRune_size b rest
    simp only [List.length_cons] at h
    by_cases hd : (DecodeRune (b :: rest)).1 = RuneError ∧ (DecodeRune (b :: rest)).2 = 1
    · simp [validLoop, hd] at hv
    · simp only [validLoop, if_neg hd] at hv
      simp only [toValidLoop, if_neg hd]
      rw [ih _ (by simp only [List.length_drop, List.length_cons]; omega) hv]
      exact List.take_append_drop _ _

/-- A string that is valid UTF-8 is left unchanged by the coercion. -/
theorem toValidUTF8_of_valid (s : GoString) (h : ValidString s = true) : toValidUTF8 s = s :=
  validLoop_toValidLoop s.length s (le_refl _) h

theorem hex_isHexDigit : ∀ n : Nat, n < 16 → isHexDigit (hex n) = true := by decide

theorem StringBody_append (enc t : List Byte)
    (h : ∀ x ∈ enc, 0x20 ≤ x.val ∧ x.val ≠ 0x22 ∧ x.val ≠ 0x5C) (ht : StringBody t) :
    StringBody (enc ++ t) := by
  induction enc with
  | nil => exact ht
  | cons a enc ih =>
    exact StringBody.plain a _ (h a (by simp)) (ih (fun x hx => h x (by simp [hx])))

theorem StringBody_escapeASCII (b : Byte) (t : List Byte) (hb : b.val < 0x80)
    (ht : StringBody t) : StringBody (escapeASCII b ++ t) := by
  unfold escapeASCII
  split_ifs with c1 c2 c3 c4 c5 c6
  · exact StringBody.esc b t (by omega) ht
  · exact StringBody.esc 0x62 t (by decide) ht
  · exact StringBody.esc 0x66 t (by decide) ht
  · exact StringBody.esc 0x6E t (by decide) ht
  · exact StringBody.esc 0x72 t (by decide) ht
  · exact StringBody.esc 0x74 t (by decide) ht
  · refine StringBody.escU 0x30 0x30 _ _ t ⟨by decide, by decide, ?_, ?_⟩ ht
    · exact hex_isHexDigit _ (by rw [Nat.shiftRight_eq_div_pow]; omega)
    · exact hex_isHexDigit _ (by rw [and_0x0F]; omega)

/-- What `appendString` writes between the quotes is the body of a JSON string
literal. -/
theorem StringBody_appendStringLoop : ∀ (fuel : Nat) (src : List Byte),
    StringBody (appendStringLoop fuel src) := by
  intro fuel
  induction fuel with
  | zero => intro src; exact StringBody.nil
  | succ fuel ih =>
    intro src
    rcases src with _ | ⟨b, rest⟩
    · exact StringBody.nil
    by_cases hb : b.val < 0x80
    · rw [(loops_at_ascii fuel b rest hb).2]
      by_cases hs : htmlSafeSet b.val = true
      · rw [if_pos hs]
        refine StringBody.plain b _ ?_ (ih rest)
        simp [htmlSafeSet] at hs; omega
      · rw [if_neg hs]
        exact StringBody_escapeASCII b _ hb (ih rest)
    · rcases loops_at_rune fuel b rest (by omega) with ⟨-, e1, -⟩ |
        ⟨enc, tail, r, h1, h2, h3, h4, h5, h6, h7, e2, e1⟩
      · rw [e1]
        exact StringBody.escU 0x66 0x66 0x66 0x64 _ (by decide) (ih rest)
      · rcases e1 with ⟨h28, e1⟩ | ⟨h28, e1⟩
        · rw [e1]
          refine StringBody.escU 0x32 0x30 0x32 _ _ ⟨by decide, by decide, by decide, ?_⟩ (ih tail)
          exact hex_isHexDigit _ (by rw [and_0x0F]; omega)
        · rw [e1]
          exact StringBody_append enc _ (fun x hx => by have := h6 x hx; omega) (ih tail)

theorem DecodeRune_replacement (t : List Byte) :
    DecodeRune (EncodeRune RuneError ++ t) = (RuneError, 3) := by
  have e : EncodeRune RuneError = [0xEF, 0xBF, 0xBD] := by decide
  rw [e]
  simp only [List.cons_append, List.nil_append]
  rw [DecodeRune_multi 0xEF _ (by decide) (by decide)]
  simp [Fin.coe_ofNat_eq_mod, RuneError]

/-- The coercion gives valid UTF-8. -/
theorem validLoop_toValidLoop_self : ∀ (fuel : Nat) (s : List Byte) (F : Nat),
    s.length ≤ fuel → (toValidLoop fuel s).length ≤ F →
    validLoop F (toValidLoop fuel s) = true := by
  intro fuel
  induction fuel with
  | zero => intro s F _ _; cases F <;> simp [toValidLoop, validLoop]
  | succ fuel ih =>
    intro s F hs hF
    rcases s with _ | ⟨b, rest⟩
    · cases F <;> simp [toValidLoop, validLoop]
    simp only [List.length_cons] at hs
    by_cases hb : b.val < 0x80
    · rw [(loops_at_ascii fuel b rest hb).1] at hF ⊢
      simp only [List.length_cons] at hF
      obtain ⟨F, rfl⟩ : ∃ F', F = F' + 1 := ⟨F - 1, by omega⟩
      have hne : ¬ (b.val = RuneError) := by simp [RuneError]; omega
      have key : validLoop (F + 1) (b :: toValidLoop fuel rest)
          = validLoop F (toValidLoop fuel rest) := by
        simp [validLoop, DecodeRune_ascii b _ hb, hne]
      rw [key]
      exact ih rest F (by omega) (by omega)
    · rcases loops_at_rune fuel b rest (by omega) with ⟨-, -, e2⟩ |
        ⟨enc, tail, r, h1, h2, h3, h4, h5, h6, h7, e2, -⟩
      · rw [e2] at hF ⊢
        have e : EncodeRune RuneError = [0xEF, 0xBF, 0xBD] := by decide
        have hd := DecodeRune_replacement (toValidLoop fuel rest)
        rw [e] at hF hd ⊢
        simp only [List.cons_append, List.nil_append, List.length_cons] at hF hd ⊢
        obtain ⟨F, rfl⟩ : ∃ F', F = F' + 1 := ⟨F - 1, by omega⟩
        have key : validLoop (F + 1) (0xEF :: 0xBF :: 0xBD :: toValidLoop fuel rest)
            = validLoop F (toValidLoop fuel rest) := by
          simp [validLoop, hd]
        rw [key]
        exact ih rest F (by omega) (by omega)
      · have hlen : enc.length + tail.length = rest.length + 1 := by
          have := congrArg List.length h1
          simp only [List.length_cons, List.length_append] at this
          omega
        rw [e2] at hF ⊢
        simp only [List.length_append] at hF
        obtain ⟨F, rfl⟩ : ∃ F', F = F' + 1 := ⟨F - 1, by omega⟩
        rcases enc with _ | ⟨c, enc1⟩
        · simp at h2
        have hd := h4 (toValidLoop fuel tail)
        rw [List.cons_append] at hd ⊢
        have hne : ¬ (r = RuneError ∧ (c :: enc1).length = 1) := by
          simp only [List.length_cons] at h2 ⊢; omega
        have hdrop : List.drop (c :: enc1).length (c :: (enc1 ++ toValidLoop fuel tail))
            = toValidLoop fuel tail := by
          rw [← List.cons_append, List.drop_left]
        have key : validLoop (F + 1) (c :: (enc1 ++ toValidLoop fuel tail))
            = validLoop F (toValidLoop fuel tail) := by
          simp only [validLoop, hd, if_neg hne, hdrop]
        rw [key]
        exact ih tail F (by omega) (by omega)

/-- The coerced string is valid UTF-8. -/
theorem toValidUTF8_valid (s : GoString) : ValidString (toValidUTF8 s) = true :=
  validLoop_toValidLoop_self s.length s _ (le_refl _) (le_refl _)

theorem isHexDigit_plain (h : Byte) (hh : isHexDigit h = true) :
    0x20 ≤ h.val ∧ h.val ≠ 0x22 ∧ h.val ≠ 0x5C := by
  simp [isHexDigit] at hh; omega

/-- The scanner, inside a string literal, passes over a body and its closing
quote without error and is then at the end of a value. -/
theorem checkValidLoop_body (x : List Byte) (hx : StringBody x) (tail : List Byte) :
    ∀ (et : Bool) (ps : List ParseState) (e : Option SyntaxError) (n : Nat),
      checkValidLoop ⟨.InString, et, ps, e, n⟩ (x ++ 0x22 :: tail)
        = checkValidLoop ⟨.EndValue, et, ps, e, n + x.length + 1⟩ tail := by
  have plain : ∀ (b : Byte) (rest : List Byte), (0x20 ≤ b.val ∧ b.val ≠ 0x22 ∧ b.val ≠ 0x5C) →
      ∀ (et : Bool) (ps : List ParseState) (e : Option SyntaxError) (n : Nat),
      checkValidLoop ⟨.InString, et, ps, e, n⟩ (b :: rest)
        = checkValidLoop ⟨.InString, et, ps, e, n + 1⟩ rest := by
    intro b rest hb et ps e n
    have h1 : ¬ b.val = 0x22 := hb.2.1
    have h2 : ¬ b.val = 0x5C := hb.2.2
    have h3 : ¬ b.val < 0x20 := by omega
    simp [checkValidLoop, scanner.doStep, h1, h2, h3]
  induction hx with
  | nil =>
    intro et ps e n
    simp [checkValidLoop, scanner.doStep, Fin.coe_ofNat_eq_mod]
  | plain b t h _ ih =>
    intro et ps e n
    rw [List.cons_append, plain b _ h, ih]
    simp only [List.length_cons]
    congr 2; omega
  | esc c t h _ ih =>
    intro et ps e n
    have step2 : checkValidLoop ⟨.InString, et, ps, e, n⟩ (0x5C :: c :: (t ++ 0x22 :: tail))
        = checkValidLoop ⟨.InString, et, ps, e, n + 2⟩ (t ++ 0x22 :: tail) := by
      simp [checkValidLoop, scanner.doStep, Fin.coe_ofNat_eq_mod, h]
    rw [List.cons_append, List.cons_append, step2, ih]
    simp only [List.length_cons]
    congr 2; omega
  | escU h0 h1 h2 h3 t h _ ih =>
    intro et ps e n
    have step6 : checkValidLoop ⟨.InString, et, ps, e, n⟩
          (0x5C :: 0x75 :: h0 :: h1 :: h2 :: h3 :: (t ++ 0x22 :: tail))
        = checkValidLoop ⟨.InString, et, ps, e, n + 6⟩ (t ++ 0x22 :: tail) := by
      simp [checkValidLoop, scanner.doStep, Fin.coe_ofNat_eq_mod, h.1, h.2.1, h.2.2.1, h.2.2.2]
    simp only [List.cons_append]
    rw [step6, ih]
    simp only [List.length_cons]
    congr 2; omega

/-- The string case of `rescanLiteral` finds the closing quote of a body. -/
theorem rescanString_body (x : List Byte) (hx : StringBody x) (tail : List Byte) :
    rescanString (x ++ 0x22 :: tail) = (x ++ [0x22], tail) := by
  have plain : ∀ (b : Byte) (y : List Byte), (0x20 ≤ b.val ∧ b.val ≠ 0x22 ∧ b.val ≠ 0x5C) →
      y ≠ [] → rescanString (b :: y) = (b :: (rescanString y).1, (rescanString y).2) := by
    intro b y hb hy
    rcases y with _ | ⟨e, rest⟩
    · exact absurd rfl hy
    · have h1 : ¬ b.val = 0x22 := hb.2.1
      have h2 : ¬ b.val = 0x5C := hb.2.2
      simp [rescanString, h1, h2]
  induction hx with
  | nil =>
    rcases tail with _ | ⟨e, rest⟩ <;> simp [rescanString, Fin.coe_ofNat_eq_mod]
  | plain b t h _ ih =>
    rw [List.cons_append, plain b _ h (by simp), ih]
    rfl
  | esc c t h _ ih =>
    have : rescanString (0x5C :: c :: (t ++ 0x22 :: tail))
        = (0x5C :: c :: (rescanString (t ++ 0x22 :: tail)).1,
            (rescanString (t ++ 0x22 :: tail)).2) := by
      simp [rescanString, Fin.coe_ofNat_eq_mod]
    rw [List.cons_append, List.cons_append, this, ih]
    rfl
  | escU h0 h1 h2 h3 t h _ ih =>
    have : rescanString (0x5C :: 0x75 :: (h0 :: h1 :: h2 :: h3 :: (t ++ 0x22 :: tail)))
        = (0x5C :: 0x75 :: (rescanString (h0 :: h1 :: h2 :: h3 :: (t ++ 0x22 :: tail))).1,
            (rescanString (h0 :: h1 :: h2 :: h3 :: (t ++ 0x22 :: tail))).2) := by
      simp [rescanString, Fin.coe_ofNat_eq_mod]
    simp only [List.cons_append]
    rw [this, plain h0 _ (isHexDigit_plain h0 h.1) (by simp),
      plain h1 _ (isHexDigit_plain h1 h.2.1) (by simp),
      plain h2 _ (isHexDigit_plain h2 h.2.2.1) (by simp),
      plain h3 _ (isHexDigit_plain h3 h.2.2.2) (by simp), ih]

theorem ascii_key1 : ascii "\x7b\"user_id\":" = [0x7B, 0x22, 0x75, 0x73, 0x65, 0x72, 0x5F, 0x69, 0x64, 0x22, 0x3A] := by decide

theorem ascii_key2 : ascii ",\"access_method\":" = [0x2C, 0x22, 0x61, 0x63, 0x63, 0x65, 0x73, 0x73, 0x5F, 0x6D, 0x65, 0x74, 0x68, 0x6F, 0x64, 0x22, 0x3A] := by decide

theorem ascii_key3 : ascii ",\"timestamp\":" = [0x2C, 0x22, 0x74, 0x69, 0x6D, 0x65, 0x73, 0x74, 0x61, 0x6D, 0x70, 0x22, 0x3A] := by decide

theorem ascii_close : ascii "\x7d" = [0x7D] := by decide

theorem name_UserID : Field.UserID.name = [0x75, 0x73, 0x65, 0x72, 0x5F, 0x69, 0x64] := by decide

theorem name_AccessMethod : Field.AccessMethod.name = [0x61, 0x63, 0x63, 0x65, 0x73, 0x73, 0x5F, 0x6D, 0x65, 0x74, 0x68, 0x6F, 0x64] := by decide

theorem name_Timestamp : Field.Timestamp.name = [0x74, 0x69, 0x6D, 0x65, 0x73, 0x74, 0x61, 0x6D, 0x70] := by decide

/-- The text that `Marshal` writes, byte by byte around the three string
bodies. -/
theorem Marshal_bytes (v : Log) : (Marshal v).1 =
    0x7B :: 0x22 :: (Field.UserID.name ++ 0x22 :: 0x3A :: (appendString v.UserID ++
    0x2C :: 0x22 :: (Field.AccessMethod.name ++ 0x22 :: 0x3A :: (appendString v.AccessMethod ++
    0x2C :: 0x22 :: (Field.Timestamp.name ++ 0x22 :: 0x3A :: (appendString v.Timestamp ++
    [0x7D])))))) := by
  simp only [Marshal, ascii_key1, ascii_key2, ascii_key3, ascii_close, name_UserID,
    name_AccessMethod, name_Timestamp, List.cons_append, List.append_assoc, List.nil_append]

theorem appendString_eq (src : GoString) :
    appendString src = 0x22 :: (appendStringLoop src.length src ++ [0x22]) := rfl

/-- The scanner passes from the beginning of a value over a string literal
written by `appendString`. -/
theorem checkValidLoop_appendString (src : GoString) (tail : List Byte) (step : ScanStep)
    (hstep : step = .BeginValue ∨ step = .BeginString)
    (et : Bool) (ps : List ParseState) (e : Option SyntaxError) (n : Nat) :
    checkValidLoop ⟨step, et, ps, e, n⟩ (appendString src ++ tail)
      = checkValidLoop ⟨.EndValue, et, ps, e, n + (appendString src).length⟩ tail := by
  have h1 : checkValidLoop ⟨step, et, ps, e, n⟩
        (0x22 :: (appendStringLoop src.length src ++ 0x22 :: tail))
      = checkValidLoop ⟨.InString, et, ps, e, n + 1⟩
        (appendStringLoop src.length src ++ 0x22 :: tail) := by
    rcases hstep with rfl | rfl <;>
      simp [checkValidLoop, scanner.doStep, stateBeginValue, stateBeginString, isSpace,
        Fin.coe_ofNat_eq_mod]
  rw [appendString_eq]
  simp only [List.cons_append, List.append_assoc, List.singleton_append, List.nil_append]
  rw [h1, checkValidLoop_body _ (StringBody_appendStringLoop _ _)]
  simp only [List.length_cons, List.length_append, List.length_nil]
  congr 2; omega

set_option maxRecDepth 100000 in
theorem StringBody_names : StringBody Field.UserID.name ∧ StringBody Field.AccessMethod.name
    ∧ StringBody Field.Timestamp.name := by
  have h : ∀ l : List Byte, (∀ x ∈ l, 0x20 ≤ x.val ∧ x.val ≠ 0x22 ∧ x.val ≠ 0x5C) →
      StringBody l := by
    intro l hl
    have := StringBody_append l [] hl StringBody.nil
    simpa using this
  refine ⟨h _ ?_, h _ ?_, h _ ?_⟩
  · rw [name_UserID]; decide
  · rw [name_AccessMethod]; decide
  · rw [name_Timestamp]; decide

/-- The scanner passes over an object member `"name":"..."` written by
`Marshal`, from the state after the opening quote of the key. -/
theorem checkValidLoop_member (name : List Byte) (hn : StringBody name) (src : GoString)
    (tail : List Byte) (ps : List ParseState) (n : Nat) :
    checkValidLoop ⟨.InString, false, .parseObjectKey :: ps, none, n⟩
        (name ++ 0x22 :: 0x3A :: (appendString src ++ tail))
      = checkValidLoop ⟨.EndValue, false, .parseObjectValue :: ps, none,
          n + name.length + 2 + (appendString src).length⟩ tail := by
  rw [checkValidLoop_body name hn]
  have h1 : checkValidLoop ⟨.EndValue, false, .parseObjectKey :: ps, none, n + name.length + 1⟩
        (0x3A :: (appendString src ++ tail))
      = checkValidLoop ⟨.BeginValue, false, .parseObjectValue :: ps, none, n + name.length + 2⟩
        (appendString src ++ tail) := by
    simp [checkValidLoop, scanner.doStep, stateEndValue, isSpace, Fin.coe_ofNat_eq_mod]
  rw [h1, checkValidLoop_appendString src tail _ (Or.inl rfl)]

/-- The text that `Marshal` writes is valid JSON. -/
theorem checkValid_Marshal (v : Log) : checkValid (Marshal v).1 = none := by
  have h0 : ∀ rest, checkValidLoop scanner.reset (0x7B :: 0x22 :: rest)
      = checkValidLoop ⟨.InString, false, [.parseObjectKey], none, 2⟩ rest := by
    intro rest
    simp [checkValidLoop, scanner.doStep, scanner.reset, stateBeginValue, stateBeginStringOrEmpty,
      stateBeginString, scanner.pushParseState, maxNestingDepth, isSpace, Fin.coe_ofNat_eq_mod]
  have hcomma : ∀ n rest, checkValidLoop ⟨.EndValue, false, [.parseObjectValue], none, n⟩
        (0x2C :: 0x22 :: rest)
      = checkValidLoop ⟨.InString, false, [.parseObjectKey], none, n + 2⟩ rest := by
    intro n rest
    simp [checkValidLoop, scanner.doStep, stateEndValue, stateBeginString, isSpace,
      Fin.coe_ofNat_eq_mod]
  have hclose : ∀ n, checkValidLoop ⟨.EndValue, false, [.parseObjectValue], none, n⟩ [0x7D]
      = (⟨.EndTop, true, [], none, n + 1⟩, true) := by
    intro n
    simp [checkValidLoop, scanner.doStep, stateEndValue, scanner.popParseState, isSpace,
      Fin.coe_ofNat_eq_mod]
  obtain ⟨n1, n2, n3⟩ := StringBody_names
  unfold checkValid
  rw [Marshal_bytes, h0, checkValidLoop_member _ n1, hcomma, checkValidLoop_member _ n2, hcomma,
    checkValidLoop_member _ n3, hclose]
  simp [scanner.eof]

theorem skipSpace_cons (c : Byte) (rest : List Byte) (h : isSpace c = false) :
    skipSpace (c :: rest) = c :: rest := by
  simp [skipSpace, h]

theorem rescanLiteral_string (body tail : List Byte) (hb : StringBody body) :
    rescanLiteral (0x22 :: (body ++ 0x22 :: tail)) = (0x22 :: (body ++ [0x22]), tail) := by
  simp [rescanLiteral, rescanString_body body hb, Fin.coe_ofNat_eq_mod]

/-- The value of a member whose key selected the field `f`, when the value is
a string literal written by `appendString`: the field is set to the string,
coerced to valid UTF-8. -/
theorem valueField_appendString (src : GoString) (tail : List Byte) (se : Option GoError)
    (v : Log) (f : Field) :
    valueField ⟨appendString src ++ tail, se, v⟩ (some f)
      = ⟨tail, se, v.set f (toValidUTF8 src)⟩ := by
  have e : appendString src ++ tail
      = 0x22 :: (appendStringLoop src.length src ++ 0x22 :: tail) := by
    simp [appendString_eq]
  rw [e]
  simp only [valueField]
  rw [rescanLiteral_string _ _ (StringBody_appendStringLoop _ _)]
  have := unquoteBytes_appendString src
  rw [appendString_eq] at this
  simp [literalStore, this, Fin.coe_ofNat_eq_mod]

/-- One turn of the object loop over a member `"key":"..."` written by
`Marshal`, followed by the byte `sep`. -/
theorem objectLoop_member (fuel : Nat) (key name : List Byte) (f : Field) (src : GoString)
    (sep : Byte) (rest : List Byte) (se : Option GoError) (v : Log)
    (hk : StringBody key) (hu : unquoteBytes (0x22 :: (key ++ [0x22])) = some name)
    (hl : lookupField name = some f) (hsep : isSpace sep = false) :
    objectLoop (fuel + 1) ⟨0x22 :: (key ++ 0x22 :: 0x3A :: (appendString src ++ sep :: rest)), se, v⟩
      = if sep.val = 0x7D then ⟨rest, se, v.set f (toValidUTF8 src)⟩
        else if sep.val = 0x2C then objectLoop fuel ⟨rest, se, v.set f (toValidUTF8 src)⟩
        else decodeState.phasePanic ⟨sep :: rest, se, v.set f (toValidUTF8 src)⟩ := by
  have s1 : isSpace (0x22 : Byte) = false := by decide
  have s2 : isSpace (0x3A : Byte) = false := by decide
  have s3 : skipSpace (appendString src ++ sep :: rest) = appendString src ++ sep :: rest := by
    rw [appendString_eq]; exact skipSpace_cons _ _ s1
  simp only [objectLoop]
  rw [skipSpace_cons _ _ s1]
  simp only [rescanLiteral_string key _ hk, hu, skipSpace_cons _ _ s2, s3, hl,
    valueField_appendString, skipSpace_cons _ _ hsep]
  simp [Fin.coe_ofNat_eq_mod]

set_option maxRecDepth 100000 in
theorem unquoteBytes_names : ∀ f : Field,
    unquoteBytes (0x22 :: (f.name ++ [0x22])) = some f.name ∧ lookupField f.name = some f := by
  intro f; cases f <;> decide

/-- The object loop over the three members that `Marshal` writes. -/
theorem objectLoop_Marshal (fuel : Nat) (v v0 : Log) (se : Option GoError) :
    objectLoop (fuel + 3) ⟨0x22 :: (Field.UserID.name ++ 0x22 :: 0x3A :: (appendString v.UserID ++
      0x2C :: 0x22 :: (Field.AccessMethod.name ++ 0x22 :: 0x3A :: (appendString v.AccessMethod ++
      0x2C :: 0x22 :: (Field.Timestamp.name ++ 0x22 :: 0x3A :: (appendString v.Timestamp ++
      [0x7D])))))), se, v0⟩
      = ⟨[], se, ⟨toValidUTF8 v.UserID, toValidUTF8 v.AccessMethod, toValidUTF8 v.Timestamp⟩⟩ := by
  obtain ⟨n1, n2, n3⟩ := StringBody_names
  have c1 : isSpace (0x2C : Byte) = false := by decide
  have c2 : isSpace (0x7D : Byte) = false := by decide
  rw [objectLoop_member (fuel + 2) _ _ .UserID v.UserID 0x2C _ se v0 n1
    (unquoteBytes_names .UserID).1 (unquoteBytes_names .UserID).2 c1]
  rw [if_neg (by decide), if_pos (by decide)]
  rw [objectLoop_member (fuel + 1) _ _ .AccessMethod v.AccessMethod 0x2C _ se _ n2
    (unquoteBytes_names .AccessMethod).1 (unquoteBytes_names .AccessMethod).2 c1]
  rw [if_neg (by decide), if_pos (by decide)]
  rw [objectLoop_member fuel _ _ .Timestamp v.Timestamp 0x7D _ se _ n3
    (unquoteBytes_names .Timestamp).1 (unquoteBytes_names .Timestamp).2 c2]
  rw [if_pos (by decide)]
  rfl

/-- Decoding what `Marshal` wrote succeeds and gives the three fields, each
coerced to valid UTF-8. -/
theorem Unmarshal_Marshal (v v0 : Log) :
    Unmarshal (Marshal v).1 v0
      = (⟨toValidUTF8 v.UserID, toValidUTF8 v.AccessMethod, toValidUTF8 v.Timestamp⟩, none) := by
  unfold Unmarshal
  rw [checkValid_Marshal]
  simp only [decodeState.unmarshal]
  rw [Marshal_bytes, skipSpace_cons _ _ (by decide)]
  simp only []
  rw [if_neg (by decide), if_pos (by decide)]
  obtain ⟨fuel, hf⟩ : ∃ fuel, (0x22 :: (Field.UserID.name ++ 0x22 :: 0x3A :: (appendString v.UserID ++
      0x2C :: 0x22 :: (Field.AccessMethod.name ++ 0x22 :: 0x3A :: (appendString v.AccessMethod ++
      0x2C :: 0x22 :: (Field.Timestamp.name ++ 0x22 :: 0x3A :: (appendString v.Timestamp ++
      [0x7D]))))))).length + 1 = fuel + 3 := by
    refine ⟨(Field.UserID.name ++ 0x22 :: 0x3A :: (appendString v.UserID ++
      0x2C :: 0x22 :: (Field.AccessMethod.name ++ 0x22 :: 0x3A :: (appendString v.AccessMethod ++
      0x2C :: 0x22 :: (Field.Timestamp.name ++ 0x22 :: 0x3A :: (appendString v.Timestamp ++
      [0x7D])))))).length - 1, ?_⟩
    simp only [List.length_cons, List.length_append]
    omega
  rw [hf, objectLoop_Marshal]

/-! ## The transactions -/

theorem CreateLog_eq (ctx : Stub) (u m t : GoString) :
    CreateLog ctx u m t =
      match ctx.putFault u (Marshal ⟨u, m, t⟩).1 with
      | some msg => (some (.stub msg), ctx)
      | none =>
        (none, { ctx with
          state := fun k => if k = u then some (Marshal ⟨u, m, t⟩).1 else ctx.state k }) := by
  simp only [CreateLog, Marshal, Stub.PutState]
  split <;> simp_all

theorem CreateLog_ok (ctx : Stub) (u m t : GoString) (h : (CreateLog ctx u m t).1 = none) :
    (CreateLog ctx u m t).2 = { ctx with
      state := fun k => if k = u then some (Marshal ⟨u, m, t⟩).1 else ctx.state k } := by
  rw [CreateLog_eq] at h ⊢
  split at h
  · simp at h
  · rename_i h2; simp [h2]

theorem CreateLog_faults (ctx : Stub) (u m t : GoString) :
    (CreateLog ctx u m t).2.getFault = ctx.getFault
      ∧ (CreateLog ctx u m t).2.putFault = ctx.putFault := by
  rw [CreateLog_eq]; split <;> simp

theorem QueryLog_present (ctx : Stub) (u : GoString) (bytes : List Byte)
    (hr : ctx.getFault u = none) (hs : ctx.state u = some bytes) :
    QueryLog ctx u =
      match (Unmarshal bytes ⟨[], [], []⟩).2 with
      | some err => (none, some err)
      | none => (some (Unmarshal bytes ⟨[], [], []⟩).1, none) := by
  simp only [QueryLog, Stub.GetState, hr, hs]
  try rfl

theorem QueryLog_after_CreateLog (ctx : Stub) (u m t : GoString)
    (hc : (CreateLog ctx u m t).1 = none) (hr : ctx.getFault u = none) :
    QueryLog (CreateLog ctx u m t).2 u
      = (some ⟨toValidUTF8 u, toValidUTF8 m, toValidUTF8 t⟩, none) := by
  rw [QueryLog_present _ u (Marshal ⟨u, m, t⟩).1 (by rw [(CreateLog_faults ctx u m t).1]; exact hr)
    (by rw [CreateLog_ok ctx u m t hc]; simp)]
  rw [Unmarshal_Marshal]

/-! ## The errors of the decoder -/

theorem saveError_kind (P : GoError → Prop) (d : decodeState) (err : GoError)
    (hd : ∀ e, d.savedError = some e → P e) (he : P err) :
    ∀ e, (d.saveError err).savedError = some e → P e := by
  intro e
  unfold decodeState.saveError
  split_ifs
  · intro h
    simp only [Option.some.injEq] at h
    exact h ▸ he
  · exact hd e

theorem phasePanic_kind (P : GoError → Prop) (d : decodeState) (hp : P .phasePanic) :
    ∀ e, d.phasePanic.savedError = some e → P e := by
  intro e h
  simp only [decodeState.phasePanic, Option.some.injEq] at h
  exact h ▸ hp

theorem literalStore_kind (P : GoError → Prop) (hT : ∀ v f, P (.unmarshalTypeError v f))
    (hp : P .phasePanic) (d : decodeState) (c : Byte) (item : List Byte) (target : Target)
    (hd : ∀ e, d.savedError = some e → P e) :
    ∀ e, (literalStore d c item target).savedError = some e → P e := by
  unfold literalStore
  split_ifs
  · exact hd
  · exact saveError_kind P d _ hd (hT _ _)
  · split
    · exact phasePanic_kind P d hp
    · split
      · exact hd
      · exact saveError_kind P d _ hd (hT _ _)
  · exact phasePanic_kind P d hp
  · exact saveError_kind P d _ hd (hT _ _)

theorem valueField_kind (P : GoError → Prop) (hT : ∀ v f, P (.unmarshalTypeError v f))
    (hp : P .phasePanic) (d : decodeState) (field : Option Field)
    (hd : ∀ e, d.savedError = some e → P e) :
    ∀ e, (valueField d field).savedError = some e → P e := by
  unfold valueField
  split
  · exact phasePanic_kind P d hp
  · split_ifs
    · split
      · exact saveError_kind P d _ hd (hT _ _)
      · exact hd
    · split
      · exact saveError_kind P d _ hd (hT _ _)
      · exact hd
    · split
      · exact literalStore_kind P hT hp _ _ _ _ hd
      · exact hd

theorem objectLoop_kind (P : GoError → Prop) (hT : ∀ v f, P (.unmarshalTypeError v f))
    (hp : P .phasePanic) : ∀ (fuel : Nat) (d : decodeState),
    (∀ e, d.savedError = some e → P e) →
    ∀ e, (objectLoop fuel d).savedError = some e → P e := by
  intro fuel
  induction fuel with
  | zero => intro d _; exact phasePanic_kind P d hp
  | succ fuel ih =>
    intro d hd
    have hv : ∀ (rest1 key : List Byte) (e : GoError),
        (valueField ⟨skipSpace rest1, d.savedError, d.v⟩ (lookupField key)).savedError = some e →
          P e :=
      fun rest1 key => valueField_kind P hT hp ⟨skipSpace rest1, d.savedError, d.v⟩ _ hd
    unfold objectLoop
    split
    · exact phasePanic_kind P d hp
    · split_ifs
      · exact hd
      · exact phasePanic_kind P d hp
      · dsimp only
        split
        · exact phasePanic_kind P d hp
        · split
          · exact phasePanic_kind P d hp
          · split_ifs
            · exact phasePanic_kind P d hp
            · split
              · exact phasePanic_kind P _ hp
              · split_ifs
                · exact hv _ _
                · exact ih _ (hv _ _)
                · exact phasePanic_kind P _ hp

/-- An error saved by the decoder is a type error or the panic, whatever the
input. -/
theorem unmarshal_kind (P : GoError → Prop) (hT : ∀ v f, P (.unmarshalTypeError v f))
    (hp : P .phasePanic) (d : decodeState) (hd : ∀ e, d.savedError = some e → P e) :
    ∀ e, d.unmarshal.savedError = some e → P e := by
  unfold decodeState.unmarshal
  split
  · exact phasePanic_kind P d hp
  · split_ifs
    · exact saveError_kind P _ _ hd (hT _ _)
    · exact objectLoop_kind P hT hp _ _ hd
    · exact literalStore_kind P hT hp _ _ _ _ hd

theorem QueryLog_congr (ctx1 ctx2 : Stub) (k : GoString) (hf : ctx1.getFault k = ctx2.getFault k)
    (hs : ctx1.state k = ctx2.state k) : QueryLog ctx1 k = QueryLog ctx2 k := by
  simp only [QueryLog, Stub.GetState, hf, hs]

theorem CreateLog_other_key (ctx : Stub) (a b m t : GoString) (hab : a ≠ b) :
    (CreateLog ctx a m t).2.state b = ctx.state b := by
  rw [CreateLog_eq]
  split
  · rfl
  · simp [Ne.symm hab]

theorem readFailure_msg_ne (msg t : GoString) :
    ascii "failed to read from world state: " ++ msg ≠ ascii "the log " ++ t := by
  intro h
  have e1 : ascii "failed to read from world state: "
      = 0x66 :: (ascii "ailed to read from world state: ") := by decide
  have e2 : ascii "the log " = 0x74 :: ascii "he log " := by decide
  rw [e1, e2] at h
  simp only [List.cons_append, List.cons.injEq] at h
  exact absurd h.1 (by decide)

theorem readFailure_ne_notFound (msg u : GoString) :
    GoError.errorString (ascii "failed to read from world state: " ++ msg)
      ≠ GoError.errorString (ascii "the log " ++ u ++ ascii " does not exist") := by
  intro h
  rw [List.append_assoc] at h
  exact readFailure_msg_ne msg _ (GoError.errorString.inj h)

theorem QueryLog_notFound (ctx : Stub) (u : GoString) (hr : ctx.getFault u = none)
    (ha : ctx.state u = none) :
    QueryLog ctx u
      = (none, some (.errorString (ascii "the log " ++ u ++ ascii " does not exist"))) := by
  simp only [QueryLog, Stub.GetState, hr, ha]

/-! ## The decoder agrees with the scanner -/

theorem recorded_ite (p : Prop) [Decidable p] (a b : Opcode × scanner)
    (ha : p → scanner.recorded a) (hb : ¬ p → scanner.recorded b) :
    scanner.recorded (if p then a else b) := by
  split_ifs with h
  · exact ha h
  · exact hb h

theorem recorded_set (op : Opcode) (s : scanner) (hop : op ≠ .scanError)
    (hs : s.step ≠ .Error) : scanner.recorded (op, s) :=
  ⟨fun h => absurd h hs, fun h => absurd h hop⟩

theorem recorded_same (op : Opcode) (s : scanner) (hop : op ≠ .scanError)
    (hs : s.step = .Error → s.err.isSome = true) : scanner.recorded (op, s) :=
  ⟨hs, fun h => absurd h hop⟩

theorem error_recorded (s : scanner) (c : Byte) (context : String) :
    scanner.recorded (s.error c context) := by
  simp [scanner.recorded, scanner.error]

theorem pushParseState_recorded (s : scanner) (c : Byte) (p : ParseState) (op : Opcode)
    (hop : op ≠ .scanError) (hs : s.step ≠ .Error) :
    scanner.recorded (s.pushParseState c p op) := by
  unfold scanner.pushParseState
  apply recorded_ite
  · intro _; exact recorded_set _ _ hop hs
  · intro _; exact error_recorded _ _ _

theorem popParseState_recorded (s : scanner) (op : Opcode) (hop : op ≠ .scanError) :
    scanner.recorded (op, s.popParseState) := by
  apply recorded_set _ _ hop
  unfold scanner.popParseState
  simp only []
  split_ifs <;> simp

theorem stateEndTop_recorded (s : scanner) (c : Byte)
    (hs : s.step = .Error → s.err.isSome = true) : scanner.recorded (stateEndTop s c) := by
  unfold stateEndTop
  apply recorded_ite
  · intro _; simp [scanner.recorded, scanner.error]
  · intro _; exact recorded_same _ _ (by decide) hs

theorem stateEndValue_recorded (s : scanner) (c : Byte) :
    scanner.recorded (stateEndValue s c) := by
  unfold stateEndValue
  split
  · exact stateEndTop_recorded _ c (by simp)
  · apply recorded_ite
    · intro _; exact recorded_set _ _ (by decide) (by simp)
    · intro _
      split <;>
        repeat' (first
          | intro _
          | with_reducible exact error_recorded _ _ _
          | with_reducible apply recorded_ite
          | ((with_reducible refine popParseState_recorded _ _ ?_); decide)
          | ((with_reducible refine recorded_set _ _ ?_ ?_) <;> first | decide | (intro h; cases h)))

theorem stateBeginValue_recorded (s : scanner) (c : Byte)
    (hs : s.step = .Error → s.err.isSome = true) : scanner.recorded (stateBeginValue s c) := by
  unfold stateBeginValue
  repeat' (first
    | intro _
    | with_reducible exact error_recorded _ _ _
    | with_reducible apply recorded_ite
    | ((with_reducible refine pushParseState_recorded _ _ _ _ ?_ ?_) <;> first | decide | (intro h; cases h))
    | ((with_reducible refine recorded_same _ _ ?_ hs); decide)
    | ((with_reducible refine recorded_set _ _ ?_ ?_) <;> first | decide | (intro h; cases h)))

theorem stateBeginString_recorded (s : scanner) (c : Byte)
    (hs : s.step = .Error → s.err.isSome = true) : scanner.recorded (stateBeginString s c) := by
  unfold stateBeginString
  repeat' (first
    | intro _
    | with_reducible exact error_recorded _ _ _
    | with_reducible apply recorded_ite
    | ((with_reducible refine recorded_same _ _ ?_ hs); decide)
    | ((with_reducible refine recorded_set _ _ ?_ ?_) <;> first | decide | (intro h; cases h)))

theorem state0_recorded (s : scanner) (c : Byte) : scanner.recorded (state0 s c) := by
  unfold state0
  repeat' (first
    | intro _
    | with_reducible exact stateEndValue_recorded _ _
    | with_reducible apply recorded_ite
    | ((with_reducible refine recorded_set _ _ ?_ ?_) <;> first | decide | (intro h; cases h)))

theorem stateESign_recorded (s : scanner) (c : Byte) : scanner.recorded (stateESign s c) := by
  unfold stateESign
  repeat' (first
    | intro _
    | with_reducible exact error_recorded _ _ _
    | with_reducible apply recorded_ite
    | ((with_reducible refine recorded_set _ _ ?_ ?_) <;> first | decide | (intro h; cases h)))

/-- A step of the scanner that returns `scanError`, or installs `stateError`,
has recorded an error. -/
theorem doStep_recorded (s : scanner) (c : Byte)
    (hs : s.step = .Error → s.err.isSome = true) : scanner.recorded (scanner.doStep s c) := by
  unfold scanner.doStep stateBeginValueOrEmpty stateBeginStringOrEmpty
  split
  case h_31 => rename_i h; exact ⟨hs, fun _ => hs h⟩
  all_goals
    repeat' (first
      | intro _
      | with_reducible exact stateBeginValue_recorded _ _ hs
      | with_reducible exact stateBeginString_recorded _ _ hs
      | with_reducible exact stateEndTop_recorded _ _ hs
      | with_reducible exact state0_recorded _ _
      | with_reducible exact stateESign_recorded _ _
      | with_reducible exact stateEndValue_recorded _ _
      | with_reducible exact error_recorded _ _ _
      | with_reducible apply recorded_ite
      | ((with_reducible refine recorded_same _ _ ?_ hs); decide)
      | ((with_reducible refine recorded_set _ _ ?_ ?_) <;> first | decide | (intro h; cases h)))

theorem eof_recorded (s : scanner) : s.eof.1 = .scanError → s.eof.2.err.isSome = true := by
  unfold scanner.eof
  simp only []
  split_ifs with h1 h2 h3 h4 <;> simp_all [Option.isSome_iff_ne_none]

theorem checkValidLoop_accepts : ∀ (data : List Byte) (s : scanner),
    (s.step = .Error → s.err.isSome = true) →
    ((checkValidLoop s data).2 = false → (checkValidLoop s data).1.err.isSome = true) ∧
    ((checkValidLoop s data).2 = true →
      ((checkValidLoop s data).1.eof.1 ≠ .scanError → s.accepts data)) := by
  intro data
  induction data with
  | nil => intro s _; simp [checkValidLoop, scanner.accepts]
  | cons c rest ih =>
    intro s hs
    have hr := doStep_recorded { s with bytes := s.bytes + 1 } c hs
    simp only [checkValidLoop, scanner.accepts]
    split_ifs with h
    · exact ⟨fun _ => hr.2 h, fun h2 => by simp at h2⟩
    · have := ih _ hr.1
      exact ⟨this.1, fun h2 h3 => ⟨h, this.2 h2 h3⟩⟩

/-- A text that `checkValid` passes is accepted by the scanner from its first
state. -/
theorem checkValid_accepts (data : List Byte) (h : checkValid data = none) :
    scanner.reset.accepts data := by
  have key := checkValidLoop_accepts data scanner.reset (by simp [scanner.reset])
  unfold checkValid at h
  simp only [] at h
  split_ifs at h with h1 h2
  · have := key.1 h1; simp [h] at this
  · have := eof_recorded _ h2; simp [h] at this
  · exact key.2 (by simpa using h1) h2

theorem accepts_cons (s : scanner) (c : Byte) (rest : List Byte) :
    s.accepts (c :: rest) ↔
      (scanner.doStep { s with bytes := s.bytes + 1 } c).1 ≠ .scanError
        ∧ scanner.accepts (scanner.doStep { s with bytes := s.bytes + 1 } c).2 rest :=
  Iff.rfl

/-- Once an error is recorded and `stateError` installed, nothing is accepted. -/
theorem not_accepts_error (et : Bool) (ps : List ParseState) (e : SyntaxError) (b : Nat)
    (data : List Byte) : ¬ scanner.accepts ⟨.Error, et, ps, some e, b⟩ data := by
  cases data with
  | nil => simp [scanner.accepts, scanner.eof]
  | cons c rest => simp [scanner.accepts, scanner.doStep]

/-- One step of an accepting run. -/
theorem acceptsAt_step (st : ScanStep) (ps : List ParseState) (c : Byte) (rest : List Byte)
    (h : scanner.acceptsAt st ps (c :: rest)) :
    ∃ b, (scanner.doStep ⟨st, false, ps, none, b⟩ c).1 ≠ .scanError
      ∧ scanner.accepts (scanner.doStep ⟨st, false, ps, none, b⟩ c).2 rest := by
  obtain ⟨b, hb⟩ := h
  exact ⟨b + 1, hb⟩

/-- The input cannot end while a value is open, or before a value. -/
theorem not_acceptsAt_nil (st : ScanStep) (ps : List ParseState)
    (h : ps ≠ [] ∨ (st ≠ .EndValue ∧ st.inNumber = false)) :
    ¬ scanner.acceptsAt st ps [] := by
  rintro ⟨b, hb⟩
  rcases ps with _ | ⟨p, ps⟩
  · cases st <;>
      simp [ScanStep.inNumber, scanner.accepts, scanner.eof, scanner.doStep, stateBeginValueOrEmpty,
        stateBeginValue, stateBeginStringOrEmpty, stateBeginString, stateEndValue, stateEndTop,
        state0, stateESign, scanner.error, isSpace, isDigit, isHexDigit,
        Fin.coe_ofNat_eq_mod] at h hb
  · cases st <;> cases p <;>
      simp [scanner.accepts, scanner.eof, scanner.doStep, stateBeginValueOrEmpty,
        stateBeginValue, stateBeginStringOrEmpty, stateBeginString, stateEndValue, stateEndTop,
        state0, stateESign, scanner.error, isSpace, isDigit, isHexDigit,
        Fin.coe_ofNat_eq_mod] at hb

/-- White space between tokens leaves the scanner where it is: after it comes
a byte that is not white space, and the scanner accepts from there. -/
theorem skipSpace_acceptsAt (st : ScanStep) (ps : List ParseState)
    (hst : st = .BeginValue ∨ st = .BeginString ∨ st = .BeginStringOrEmpty
      ∨ (st = .EndValue ∧ ps ≠ [])) :
    ∀ data : List Byte, scanner.acceptsAt st ps data →
      ∃ c rest, skipSpace data = c :: rest ∧ isSpace c = false
        ∧ scanner.acceptsAt st ps (c :: rest) ∧ rest.length < data.length := by
  intro data
  induction data with
  | nil =>
    intro h
    refine absurd h (not_acceptsAt_nil st ps ?_)
    rcases hst with h | h | h | h
    · right; subst h; exact ⟨by decide, rfl⟩
    · right; subst h; exact ⟨by decide, rfl⟩
    · right; subst h; exact ⟨by decide, rfl⟩
    · left; exact h.2
  | cons c rest ih =>
    intro h
    by_cases hc : isSpace c = true
    · obtain ⟨b, -, h2⟩ := acceptsAt_step st ps c rest h
      have hnext : scanner.acceptsAt st ps rest := by
        refine ⟨b, ?_⟩
        rcases hst with h | h | h | h
        · subst h; simpa [scanner.doStep, stateBeginValue, hc] using h2
        · subst h; simpa [scanner.doStep, stateBeginString, hc] using h2
        · subst h; simpa [scanner.doStep, stateBeginStringOrEmpty, hc] using h2
        · obtain ⟨h, hps⟩ := h
          subst h
          rcases ps with _ | ⟨p, ps⟩
          · exact absurd rfl hps
          · simpa [scanner.doStep, stateEndValue, hc] using h2
      obtain ⟨c1, rest1, e1, e2, e3, e4⟩ := ih hnext
      refine ⟨c1, rest1, ?_, e2, e3, ?_⟩
      · simp [skipSpace, hc, e1]
      · simp only [List.length_cons]; omega
    · refine ⟨c, rest, ?_, by simpa using hc, h, by simp⟩
      simp [skipSpace, hc]

/-- The first byte of a value, and the state of the scanner after it. -/
theorem acceptsAt_beginValue (ps : List ParseState) (c : Byte) (rest : List Byte)
    (h : scanner.acceptsAt .BeginValue ps (c :: rest)) (hc : isSpace c = false) :
    (c.val = 0x7B ∧ scanner.acceptsAt .BeginStringOrEmpty (.parseObjectKey :: ps) rest)
    ∨ (c.val = 0x5B ∧ scanner.acceptsAt .BeginValueOrEmpty (.parseArrayValue :: ps) rest)
    ∨ (c.val = 0x22 ∧ scanner.acceptsAt .InString ps rest)
    ∨ ((isDigit c = true ∨ c.val = 0x2D) ∧ ∃ st, st.inNumber = true ∧ scanner.acceptsAt st ps rest)
    ∨ (c.val = 0x74 ∧ scanner.acceptsAt .T ps rest)
    ∨ (c.val = 0x66 ∧ scanner.acceptsAt .F ps rest)
    ∨ (c.val = 0x6E ∧ scanner.acceptsAt .N ps rest) := by
  obtain ⟨b, h1, h2⟩ := acceptsAt_step _ ps c rest h
  simp only [scanner.doStep, stateBeginValue, hc, Bool.false_eq_true, if_false] at h1 h2
  by_cases c1 : c.val = 0x7B
  · simp only [c1, if_true, scanner.pushParseState] at h1 h2
    split_ifs at h1 h2
    · exact Or.inl ⟨c1, b, h2⟩
    · simp [scanner.error] at h1
  simp only [c1, if_false] at h1 h2
  by_cases c2 : c.val = 0x5B
  · simp only [c2, if_true, scanner.pushParseState] at h1 h2
    split_ifs at h1 h2
    · exact Or.inr (Or.inl ⟨c2, b, h2⟩)
    · simp [scanner.error] at h1
  simp only [c2, if_false] at h1 h2
  split_ifs at h1 h2 with c3 c4 c5 c6 c7 c8 c9
  · exact Or.inr (Or.inr (Or.inl ⟨c3, b, h2⟩))
  · exact Or.inr (Or.inr (Or.inr (Or.inl ⟨Or.inr c4, .Neg, rfl, b, h2⟩)))
  · exact Or.inr (Or.inr (Or.inr (Or.inl ⟨Or.inl (by simp [isDigit, c5]), .S0, rfl, b, h2⟩)))
  · exact Or.inr (Or.inr (Or.inr (Or.inr (Or.inl ⟨c6, b, h2⟩))))
  · exact Or.inr (Or.inr (Or.inr (Or.inr (Or.inr (Or.inl ⟨c7, b, h2⟩)))))
  · exact Or.inr (Or.inr (Or.inr (Or.inr (Or.inr (Or.inr ⟨c8, b, h2⟩)))))
  · refine Or.inr (Or.inr (Or.inr (Or.inl ⟨Or.inl ?_, .S1, rfl, b, h2⟩)))
    simp [isDigit]; omega
  · simp [scanner.error] at h1

/-- An object key begins with a quote. -/
theorem acceptsAt_beginString (st : ScanStep) (ps : List ParseState) (c : Byte)
    (rest : List Byte) (hst : st = .BeginString ∨ st = .BeginStringOrEmpty)
    (h : scanner.acceptsAt st (.parseObjectKey :: ps) (c :: rest)) (hc : isSpace c = false)
    (h7D : c.val ≠ 0x7D) :
    c.val = 0x22 ∧ scanner.acceptsAt .InString (.parseObjectKey :: ps) rest := by
  obtain ⟨b, h1, h2⟩ := acceptsAt_step _ _ c rest h
  rcases hst with e | e <;> subst e <;>
    simp only [scanner.doStep, stateBeginStringOrEmpty, stateBeginString, hc, h7D,
      Bool.false_eq_true, if_false] at h1 h2 <;>
    split_ifs at h1 h2 with c1
  · exact ⟨c1, b, h2⟩
  · simp [scanner.error] at h1
  · exact ⟨c1, b, h2⟩
  · simp [scanner.error] at h1

/-- After an object key comes a colon. -/
theorem acceptsAt_afterKey (ps : List ParseState) (c : Byte) (rest : List Byte)
    (h : scanner.acceptsAt .EndValue (.parseObjectKey :: ps) (c :: rest))
    (hc : isSpace c = false) :
    c.val = 0x3A ∧ scanner.acceptsAt .BeginValue (.parseObjectValue :: ps) rest := by
  obtain ⟨b, h1, h2⟩ := acceptsAt_step _ _ c rest h
  simp only [scanner.doStep, stateEndValue, hc, Bool.false_eq_true, if_false] at h1 h2
  split_ifs at h1 h2 with c1
  · exact ⟨c1, b, h2⟩
  · simp [scanner.error] at h1

/-- After the value of an object member comes a comma or the closing brace. -/
theorem acceptsAt_afterValue (ps : List ParseState) (c : Byte) (rest : List Byte)
    (h : scanner.acceptsAt .EndValue (.parseObjectValue :: ps) (c :: rest))
    (hc : isSpace c = false) :
    c.val = 0x7D ∨
      (c.val = 0x2C ∧ scanner.acceptsAt .BeginString (.parseObjectKey :: ps) rest) := by
  obtain ⟨b, h1, h2⟩ := acceptsAt_step _ _ c rest h
  simp only [scanner.doStep, stateEndValue, hc, Bool.false_eq_true, if_false] at h1 h2
  split_ifs at h1 h2 with c1 c2
  · exact Or.inr ⟨c1, b, h2⟩
  · exact Or.inl c2
  · simp [scanner.error] at h1

/-- A step function that accepts one byte only, and goes on with `next`. -/
theorem acceptsAt_one (st next : ScanStep) (ps : List ParseState) (data : List Byte)
    (hst : st ≠ .EndValue ∧ st.inNumber = false)
    (hstep : ∀ b c, (scanner.doStep ⟨st, false, ps, none, b⟩ c).1 ≠ .scanError →
      (scanner.doStep ⟨st, false, ps, none, b⟩ c).2 = ⟨next, false, ps, none, b⟩)
    (h : scanner.acceptsAt st ps data) :
    ∃ c rest, data = c :: rest ∧ scanner.acceptsAt next ps rest := by
  rcases data with _ | ⟨c, rest⟩
  · exact absurd h (not_acceptsAt_nil _ _ (Or.inr hst))
  · obtain ⟨b, h1, h2⟩ := acceptsAt_step _ _ _ _ h
    rw [hstep b c h1] at h2
    exact ⟨c, rest, rfl, b, h2⟩

/-- The literal `true`, after its first byte. -/
theorem acceptsAt_true (ps : List ParseState) (rest : List Byte)
    (h : scanner.acceptsAt .T ps rest) :
    ∃ c1 c2 c3 rest1, rest = c1 :: c2 :: c3 :: rest1 ∧ scanner.acceptsAt .EndValue ps rest1 := by
  obtain ⟨c1, r1, e1, h1⟩ := acceptsAt_one .T .Tr ps rest ⟨by decide, rfl⟩
    (by intro b c h; simp only [scanner.doStep] at h ⊢; split_ifs at h ⊢
        · rfl
        · simp [scanner.error] at h) h
  obtain ⟨c2, r2, e2, h2⟩ := acceptsAt_one .Tr .Tru ps r1 ⟨by decide, rfl⟩
    (by intro b c h; simp only [scanner.doStep] at h ⊢; split_ifs at h ⊢
        · rfl
        · simp [scanner.error] at h) h1
  obtain ⟨c3, r3, e3, h3⟩ := acceptsAt_one .Tru .EndValue ps r2 ⟨by decide, rfl⟩
    (by intro b c h; simp only [scanner.doStep] at h ⊢; split_ifs at h ⊢
        · rfl
        · simp [scanner.error] at h) h2
  exact ⟨c1, c2, c3, r3, by rw [e1, e2, e3], h3⟩

/-- The literal `false`, after its first byte. -/
theorem acceptsAt_false (ps : List ParseState) (rest : List Byte)
    (h : scanner.acceptsAt .F ps rest) :
    ∃ c1 c2 c3 c4 rest1, rest = c1 :: c2 :: c3 :: c4 :: rest1
      ∧ scanner.acceptsAt .EndValue ps rest1 := by
  obtain ⟨c1, r1, e1, h1⟩ := acceptsAt_one .F .Fa ps rest ⟨by decide, rfl⟩
    (by intro b c h; simp only [scanner.doStep] at h ⊢; split_ifs at h ⊢
        · rfl
        · simp [scanner.error] at h) h
  obtain ⟨c2, r2, e2, h2⟩ := acceptsAt_one .Fa .Fal ps r1 ⟨by decide, rfl⟩
    (by intro b c h; simp only [scanner.doStep] at h ⊢; split_ifs at h ⊢
        · rfl
        · simp [scanner.error] at h) h1
  obtain ⟨c3, r3, e3, h3⟩ := acceptsAt_one .Fal .Fals ps r2 ⟨by decide, rfl⟩
    (by intro b c h; simp only [scanner.doStep] at h ⊢; split_ifs at h ⊢
        · rfl
        · simp [scanner.error] at h) h2
  obtain ⟨c4, r4, e4, h4⟩ := acceptsAt_one .Fals .EndValue ps r3 ⟨by decide, rfl⟩
    (by intro b c h; simp only [scanner.doStep] at h ⊢; split_ifs at h ⊢
        · rfl
        · simp [scanner.error] at h) h3
  exact ⟨c1, c2, c3, c4, r4, by rw [e1, e2, e3, e4], h4⟩

/-- The literal `null`, after its first byte. -/
theorem acceptsAt_null (ps : List ParseState) (rest : List Byte)
    (h : scanner.acceptsAt .N ps rest) :
    ∃ c1 c2 c3 rest1, rest = c1 :: c2 :: c3 :: rest1 ∧ scanner.acceptsAt .EndValue ps rest1 := by
  obtain ⟨c1, r1, e1, h1⟩ := acceptsAt_one .N .Nu ps rest ⟨by decide, rfl⟩
    (by intro b c h; simp only [scanner.doStep] at h ⊢; split_ifs at h ⊢
        · rfl
        · simp [scanner.error] at h) h
  obtain ⟨c2, r2, e2, h2⟩ := acceptsAt_one .Nu .Nul ps r1 ⟨by decide, rfl⟩
    (by intro b c h; simp only [scanner.doStep] at h ⊢; split_ifs at h ⊢
        · rfl
        · simp [scanner.error] at h) h1
  obtain ⟨c3, r3, e3, h3⟩ := acceptsAt_one .Nul .EndValue ps r2 ⟨by decide, rfl⟩
    (by intro b c h; simp only [scanner.doStep] at h ⊢; split_ifs at h ⊢
        · rfl
        · simp [scanner.error] at h) h2
  exact ⟨c1, c2, c3, r3, by rw [e1, e2, e3], h3⟩

/-- A string literal, after its opening quote: a body, the closing quote, and
the scanner at the end of a value. -/
theorem acceptsAt_inString (ps : List ParseState) : ∀ (n : Nat) (data : List Byte),
    data.length ≤ n → scanner.acceptsAt .InString ps data →
    ∃ body rest, data = body ++ 0x22 :: rest ∧ StringBody body
      ∧ scanner.acceptsAt .EndValue ps rest := by
  have hex : ∀ (st next : ScanStep) (data : List Byte),
      (st = .InStringEscU ∧ next = .InStringEscU1) ∨ (st = .InStringEscU1 ∧ next = .InStringEscU12)
        ∨ (st = .InStringEscU12 ∧ next = .InStringEscU123)
        ∨ (st = .InStringEscU123 ∧ next = .InString) →
      scanner.acceptsAt st ps data →
      ∃ c rest, data = c :: rest ∧ isHexDigit c = true ∧ scanner.acceptsAt next ps rest := by
    intro st next data hst h
    rcases data with _ | ⟨c, rest⟩
    · refine absurd h (not_acceptsAt_nil _ _ (Or.inr ?_))
      rcases hst with ⟨e, -⟩ | ⟨e, -⟩ | ⟨e, -⟩ | ⟨e, -⟩ <;> subst e <;> exact ⟨by decide, rfl⟩
    · obtain ⟨b, h1, h2⟩ := acceptsAt_step _ _ _ _ h
      rcases hst with ⟨e, e'⟩ | ⟨e, e'⟩ | ⟨e, e'⟩ | ⟨e, e'⟩ <;> subst e <;> subst e' <;>
        simp only [scanner.doStep] at h1 h2 <;> split_ifs at h1 h2 with hc
      all_goals first
        | exact ⟨c, rest, rfl, hc, b, h2⟩
        | simp [scanner.error] at h1
  intro n
  induction n with
  | zero =>
    intro data hn h
    have : data = [] := List.length_eq_zero.mp (by omega)
    subst this
    exact absurd h (not_acceptsAt_nil _ _ (Or.inr ⟨by decide, rfl⟩))
  | succ n ih =>
    intro data hn h
    rcases data with _ | ⟨c, rest⟩
    · exact absurd h (not_acceptsAt_nil _ _ (Or.inr ⟨by decide, rfl⟩))
    obtain ⟨b, h1, h2⟩ := acceptsAt_step _ _ _ _ h
    simp only [List.length_cons] at hn
    simp only [scanner.doStep] at h1 h2
    split_ifs at h1 h2 with c1 c2 c3
    · exact ⟨[], rest, by simp [Fin.ext_iff, c1, Fin.coe_ofNat_eq_mod], StringBody.nil, b, h2⟩
    · -- an escape
      have hc : c = 0x5C := Fin.ext (by simp [c2, Fin.coe_ofNat_eq_mod])
      subst hc
      rcases rest with _ | ⟨e, rest⟩
      · exact absurd ⟨b, h2⟩ (not_acceptsAt_nil .InStringEsc _ (Or.inr ⟨by decide, rfl⟩))
      obtain ⟨b1, h3, h4⟩ := acceptsAt_step _ _ _ _ ⟨b, h2⟩
      simp only [List.length_cons] at hn
      simp only [scanner.doStep] at h3 h4
      split_ifs at h3 h4 with e1 e2
      · obtain ⟨body, rest1, hd, hb, hacc⟩ := ih rest (by omega) ⟨b1, h4⟩
        exact ⟨0x5C :: e :: body, rest1, by rw [hd]; rfl, StringBody.esc e body e1 hb, hacc⟩
      · have he : e = 0x75 := Fin.ext (by simp [e2, Fin.coe_ofNat_eq_mod])
        subst he
        obtain ⟨x0, r0, d0, x0h, a0⟩ := hex _ _ rest (Or.inl ⟨rfl, rfl⟩) ⟨b1, h4⟩
        obtain ⟨x1, r1, d1, x1h, a1⟩ := hex _ _ r0 (Or.inr (Or.inl ⟨rfl, rfl⟩)) a0
        obtain ⟨x2, r2, d2, x2h, a2⟩ := hex _ _ r1 (Or.inr (Or.inr (Or.inl ⟨rfl, rfl⟩))) a1
        obtain ⟨x3, r3, d3, x3h, a3⟩ := hex _ _ r2 (Or.inr (Or.inr (Or.inr ⟨rfl, rfl⟩))) a2
        subst d0 d1 d2 d3
        simp only [List.length_cons] at hn
        obtain ⟨body, rest1, hd, hb, hacc⟩ := ih r3 (by omega) a3
        exact ⟨0x5C :: 0x75 :: x0 :: x1 :: x2 :: x3 :: body, rest1, by rw [hd]; rfl,
          StringBody.escU x0 x1 x2 x3 body ⟨x0h, x1h, x2h, x3h⟩ hb, hacc⟩
      · simp [scanner.error] at h3
    · simp [scanner.error] at h1
    · obtain ⟨body, rest1, hd, hb, hacc⟩ := ih rest (by omega) ⟨b, h2⟩
      exact ⟨c :: body, rest1, by rw [hd]; rfl,
        StringBody.plain c body ⟨by omega, c1, c2⟩ hb, hacc⟩

/-- The three ways in which a body begins. -/
theorem StringBody_cons (c : Byte) (rest : List Byte) (h : StringBody (c :: rest)) :
    ((0x20 ≤ c.val ∧ c.val ≠ 0x22 ∧ c.val ≠ 0x5C) ∧ StringBody rest)
    ∨ (c.val = 0x5C ∧ ∃ e t, rest = e :: t ∧ e.val ≠ 0x75 ∧
        (e.val = 0x62 ∨ e.val = 0x66 ∨ e.val = 0x6E ∨ e.val = 0x72 ∨ e.val = 0x74
          ∨ e.val = 0x5C ∨ e.val = 0x2F ∨ e.val = 0x22) ∧ StringBody t)
    ∨ (c.val = 0x5C ∧ ∃ e h0 h1 h2 h3 t, rest = e :: h0 :: h1 :: h2 :: h3 :: t ∧ e.val = 0x75 ∧
        (isHexDigit h0 = true ∧ isHexDigit h1 = true ∧ isHexDigit h2 = true
          ∧ isHexDigit h3 = true) ∧ StringBody t) := by
  cases h with
  | plain _ _ h ht => exact Or.inl ⟨h, ht⟩
  | esc e t h ht =>
    exact Or.inr (Or.inl ⟨by simp [Fin.coe_ofNat_eq_mod], e, t, rfl, by omega, h, ht⟩)
  | escU h0 h1 h2 h3 t h ht =>
    exact Or.inr (Or.inr ⟨by simp [Fin.coe_ofNat_eq_mod], 0x75, h0, h1, h2, h3, t, rfl,
      by simp [Fin.coe_ofNat_eq_mod], h, ht⟩)

/-- A body from which bytes that are not ASCII are taken off is a body. -/
theorem StringBody_drop_high (enc tail : List Byte) (h : StringBody (enc ++ tail))
    (henc : ∀ x ∈ enc, 0x80 ≤ x.val) : StringBody tail := by
  induction enc with
  | nil => exact h
  | cons x enc ih =>
    have hx := henc x (by simp)
    rcases StringBody_cons x _ h with ⟨-, ht⟩ | ⟨e, -⟩ | ⟨e, -⟩
    · exact ih ht (fun y hy => henc y (by simp [hy]))
    · omega
    · omega

theorem hexValue_isSome (c : Byte) (h : isHexDigit c = true) : ∃ v, hexValue c = some v := by
  simp only [isHexDigit, decide_eq_true_eq] at h
  unfold hexValue
  split_ifs with c1 c2 c3
  · exact ⟨_, rfl⟩
  · exact ⟨_, rfl⟩
  · exact ⟨_, rfl⟩
  · omega

theorem getu4_isSome (b0 b1 h0 h1 h2 h3 : Byte) (t : List Byte) (e0 : b0.val = 0x5C)
    (e1 : b1.val = 0x75)
    (h : isHexDigit h0 = true ∧ isHexDigit h1 = true ∧ isHexDigit h2 = true
      ∧ isHexDigit h3 = true) :
    ∃ r, getu4 (b0 :: b1 :: h0 :: h1 :: h2 :: h3 :: t) = some r := by
  obtain ⟨v0, e0'⟩ := hexValue_isSome h0 h.1
  obtain ⟨v1, e1'⟩ := hexValue_isSome h1 h.2.1
  obtain ⟨v2, e2'⟩ := hexValue_isSome h2 h.2.2.1
  obtain ⟨v3, e3'⟩ := hexValue_isSome h3 h.2.2.2
  exact ⟨((v0 * 16 + v1) * 16 + v2) * 16 + v3, by simp [getu4, e0, e1, e0', e1', e2', e3']⟩

theorem getu4_some_cons (t : List Byte) (r : Nat) (h : getu4 t = some r) :
    ∃ b0 b1 c0 c1 c2 c3 t1, t = b0 :: b1 :: c0 :: c1 :: c2 :: c3 :: t1 ∧ b0.val = 0x5C
      ∧ b1.val = 0x75 := by
  rcases t with _ | ⟨b0, _ | ⟨b1, _ | ⟨c0, _ | ⟨c1, _ | ⟨c2, _ | ⟨c3, t1⟩⟩⟩⟩⟩⟩ <;>
    try (simp [getu4] at h; done)
  refine ⟨b0, b1, c0, c1, c2, c3, t1, rfl, ?_⟩
  simp only [getu4] at h
  split_ifs at h with hc
  omega

/-- The second loop of `unquoteBytes` does not fail on a body. -/
theorem unquoteLoop_body : ∀ (F : Nat) (x : List Byte), x.length ≤ F → StringBody x →
    (unquoteLoop F x).isSome = true := by
  intro F
  induction F using Nat.strong_induction_on with
  | _ F ih =>
    intro x hF hx
    rcases F with _ | F
    · rfl
    rcases x with _ | ⟨c, rest⟩
    · rfl
    simp only [List.length_cons] at hF
    rcases StringBody_cons c rest hx with ⟨hp, ht⟩ | ⟨hc, e, t, hr, hu, he, ht⟩
        | ⟨hc, e, h0, h1, h2, h3, t, hr, hu, hh, ht⟩
    · have n1 : ¬ c.val = 0x5C := hp.2.2
      have n2 : ¬ (c.val = 0x22 ∨ c.val < 0x20) := by omega
      simp only [unquoteLoop, if_neg n1, if_neg n2]
      split_ifs with ha
      · simpa using ih F (by omega) rest (by omega) ht
      · simp only [RuneSelf] at ha
        simp only [Option.isSome_map']
        have hsz := DecodeRune_size c rest
        by_cases hbad : (DecodeRune (c :: rest)).1 = RuneError ∧ (DecodeRune (c :: rest)).2 = 1
        · rw [hbad.2]
          exact ih F (by omega) rest (by omega) ht
        · obtain ⟨enc, tail, e1, e2, -, -, -, e6, -⟩ := DecodeRune_spec c rest (by omega) hbad
          rw [e2, e1, List.drop_left]
          have hlen : (c :: rest).length = enc.length + tail.length := by
            rw [e1, List.length_append]
          simp only [List.length_cons] at hlen
          exact ih F (by omega) tail (by omega) (StringBody_drop_high enc tail (e1 ▸ hx) e6)
    · subst hr
      simp only [List.length_cons] at hF
      have key := ih F (by omega) t (by omega) ht
      simp only [unquoteLoop, hc, if_true]
      rcases he with he | he | he | he | he | he | he | he <;> simp [he, key]
    · subst hr
      simp only [List.length_cons] at hF
      obtain ⟨r, hr⟩ := getu4_isSome c e h0 h1 h2 h3 t hc hu hh
      have key := ih F (by omega) t (by omega) ht
      simp only [unquoteLoop, hc, hu, if_true, hr, List.drop_succ_cons, List.drop_zero]
      simp only [Nat.reduceEqDiff, false_or, if_false, Nat.reduceEqDiff, or_self, if_true]
      split_ifs with s1 s2
      · simp only [Option.isSome_map']
        have hg : ∃ r2, getu4 t = some r2 := by
          cases hg : getu4 t with
          | none => rw [hg] at s2; simp [utf16DecodeRune] at s2
          | some r2 => exact ⟨r2, rfl⟩
        obtain ⟨r2, hr2⟩ := hg
        obtain ⟨b0, b1, c0, c1, c2, c3, t1, e1, e2, e3⟩ := getu4_some_cons t r2 hr2
        subst e1
        simp only [List.drop_succ_cons, List.drop_zero]
        simp only [List.length_cons] at hF
        refine ih F (by omega) t1 (by omega) ?_
        rcases StringBody_cons b0 _ ht with ⟨hp, -⟩ | ⟨-, e', t', hr', hu', -, -⟩
            | ⟨-, e', h0', h1', h2', h3', t', hr', -, -, ht'⟩
        · omega
        · simp only [List.cons.injEq] at hr'
          rw [← hr'.1] at hu'
          omega
        · simp only [List.cons.injEq] at hr'
          rw [hr'.2.2.2.2.2]
          exact ht'
      · simpa using key
      · simpa using key

/-- The function `rescanLiteral` at a string literal that the scanner accepts:
the literal is unquoted without failure, and the scanner accepts the input
after it as what follows a value. -/
theorem rescanLiteral_acceptsAt (ps : List ParseState) (c : Byte) (rest : List Byte)
    (hc : c.val = 0x22) (h : scanner.acceptsAt .InString ps rest) :
    (unquoteBytes (rescanLiteral (c :: rest)).1).isSome = true
      ∧ scanner.acceptsAt .EndValue ps (rescanLiteral (c :: rest)).2
      ∧ (rescanLiteral (c :: rest)).2.length < rest.length := by
  obtain ⟨body, rest1, hd, hb, hacc⟩ := acceptsAt_inString ps rest.length rest (le_refl _) h
  have e : c = 0x22 := Fin.ext (by simp [hc, Fin.coe_ofNat_eq_mod])
  subst e
  have hl : rescanLiteral (0x22 :: rest) = (0x22 :: (body ++ [0x22]), rest1) := by
    rw [hd]
    simp [rescanLiteral, rescanString_body body hb rest1, Fin.coe_ofNat_eq_mod]
  rw [hl]
  refine ⟨?_, hacc, ?_⟩
  · simp only []
    rw [unquoteBytes_quote]
    exact unquoteLoop_body _ _ (le_refl _) hb
  · rw [hd]; simp; omega

/-- A byte of a number is not accepted where a value has ended. -/
theorem stateEndValue_number (st : ScanStep) (ps : List ParseState) (b : Nat) (c : Byte)
    (rest : List Byte)
    (hc : isDigit c = true ∨ c.val = 0x2E ∨ c.val = 0x65 ∨ c.val = 0x45 ∨ c.val = 0x2B
      ∨ c.val = 0x2D)
    (h1 : (stateEndValue ⟨st, false, ps, none, b⟩ c).1 ≠ .scanError)
    (h2 : scanner.accepts (stateEndValue ⟨st, false, ps, none, b⟩ c).2 rest) : False := by
  have hs : isSpace c = false := by
    simp only [isDigit, decide_eq_true_eq] at hc
    simp [isSpace]; omega
  have n1 : c.val ≠ 0x3A ∧ c.val ≠ 0x2C ∧ c.val ≠ 0x7D ∧ c.val ≠ 0x5D := by
    simp only [isDigit, decide_eq_true_eq] at hc
    omega
  rcases ps with _ | ⟨p, ps⟩
  · simp only [stateEndValue, stateEndTop, hs, scanner.error] at h2
    exact not_accepts_error _ _ _ _ _ h2
  · cases p <;> simp [stateEndValue, hs, n1, scanner.error] at h1

/-- The number case of `rescanLiteral` stops where the scanner ends the
number: the scanner accepts the input after it as what follows a value. -/
theorem rescanNumber_acceptsAt (ps : List ParseState) : ∀ (data : List Byte) (st : ScanStep),
    st.inNumber = true → scanner.acceptsAt st ps data →
    scanner.acceptsAt .EndValue ps (rescanNumber data).2 := by
  intro data
  induction data with
  | nil =>
    intro st hst h
    rcases ps with _ | ⟨p, ps⟩
    · exact ⟨0, by simp [rescanNumber, scanner.accepts, scanner.eof, scanner.doStep,
        stateEndValue, stateEndTop, isSpace, Fin.coe_ofNat_eq_mod]⟩
    · exact absurd h (not_acceptsAt_nil _ _ (Or.inl (by simp)))
  | cons c rest ih =>
    intro st hst h
    by_cases hc : isDigit c = true ∨ c.val = 0x2E ∨ c.val = 0x65 ∨ c.val = 0x45 ∨ c.val = 0x2B
        ∨ c.val = 0x2D
    · have e : (rescanNumber (c :: rest)).2 = (rescanNumber rest).2 := by
        simp only [rescanNumber]
        rw [if_pos hc]
      rw [e]
      obtain ⟨b, h1, h2⟩ := acceptsAt_step _ _ _ _ h
      cases st <;> simp only [ScanStep.inNumber, Bool.false_eq_true] at hst <;>
        simp only [scanner.doStep, state0, stateESign] at h1 h2 <;>
        split_ifs at h1 h2
      all_goals first
        | exact ih _ (by rfl) ⟨b, h2⟩
        | exact (stateEndValue_number _ ps b c rest hc h1 h2).elim
        | (simp [scanner.error] at h1)
    · have e : (rescanNumber (c :: rest)).2 = c :: rest := by
        simp only [rescanNumber]
        rw [if_neg hc]
      rw [e]
      obtain ⟨b, hb⟩ := h
      refine ⟨b, ?_⟩
      rw [accepts_cons] at hb ⊢
      have hd : isDigit c = false := by
        cases hd : isDigit c
        · rfl
        · exact absurd (Or.inl hd) hc
      have n0 : ¬ c.val = 0x30 ∧ ¬ (0x31 ≤ c.val ∧ c.val ≤ 0x39) := by
        simp only [isDigit, decide_eq_false_iff_not] at hd
        omega
      have n1 : ¬ c.val = 0x2E := fun x => hc (Or.inr (Or.inl x))
      have n2 : ¬ (c.val = 0x65 ∨ c.val = 0x45) := fun x =>
        x.elim (fun x => hc (Or.inr (Or.inr (Or.inl x))))
          (fun x => hc (Or.inr (Or.inr (Or.inr (Or.inl x)))))
      have n3 : ¬ (c.val = 0x2B ∨ c.val = 0x2D) := fun x =>
        x.elim (fun x => hc (Or.inr (Or.inr (Or.inr (Or.inr (Or.inl x))))))
          (fun x => hc (Or.inr (Or.inr (Or.inr (Or.inr (Or.inr x))))))
      cases st <;> simp only [ScanStep.inNumber, Bool.false_eq_true] at hst <;>
        simp only [scanner.doStep, state0, stateESign, hd, n0, n1, n2, n3, if_false,
          Bool.false_eq_true, scanner.error, ne_eq, not_true_eq_false, false_and] at hb ⊢
      all_goals exact hb

/-- The function `rescanLiteral` at a number that the scanner accepts. -/
theorem rescanLiteral_number (ps : List ParseState) (c : Byte) (rest : List Byte)
    (hc : isDigit c = true ∨ c.val = 0x2D) (st : ScanStep) (hst : st.inNumber = true)
    (h : scanner.acceptsAt st ps rest) :
    scanner.acceptsAt .EndValue ps (rescanLiteral (c :: rest)).2 := by
  have n : ¬ c.val = 0x22 := by
    simp only [isDigit, decide_eq_true_eq] at hc
    omega
  have e : (rescanLiteral (c :: rest)).2 = (rescanNumber rest).2 := by
    simp only [rescanLiteral, if_neg n]
    rw [if_pos hc]
  rw [e]
  exact rescanNumber_acceptsAt ps rest st hst h

theorem skipSpace_length (data : List Byte) : (skipSpace data).length ≤ data.length := by
  induction data with
  | nil => simp [skipSpace]
  | cons c rest ih =>
    simp only [skipSpace]
    split_ifs
    · simp only [List.length_cons]; omega
    · exact le_refl _

theorem rescanString_length : ∀ (n : Nat) (data : List Byte), data.length ≤ n →
    (rescanString data).2.length ≤ data.length := by
  intro n
  induction n using Nat.strong_induction_on with
  | _ n ih =>
    intro data hn
    rcases data with _ | ⟨c, _ | ⟨e, rest⟩⟩
    · simp [rescanString]
    · simp [rescanString]
    · simp only [rescanString]
      simp only [List.length_cons] at hn
      split_ifs
      · have := ih rest.length (by omega) rest (le_refl _)
        simp only [List.length_cons]; omega
      · simp
      · have := ih (e :: rest).length (by simp; omega) (e :: rest) (le_refl _)
        simp only [List.length_cons] at this ⊢; omega

theorem rescanNumber_length (data : List Byte) :
    (rescanNumber data).2.length ≤ data.length := by
  induction data with
  | nil => simp [rescanNumber]
  | cons c rest ih =>
    simp only [rescanNumber]
    split_ifs
    · simp only [List.length_cons]; omega
    · exact le_refl _

theorem rescanLiteral_length (data : List Byte) :
    (rescanLiteral data).2.length ≤ data.length := by
  rcases data with _ | ⟨c, rest⟩
  · simp [rescanLiteral]
  · simp only [rescanLiteral]
    split_ifs
    · have := rescanString_length rest.length rest (le_refl _)
      simp only [List.length_cons]; omega
    · have := rescanNumber_length rest
      simp only [List.length_cons]; omega
    · simp; omega
    · simp; omega
    · simp; omega
    · simp

theorem skipLoop_length : ∀ (data : List Byte) (s : scanner),
    (skipLoop s data).length ≤ data.length := by
  intro data
  induction data with
  | nil => intro s; simp [skipLoop]
  | cons c rest ih =>
    intro s
    simp only [skipLoop]
    split_ifs
    · simp
    · have := ih (s.doStep c).2
      simp only [List.length_cons]; omega

theorem nested_ite (base : List ParseState) (b : Nat) (rest : List Byte) (p : Prop)
    [Decidable p] (R1 R2 F1 F2 : Opcode × scanner)
    (h1 : p → scanner.nested base b rest R1 F1) (h2 : ¬ p → scanner.nested base b rest R2 F2) :
    scanner.nested base b rest (if p then R1 else R2) (if p then F1 else F2) := by
  split_ifs with h
  · exact h1 h
  · exact h2 h

theorem nested_error (base : List ParseState) (b : Nat) (rest : List Byte) (s : scanner)
    (c : Byte) (context : String) (F : Opcode × scanner) :
    scanner.nested base b rest (s.error c context) F :=
  fun h _ => absurd rfl h

theorem nested_set (base : List ParseState) (b : Nat) (rest : List Byte) (op1 op2 : Opcode)
    (st : ScanStep) (X Y : List ParseState) (hX : X = Y ++ base) (hY : Y ≠ []) :
    scanner.nested base b rest (op1, ⟨st, false, X, none, b⟩) (op2, ⟨st, false, Y, none, 0⟩) :=
  fun _ _ => Or.inl ⟨st, Y, rfl, hY, by rw [hX]⟩

theorem nested_pop (base : List ParseState) (hbase : base ≠ []) (b : Nat) (rest : List Byte)
    (op1 op2 : Opcode) (st : ScanStep) (p : ParseState) (fs : List ParseState) :
    scanner.nested base b rest
      (op1, scanner.popParseState ⟨st, false, p :: (fs ++ base), none, b⟩)
      (op2, scanner.popParseState ⟨st, false, p :: fs, none, 0⟩) := by
  intro _ _
  rcases fs with _ | ⟨q, fs⟩
  · right
    rcases base with _ | ⟨p0, base⟩
    · exact absurd rfl hbase
    · simp [scanner.popParseState]
  · left
    exact ⟨.EndValue, q :: fs, by simp [scanner.popParseState], by simp,
      by simp [scanner.popParseState]⟩

theorem nested_push (base : List ParseState) (b : Nat) (rest : List Byte)
    (op : Opcode) (st : ScanStep) (c : Byte) (p : ParseState) (X Y : List ParseState)
    (hX : X = Y ++ base) :
    scanner.nested base b rest
      (scanner.pushParseState ⟨st, false, X, none, b⟩ c p op)
      (scanner.pushParseState ⟨st, false, Y, none, 0⟩ c p op) := by
  subst hX
  intro h1 _
  left
  simp only [scanner.pushParseState] at h1 ⊢
  split_ifs at h1 ⊢ with c1 c2
  all_goals first
    | exact ⟨st, p :: Y, rfl, by simp, rfl⟩
    | exact absurd rfl h1
    | (simp only [List.length_cons, List.length_append] at *; omega)

theorem stateEndValue_nested (base : List ParseState) (hbase : base ≠ []) (b : Nat)
    (rest : List Byte) (st : ScanStep) (p : ParseState) (fs : List ParseState) (c : Byte) :
    scanner.nested base b rest (stateEndValue ⟨st, false, p :: (fs ++ base), none, b⟩ c)
      (stateEndValue ⟨st, false, p :: fs, none, 0⟩ c) := by
  cases p <;> simp only [stateEndValue] <;>
    repeat' (first
      | with_reducible exact nested_error _ _ _ _ _ _ _
      | ((with_reducible apply nested_ite) <;> intro _)
      | with_reducible exact nested_pop base hbase _ _ _ _ _ _ _
      | ((with_reducible refine nested_set _ _ _ _ _ _ _ _ ?_ ?_) <;> simp))

theorem stateBeginValue_nested (base : List ParseState) (b : Nat)
    (rest : List Byte) (st : ScanStep) (p : ParseState) (fs : List ParseState) (c : Byte) :
    scanner.nested base b rest (stateBeginValue ⟨st, false, p :: (fs ++ base), none, b⟩ c)
      (stateBeginValue ⟨st, false, p :: fs, none, 0⟩ c) := by
  simp only [stateBeginValue]
  repeat' (first
    | with_reducible exact nested_error _ _ _ _ _ _ _
    | ((with_reducible apply nested_ite) <;> intro _)
    | ((with_reducible refine nested_push _ _ _ _ _ _ _ _ _ ?_); simp)
    | ((with_reducible refine nested_set _ _ _ _ _ _ _ _ ?_ ?_) <;> simp))

theorem stateBeginString_nested (base : List ParseState) (b : Nat)
    (rest : List Byte) (st : ScanStep) (p : ParseState) (fs : List ParseState) (c : Byte) :
    scanner.nested base b rest (stateBeginString ⟨st, false, p :: (fs ++ base), none, b⟩ c)
      (stateBeginString ⟨st, false, p :: fs, none, 0⟩ c) := by
  simp only [stateBeginString]
  repeat' (first
    | with_reducible exact nested_error _ _ _ _ _ _ _
    | ((with_reducible apply nested_ite) <;> intro _)
    | ((with_reducible refine nested_set _ _ _ _ _ _ _ _ ?_ ?_) <;> simp))

theorem state0_nested (base : List ParseState) (hbase : base ≠ []) (b : Nat)
    (rest : List Byte) (st : ScanStep) (p : ParseState) (fs : List ParseState) (c : Byte) :
    scanner.nested base b rest (state0 ⟨st, false, p :: (fs ++ base), none, b⟩ c)
      (state0 ⟨st, false, p :: fs, none, 0⟩ c) := by
  simp only [state0]
  repeat' (first
    | with_reducible exact stateEndValue_nested base hbase _ _ _ _ _ _
    | ((with_reducible apply nested_ite) <;> intro _)
    | ((with_reducible refine nested_set _ _ _ _ _ _ _ _ ?_ ?_) <;> simp))

theorem stateESign_nested (base : List ParseState) (b : Nat)
    (rest : List Byte) (st : ScanStep) (p : ParseState) (fs : List ParseState) (c : Byte) :
    scanner.nested base b rest (stateESign ⟨st, false, p :: (fs ++ base), none, b⟩ c)
      (stateESign ⟨st, false, p :: fs, none, 0⟩ c) := by
  simp only [stateESign]
  repeat' (first
    | with_reducible exact nested_error _ _ _ _ _ _ _
    | ((with_reducible apply nested_ite) <;> intro _)
    | ((with_reducible refine nested_set _ _ _ _ _ _ _ _ ?_ ?_) <;> simp))

theorem stateEndTop_nested (base : List ParseState) (b : Nat)
    (rest : List Byte) (st : ScanStep) (p : ParseState) (fs : List ParseState) (c : Byte) :
    scanner.nested base b rest (stateEndTop ⟨st, false, p :: (fs ++ base), none, b⟩ c)
      (stateEndTop ⟨st, false, p :: fs, none, 0⟩ c) := by
  simp only [stateEndTop]
  apply nested_ite
  · intro _ _ h2
    exact absurd h2 (not_accepts_error _ _ _ _ _)
  · intro _
    exact nested_set _ _ _ _ _ _ _ _ (by simp) (by simp)

/-- Inside a nested value, the scanner of the whole text and a scanner started
afresh at the bracket that opens the value take the same steps, until the
bracket that closes the value. -/
theorem doStep_nested (base : List ParseState) (hbase : base ≠ []) (b : Nat)
    (rest : List Byte) (st : ScanStep) (p : ParseState) (fs : List ParseState) (c : Byte) :
    scanner.nested base b rest (scanner.doStep ⟨st, false, p :: (fs ++ base), none, b⟩ c)
      (scanner.doStep ⟨st, false, p :: fs, none, 0⟩ c) := by
  cases st <;>
    simp only [scanner.doStep, stateBeginValueOrEmpty, stateBeginStringOrEmpty, List.tail_cons]
  all_goals
    repeat' (first
      | with_reducible exact nested_error _ _ _ _ _ _ _
      | with_reducible exact stateEndValue_nested base hbase _ _ _ _ _ _
      | with_reducible exact stateBeginValue_nested _ _ _ _ _ _ _
      | with_reducible exact stateBeginString_nested _ _ _ _ _ _ _
      | with_reducible exact state0_nested base hbase _ _ _ _ _ _
      | with_reducible exact stateESign_nested _ _ _ _ _ _ _
      | with_reducible exact stateEndTop_nested _ _ _ _ _ _ _
      | ((with_reducible apply nested_ite) <;> intro _)
      | ((with_reducible refine nested_set _ _ _ _ _ _ _ _ ?_ ?_) <;> simp))

/-- The loop of `skip` stops at the bracket that closes the value, where the
scanner of the whole text is at the end of a value. -/
theorem skipLoop_acceptsAt (base : List ParseState) (hbase : base ≠ []) :
    ∀ (data : List Byte) (st : ScanStep) (p : ParseState) (fs : List ParseState) (b : Nat),
      scanner.accepts ⟨st, false, p :: (fs ++ base), none, b⟩ data →
      scanner.acceptsAt .EndValue base (skipLoop ⟨st, false, p :: fs, none, 0⟩ data) := by
  intro data
  induction data with
  | nil =>
    intro st p fs b h
    exact absurd ⟨b, h⟩ (not_acceptsAt_nil _ _ (Or.inl (by simp)))
  | cons c rest ih =>
    intro st p fs b h
    rw [accepts_cons] at h
    rcases doStep_nested base hbase (b + 1) rest st p fs c h.1 h.2 with
      ⟨st1, fs1, e1, e2, e3⟩ | ⟨e1, e2⟩
    · rcases fs1 with _ | ⟨q, fs1⟩
      · exact absurd rfl e2
      · simp only [skipLoop, e1, List.length_cons]
        rw [if_neg (by omega)]
        have h2 := h.2
        rw [e3] at h2
        exact ih st1 q fs1 (b + 1) h2
    · simp only [skipLoop, e2, List.length_nil]
      rw [if_pos (by omega)]
      have h2 := h.2
      rw [e1] at h2
      exact ⟨b + 1, h2⟩

/-- The method `skip` at an array or object that the scanner accepts as a
value nested in the stack `base`: the scanner accepts the input after it as
what follows a value. -/
theorem skip_acceptsAt (base : List ParseState) (hbase : base ≠ []) (c : Byte)
    (rest : List Byte) (hc : c.val = 0x5B ∨ c.val = 0x7B)
    (h : scanner.acceptsAt .BeginValue base (c :: rest)) :
    scanner.acceptsAt .EndValue base (skip (c :: rest)) := by
  have hs : isSpace c = false := by
    simp [isSpace]; omega
  rcases acceptsAt_beginValue base c rest h hs with ⟨e, b, hb⟩ | ⟨e, b, hb⟩ | ⟨e, -⟩ | ⟨e, -⟩
      | ⟨e, -⟩ | ⟨e, -⟩ | ⟨e, -⟩
  · have n : ¬ c.val = 0x5B := by omega
    have : skip (c :: rest) = skipLoop ⟨.BeginStringOrEmpty, false, [.parseObjectKey], none, 0⟩ rest := by
      simp [skip, skipLoop, scanner.reset, scanner.doStep, stateBeginValue, hs, e,
        scanner.pushParseState, maxNestingDepth]
    rw [this]
    exact skipLoop_acceptsAt base hbase rest _ _ [] b hb
  · have n : ¬ c.val = 0x7B := by omega
    have : skip (c :: rest) = skipLoop ⟨.BeginValueOrEmpty, false, [.parseArrayValue], none, 0⟩ rest := by
      simp [skip, skipLoop, scanner.reset, scanner.doStep, stateBeginValue, hs, e,
        scanner.pushParseState, maxNestingDepth]
    rw [this]
    exact skipLoop_acceptsAt base hbase rest _ _ [] b hb
  · omega
  · simp only [isDigit, decide_eq_true_eq] at e; omega
  · omega
  · omega
  · omega

theorem skip_length (data : List Byte) : (skip data).length ≤ data.length :=
  skipLoop_length data _

/-! ## The decoder does not panic -/

theorem saveError_noPanic (d : decodeState) (err : GoError)
    (hd : d.savedError ≠ some .phasePanic) (he : err ≠ .phasePanic) :
    (d.saveError err).savedError ≠ some .phasePanic := by
  unfold decodeState.saveError
  split_ifs
  · simpa using he
  · exact hd

theorem saveError_data (d : decodeState) (err : GoError) : (d.saveError err).data = d.data := by
  unfold decodeState.saveError
  split_ifs <;> rfl

/-- The method `literalStore` on a literal that the scanner has accepted. -/
theorem literalStore_noPanic (d : decodeState) (c : Byte) (item : List Byte) (target : Target)
    (hd : d.savedError ≠ some .phasePanic)
    (hq : c.val = 0x22 → (unquoteBytes item).isSome = true)
    (hc : c.val = 0x22 ∨ (isDigit c = true ∨ c.val = 0x2D) ∨ c.val = 0x74 ∨ c.val = 0x66
      ∨ c.val = 0x6E) :
    (literalStore d c item target).savedError ≠ some .phasePanic
      ∧ (literalStore d c item target).data = d.data := by
  unfold literalStore
  split_ifs with c1 c2 c3 c4
  · exact ⟨hd, rfl⟩
  · exact ⟨saveError_noPanic d _ hd (by simp), saveError_data d _⟩
  · obtain ⟨s, hs⟩ := Option.isSome_iff_exists.mp (hq c3)
    rw [hs]
    cases target with
    | top => exact ⟨saveError_noPanic d _ hd (by simp), saveError_data d _⟩
    | field f => exact ⟨hd, rfl⟩
  · exfalso
    simp only [isDigit, decide_eq_true_eq] at hc
    omega
  · exact ⟨saveError_noPanic d _ hd (by simp), saveError_data d _⟩

/-- What `rescanLiteral` returns for a literal that the scanner accepts as a
value: it is unquoted without failure if it is a string, and the scanner
accepts the input after it as what follows a value. -/
theorem rescanLiteral_value (ps : List ParseState) (c : Byte) (rest : List Byte)
    (h : scanner.acceptsAt .BeginValue ps (c :: rest)) (hs : isSpace c = false)
    (n1 : c.val ≠ 0x5B) (n2 : c.val ≠ 0x7B) :
    (c.val = 0x22 → (unquoteBytes (rescanLiteral (c :: rest)).1).isSome = true)
    ∧ (c.val = 0x22 ∨ (isDigit c = true ∨ c.val = 0x2D) ∨ c.val = 0x74 ∨ c.val = 0x66
      ∨ c.val = 0x6E)
    ∧ scanner.acceptsAt .EndValue ps (rescanLiteral (c :: rest)).2 := by
  rcases acceptsAt_beginValue ps c rest h hs with ⟨e, -⟩ | ⟨e, -⟩ | ⟨e, h1⟩ | ⟨e, st, hst, h1⟩
      | ⟨e, h1⟩ | ⟨e, h1⟩ | ⟨e, h1⟩
  · exact absurd e n2
  · exact absurd e n1
  · obtain ⟨r1, r2, -⟩ := rescanLiteral_acceptsAt ps c rest e h1
    exact ⟨fun _ => r1, Or.inl e, r2⟩
  · refine ⟨fun x => ?_, Or.inr (Or.inl e), rescanLiteral_number ps c rest e st hst h1⟩
    simp only [isDigit, decide_eq_true_eq] at e
    omega
  · obtain ⟨c1, c2, c3, rest1, hr, hacc⟩ := acceptsAt_true ps rest h1
    refine ⟨fun x => by omega, Or.inr (Or.inr (Or.inl e)), ?_⟩
    have nd : isDigit c = false := by
      simp only [isDigit, decide_eq_false_iff_not]; omega
    subst hr
    simpa [rescanLiteral, nd, e] using hacc
  · obtain ⟨c1, c2, c3, c4, rest1, hr, hacc⟩ := acceptsAt_false ps rest h1
    refine ⟨fun x => by omega, Or.inr (Or.inr (Or.inr (Or.inl e))), ?_⟩
    have nd : isDigit c = false := by
      simp only [isDigit, decide_eq_false_iff_not]; omega
    subst hr
    simpa [rescanLiteral, nd, e] using hacc
  · obtain ⟨c1, c2, c3, rest1, hr, hacc⟩ := acceptsAt_null ps rest h1
    refine ⟨fun x => by omega, Or.inr (Or.inr (Or.inr (Or.inr e))), ?_⟩
    have nd : isDigit c = false := by
      simp only [isDigit, decide_eq_false_iff_not]; omega
    subst hr
    simpa [rescanLiteral, nd, e] using hacc

/-- The method `value` for the value of an object member, on input that the
scanner accepts: no panic, and the scanner accepts the input that is left as
what follows the value. -/
theorem valueField_noPanic (d : decodeState) (field : Option Field) (c : Byte)
    (rest : List Byte) (hdata : d.data = c :: rest) (hs : isSpace c = false)
    (hd : d.savedError ≠ some .phasePanic)
    (h : scanner.acceptsAt .BeginValue [.parseObjectValue] d.data) :
    (valueField d field).savedError ≠ some .phasePanic
      ∧ scanner.acceptsAt .EndValue [.parseObjectValue] (valueField d field).data
      ∧ (valueField d field).data.length ≤ d.data.length := by
  unfold valueField
  rw [hdata] at h ⊢
  simp only []
  split_ifs with c1 c2
  · have hk := skip_acceptsAt [.parseObjectValue] (by simp) c rest (Or.inl c1) h
    have hl := skip_length (c :: rest)
    cases field with
    | none => exact ⟨hd, hk, hl⟩
    | some f => exact ⟨saveError_noPanic d _ hd (by simp), hk, hl⟩
  · have hk := skip_acceptsAt [.parseObjectValue] (by simp) c rest (Or.inr c2) h
    have hl := skip_length (c :: rest)
    cases field with
    | none => exact ⟨hd, hk, hl⟩
    | some f => exact ⟨saveError_noPanic d _ hd (by simp), hk, hl⟩
  · obtain ⟨r1, r2, r3⟩ := rescanLiteral_value _ c rest h hs c1 c2
    have hl := rescanLiteral_length (c :: rest)
    cases field with
    | none => exact ⟨hd, r3, hl⟩
    | some f =>
      obtain ⟨k1, k2⟩ := literalStore_noPanic { d with data := (rescanLiteral (c :: rest)).2 } c
        (rescanLiteral (c :: rest)).1 (.field f) hd r1 r2
      simp only []
      rw [k2]
      exact ⟨k1, r3, hl⟩

/-- The loop of `object` on input that the scanner accepts does not panic. -/
theorem objectLoop_noPanic : ∀ (fuel : Nat) (d : decodeState) (st : ScanStep),
    (st = .BeginString ∨ st = .BeginStringOrEmpty) →
    scanner.acceptsAt st [.parseObjectKey] d.data → d.data.length < fuel →
    d.savedError ≠ some .phasePanic →
    (objectLoop fuel d).savedError ≠ some .phasePanic := by
  intro fuel
  induction fuel with
  | zero => intro d st _ _ hl; omega
  | succ fuel ih =>
    intro d st hst h hl hd
    have hst' : st = .BeginValue ∨ st = .BeginString ∨ st = .BeginStringOrEmpty
        ∨ (st = .EndValue ∧ [ParseState.parseObjectKey] ≠ []) := by
      rcases hst with e | e
      · exact Or.inr (Or.inl e)
      · exact Or.inr (Or.inr (Or.inl e))
    obtain ⟨c, rest, e1, e2, e3, e4⟩ := skipSpace_acceptsAt st _ hst' d.data h
    simp only [objectLoop, e1]
    split_ifs with c1 c2
    · exact hd
    · exact absurd (acceptsAt_beginString st [] c rest hst e3 e2 c1).1 c2
    · have c2' : c.val = 0x22 := by omega
      obtain ⟨-, hin⟩ := acceptsAt_beginString st [] c rest hst e3 e2 c1
      obtain ⟨r1, r2, r3⟩ := rescanLiteral_acceptsAt _ c rest c2' hin
      obtain ⟨key, hkey⟩ := Option.isSome_iff_exists.mp r1
      simp only [hkey]
      obtain ⟨colon, rest1, f1, f2, f3, f4⟩ := skipSpace_acceptsAt .EndValue _
        (Or.inr (Or.inr (Or.inr ⟨rfl, by simp⟩))) _ r2
      simp only [f1]
      obtain ⟨g1, g2⟩ := acceptsAt_afterKey [] colon rest1 f3 f2
      rw [if_neg (by simpa using g1)]
      obtain ⟨v, rest2, k1, k2, k3, k4⟩ := skipSpace_acceptsAt .BeginValue _ (Or.inl rfl) _ g2
      obtain ⟨m1, m2, m3⟩ := valueField_noPanic
        { d with data := skipSpace rest1 } (lookupField key) v rest2 k1 k2 hd (by rw [k1]; exact k3)
      obtain ⟨sep, rest3, n1, n2, n3, n4⟩ := skipSpace_acceptsAt .EndValue _
        (Or.inr (Or.inr (Or.inr ⟨rfl, by simp⟩))) _ m2
      simp only [n1]
      rcases acceptsAt_afterValue [] sep rest3 n3 n2 with q | ⟨q, hq⟩
      · rw [if_pos q]
        exact m1
      · have q' : ¬ sep.val = 0x7D := by omega
        rw [if_neg q', if_pos q]
        refine ih _ .BeginString (Or.inl rfl) hq ?_ m1
        have m3' : (valueField { d with data := skipSpace rest1 } (lookupField key)).data.length
            ≤ (skipSpace rest1).length := m3
        have k5 := congrArg List.length k1
        simp only [List.length_cons] at k5
        show rest3.length < fuel
        omega

/-- The method `decodeState.unmarshal` on input that the scanner accepts does
not panic. -/
theorem unmarshal_noPanic (d : decodeState)
    (h : scanner.acceptsAt .BeginValue [] d.data) (hd : d.savedError ≠ some .phasePanic) :
    d.unmarshal.savedError ≠ some .phasePanic := by
  obtain ⟨c, rest, e1, e2, e3, e4⟩ := skipSpace_acceptsAt .BeginValue _ (Or.inl rfl) d.data h
  simp only [decodeState.unmarshal, e1]
  split_ifs with c1 c2
  · exact saveError_noPanic d _ hd (by simp)
  · rcases acceptsAt_beginValue [] c rest e3 e2 with ⟨-, h1⟩ | ⟨e, -⟩ | ⟨e, -⟩ | ⟨e, -⟩
        | ⟨e, -⟩ | ⟨e, -⟩ | ⟨e, -⟩
    · exact objectLoop_noPanic _ _ .BeginStringOrEmpty (Or.inr rfl) h1 (by simp) hd
    · omega
    · omega
    · simp only [isDigit, decide_eq_true_eq] at e; omega
    · omega
    · omega
    · omega
  · obtain ⟨r1, r2, -⟩ := rescanLiteral_value _ c rest e3 e2 c1 c2
    exact (literalStore_noPanic { d with data := (rescanLiteral (c :: rest)).2 } c _ .top hd r1 r2).1

/-- The function `Unmarshal` never reaches a panic of the decoder: the text
that `checkValid` has passed is read as the scanner read it. -/
theorem Unmarshal_noPanic (data : List Byte) (v : Log) :
    (Unmarshal data v).2 ≠ some .phasePanic := by
  unfold Unmarshal
  cases h : checkValid data with
  | some e => simp
  | none =>
    simp only []
    exact unmarshal_noPanic _ ⟨0, checkValid_accepts data h⟩ (by simp)

/-- An error returned by `Unmarshal` is a syntax error or a type error of the
decoder. -/
theorem Unmarshal_error (data : List Byte) (v : Log) (err : GoError)
    (h : (Unmarshal data v).2 = some err) : err.isDecodeError = true := by
  have hp := Unmarshal_noPanic data v
  unfold Unmarshal at h hp
  split at h
  · simp only [Option.some.injEq] at h
    rw [← h]
    rfl
  · have key := unmarshal_kind (fun e => e.isDecodeError = true ∨ e = .phasePanic)
      (fun _ _ => Or.inl rfl) (Or.inr rfl) ⟨data, none, v⟩ (by simp) err h
    rcases key with k | k
    · exact k
    · rename_i hc
      rw [hc] at hp
      simp only [] at hp
      rw [k] at h
      exact absurd h hp

/-- An error returned by `Unmarshal` is never a value made by `fmt.Errorf`. -/
theorem Unmarshal_kind (data : List Byte) (v : Log) (err : GoError)
    (h : (Unmarshal data v).2 = some err) : ∀ s, err ≠ .errorString s := by
  intro s hs
  have := Unmarshal_error data v err h
  rw [hs] at this
  simp [GoError.isDecodeError] at this

/-- The top-level value of a valid text that is neither an object nor `null`
is refused with the type error that names its kind. -/
theorem Unmarshal_top_mismatch (data : List Byte) (v : Log) (c : Byte) (rest : List Byte)
    (hv : checkValid data = none) (h : skipSpace data = c :: rest) (h1 : c.val ≠ 0x7B)
    (h2 : c.val ≠ 0x6E) :
    (Unmarshal data v).2 = some (.unmarshalTypeError (valueKind c) none) := by
  have hk : valueKind c = (if c.val = 0x5B then "array" else if c.val = 0x22 then "string"
      else if c.val = 0x74 ∨ c.val = 0x66 then "bool" else "number") := by
    simp [valueKind, h1, h2]
  rw [hk]
  have hp := unmarshal_noPanic ⟨data, none, v⟩ ⟨0, checkValid_accepts data hv⟩ (by simp)
  have hu : (Unmarshal data v).2 = (decodeState.unmarshal ⟨data, none, v⟩).savedError := by
    simp [Unmarshal, hv]
  rw [hu]
  simp only [decodeState.unmarshal, h, if_neg h1] at hp ⊢
  by_cases c1 : c.val = 0x5B
  · simp [c1, decodeState.saveError]
  simp only [if_neg c1, literalStore, if_neg h2] at hp ⊢
  by_cases cb : c.val = 0x74 ∨ c.val = 0x66
  · have n : ¬ c.val = 0x22 := by omega
    simp [cb, n, decodeState.saveError, Target.errorField]
  simp only [if_neg cb] at hp ⊢
  by_cases cq : c.val = 0x22
  · simp only [if_pos cq] at hp ⊢
    split at hp
    · exact absurd rfl hp
    · rename_i s hs
      simp [hs, decodeState.saveError]
  simp only [if_neg cq] at hp ⊢
  split_ifs at hp ⊢
  · exact absurd rfl hp
  · simp [decodeState.saveError, Target.errorField]

/-! ## The errors of the decoder on an object -/

theorem saveError_savedError (d : decodeState) (err : GoError) :
    (d.saveError err).savedError = d.savedError.or (some err) := by
  unfold decodeState.saveError
  cases h : d.savedError <;> simp [h]

theorem firstMemberError_cons (m : List Byte × Byte) (ms : List (List Byte × Byte)) :
    firstMemberError (m :: ms)
      = (fieldError (lookupField m.1) m.2).or (firstMemberError ms) := by
  unfold firstMemberError
  cases h : fieldError (lookupField m.1) m.2 <;> simp [List.findSome?, h]

/-- The method `value` for the value of an object member, on input that the
scanner accepts: the error saved is the type error of the member, if its value
does not fit the field, and the input left is the input after the value. -/
theorem valueField_result (d : decodeState) (field : Option Field) (v : Byte)
    (vrest : List Byte) (hdata : d.data = v :: vrest) (hs : isSpace v = false)
    (h : scanner.acceptsAt .BeginValue [.parseObjectValue] d.data) :
    (valueField d field).savedError = d.savedError.or (fieldError field v)
      ∧ (valueField d field).data
          = (if v.val = 0x5B ∨ v.val = 0x7B then skip (v :: vrest)
              else (rescanLiteral (v :: vrest)).2) := by
  unfold valueField
  rw [hdata] at h ⊢
  simp only []
  by_cases c1 : v.val = 0x5B
  · have k : valueKind v = "array" := by simp [valueKind, c1]
    simp only [if_pos c1, c1, true_or, if_true]
    cases field with
    | none => simp [fieldError]
    | some f => simp [fieldError, c1, saveError_savedError, k]
  by_cases c2 : v.val = 0x7B
  · have k : valueKind v = "object" := by simp [valueKind, c2]
    simp only [if_neg c1, if_pos c2, c2, or_true, if_true]
    cases field with
    | none => simp [fieldError]
    | some f => simp [fieldError, c2, saveError_savedError, k]
  have c12 : ¬ (v.val = 0x5B ∨ v.val = 0x7B) := by omega
  simp only [if_neg c1, if_neg c2, if_neg c12]
  obtain ⟨r1, r2, -⟩ := rescanLiteral_value _ v vrest h hs c1 c2
  cases field with
  | none => simp [fieldError]
  | some f =>
    simp only []
    unfold literalStore
    by_cases cn : v.val = 0x6E
    · simp [cn, fieldError]
    simp only [if_neg cn]
    by_cases cb : v.val = 0x74 ∨ v.val = 0x66
    · have nq : ¬ v.val = 0x22 := by omega
      have k : valueKind v = "bool" := by simp [valueKind, c1, c2, nq, cb]
      simp [cb, fieldError, nq, cn, saveError_savedError, saveError_data, k, Target.errorField]
    simp only [if_neg cb]
    by_cases cq : v.val = 0x22
    · obtain ⟨s, hs⟩ := Option.isSome_iff_exists.mp (r1 cq)
      simp [cq, hs, fieldError]
    simp only [if_neg cq]
    have hd : isDigit v = true ∨ v.val = 0x2D := by
      rcases r2 with x | x | x | x | x
      · exact absurd x cq
      · exact x
      · exact absurd (Or.inl x) cb
      · exact absurd (Or.inr x) cb
      · exact absurd x cn
    have np : ¬ (v.val ≠ 0x2D ∧ (v.val < 0x30 ∨ 0x39 < v.val)) := by
      simp only [isDigit, decide_eq_true_eq] at hd
      omega
    have k : valueKind v = "number" := by simp [valueKind, c1, c2, cq, cb, cn]
    simp only [if_neg np]
    simp [fieldError, cq, cn, saveError_savedError, saveError_data, k, Target.errorField]

/-- The loop of `object` on input that the scanner accepts: the error saved is
the first one saved before, or else the type error of the first member of the
object that does not fit its field. -/
theorem objectLoop_members : ∀ (fuel : Nat) (d : decodeState) (st : ScanStep),
    (st = .BeginString ∨ st = .BeginStringOrEmpty) →
    scanner.acceptsAt st [.parseObjectKey] d.data → d.data.length < fuel →
    d.savedError ≠ some .phasePanic →
    (objectLoop fuel d).savedError
      = d.savedError.or (firstMemberError (membersLoop fuel d.data)) := by
  intro fuel
  induction fuel with
  | zero => intro d st _ _ hl; omega
  | succ fuel ih =>
    intro d st hst h hl hd
    have hst' : st = .BeginValue ∨ st = .BeginString ∨ st = .BeginStringOrEmpty
        ∨ (st = .EndValue ∧ [ParseState.parseObjectKey] ≠ []) := by
      rcases hst with e | e
      · exact Or.inr (Or.inl e)
      · exact Or.inr (Or.inr (Or.inl e))
    obtain ⟨c, rest, e1, e2, e3, e4⟩ := skipSpace_acceptsAt st _ hst' d.data h
    simp only [objectLoop, membersLoop, e1]
    by_cases c1 : c.val = 0x7D
    · have n : c.val ≠ 0x22 := by omega
      simp [c1, firstMemberError]
    obtain ⟨c2, hin⟩ := acceptsAt_beginString st [] c rest hst e3 e2 c1
    obtain ⟨r1, r2, r3⟩ := rescanLiteral_acceptsAt _ c rest c2 hin
    obtain ⟨key, hkey⟩ := Option.isSome_iff_exists.mp r1
    obtain ⟨colon, rest1, f1, f2, f3, f4⟩ := skipSpace_acceptsAt .EndValue _
      (Or.inr (Or.inr (Or.inr ⟨rfl, by simp⟩))) _ r2
    obtain ⟨g1, g2⟩ := acceptsAt_afterKey [] colon rest1 f3 f2
    obtain ⟨v, rest2, k1, k2, k3, k4⟩ := skipSpace_acceptsAt .BeginValue _ (Or.inl rfl) _ g2
    obtain ⟨m1, m2⟩ := valueField_result
      { d with data := skipSpace rest1 } (lookupField key) v rest2 k1 k2 (by rw [k1]; exact k3)
    obtain ⟨w1, w2, w3⟩ := valueField_noPanic
      { d with data := skipSpace rest1 } (lookupField key) v rest2 k1 k2
      hd (by rw [k1]; exact k3)
    obtain ⟨sep, rest3, n1, n2, n3, n4⟩ := skipSpace_acceptsAt .EndValue _
      (Or.inr (Or.inr (Or.inr ⟨rfl, by simp⟩))) _ w2
    have n1' := n1
    rw [m2] at n1'
    simp only [k1] at m1 w1 w3 n1
    have c2' : ¬ c.val ≠ 0x22 := by omega
    simp only [if_neg c1, if_neg c2', hkey, f1, List.tail_cons, k1, n1',
      if_neg (show ¬ colon.val ≠ 0x3A by omega), n1, firstMemberError_cons]
    rcases acceptsAt_afterValue [] sep rest3 n3 n2 with q | ⟨q, hq⟩
    · have q' : ¬ sep.val = 0x2C := by omega
      rw [if_pos q, if_neg q']
      simp only []
      rw [m1]
      simp [firstMemberError]
    · have q' : ¬ sep.val = 0x7D := by omega
      rw [if_neg q', if_pos q, if_pos q]
      have hlen : rest3.length < fuel := by
        have k5 := congrArg List.length n1
        have k6 := skipSpace_length
          (valueField { d with data := v :: rest2 } (lookupField key)).data
        simp only [List.length_cons] at k5 w3
        omega
      have step := ih
        { (valueField { d with data := v :: rest2 } (lookupField key)) with data := rest3 }
        .BeginString (Or.inl rfl) hq hlen w1
      simp only [] at step
      rw [step, m1, Option.or_assoc]

/-- A member does not fit exactly when its name selects a field and its value
is neither a string nor `null`. -/
theorem firstMemberError_isSome (ms : List (List Byte × Byte)) :
    firstMemberError ms ≠ none
      ↔ ∃ m ∈ ms, ∃ f, lookupField m.1 = some f ∧ m.2.val ≠ 0x22 ∧ m.2.val ≠ 0x6E := by
  induction ms with
  | nil => simp [firstMemberError]
  | cons m ms ih =>
    rw [firstMemberError_cons]
    cases hl : lookupField m.1 with
    | none =>
      simp only [fieldError, Option.none_or, ih, List.mem_cons, exists_eq_or_imp, hl]
      simp
    | some f =>
      by_cases hv : m.2.val = 0x22 ∨ m.2.val = 0x6E
      · simp only [fieldError, if_pos hv, Option.none_or, ih, List.mem_cons, exists_eq_or_imp, hl]
        have : ¬ (m.2.val ≠ 0x22 ∧ m.2.val ≠ 0x6E) := by omega
        simp [this]
      · simp only [fieldError, if_neg hv, List.mem_cons, exists_eq_or_imp, hl]
        have : m.2.val ≠ 0x22 ∧ m.2.val ≠ 0x6E := by omega
        simp [this]

/-- The error of a member that does not fit is a type error. -/
theorem firstMemberError_isDecodeError (ms : List (List Byte × Byte)) (err : GoError)
    (h : firstMemberError ms = some err) : err.isDecodeError = true := by
  induction ms with
  | nil => simp [firstMemberError] at h
  | cons m ms ih =>
    rw [firstMemberError_cons] at h
    cases hf : fieldError (lookupField m.1) m.2 with
    | none => rw [hf] at h; exact ih (by simpa using h)
    | some e =>
      rw [hf] at h
      simp only [Option.or, Option.some.injEq] at h
      subst h
      unfold fieldError at hf
      split at hf
      · split_ifs at hf
        simp only [Option.some.injEq] at hf
        rw [← hf]; rfl
      · simp at hf

/-- The function `Unmarshal` on a valid text that is an object: the error is
the type error of the first member that does not fit its field, if any. -/
theorem Unmarshal_object (data : List Byte) (v : Log) (c : Byte) (rest : List Byte)
    (hv : checkValid data = none) (h : skipSpace data = c :: rest) (hc : c.val = 0x7B) :
    (Unmarshal data v).2 = firstMemberError (objectMembers rest) := by
  have hu : (Unmarshal data v).2 = (decodeState.unmarshal ⟨data, none, v⟩).savedError := by
    simp [Unmarshal, hv]
  have hacc : scanner.acceptsAt .BeginValue [] data := ⟨0, checkValid_accepts data hv⟩
  obtain ⟨c', rest', e1, e2, e3, -⟩ := skipSpace_acceptsAt .BeginValue _ (Or.inl rfl) data hacc
  rw [h] at e1
  simp only [List.cons.injEq] at e1
  obtain ⟨rfl, rfl⟩ := e1
  have n : ¬ c.val = 0x5B := by omega
  rw [hu]
  simp only [decodeState.unmarshal, h, if_neg n, if_pos hc]
  rcases acceptsAt_beginValue [] c rest e3 e2 with ⟨-, h1⟩ | ⟨e, -⟩ | ⟨e, -⟩ | ⟨e, -⟩
      | ⟨e, -⟩ | ⟨e, -⟩ | ⟨e, -⟩
  · rw [objectLoop_members _ _ .BeginStringOrEmpty (Or.inr rfl) h1 (by simp) (by simp)]
    simp [objectMembers]
  · omega
  · omega
  · simp only [isDigit, decide_eq_true_eq] at e; omega
  · omega
  · omega
  · omega

/-- The function `Unmarshal` on a text whose value is `null`: no error, and
the record is left as it was. -/
theorem Unmarshal_null (data : List Byte) (v : Log) (c : Byte) (rest : List Byte)
    (hv : checkValid data = none) (h : skipSpace data = c :: rest) (hc : c.val = 0x6E) :
    Unmarshal data v = (v, none) := by
  have n1 : ¬ c.val = 0x5B := by omega
  have n2 : ¬ c.val = 0x7B := by omega
  simp [Unmarshal, hv, decodeState.unmarshal, h, n1, n2, literalStore, hc]

/-- A valid text holds a value. -/
theorem checkValid_skipSpace (data : List Byte) (hv : checkValid data = none) :
    ∃ c rest, skipSpace data = c :: rest := by
  obtain ⟨c, rest, e1, -⟩ := skipSpace_acceptsAt .BeginValue _ (Or.inl rfl) data
    ⟨0, checkValid_accepts data hv⟩
  exact ⟨c, rest, e1⟩

/-- One member `"key":"..."` written by `Marshal`, followed by the byte `sep`,
as `membersLoop` reads it. -/
theorem membersLoop_member (fuel : Nat) (key name : List Byte) (src : GoString)
    (sep : Byte) (rest : List Byte) (hk : StringBody key)
    (hu : unquoteBytes (0x22 :: (key ++ [0x22])) = some name) (hsep : isSpace sep = false) :
    membersLoop (fuel + 1) (0x22 :: (key ++ 0x22 :: 0x3A :: (appendString src ++ sep :: rest)))
      = (name, 0x22) :: (if sep.val = 0x2C then membersLoop fuel rest else []) := by
  have s1 : isSpace (0x22 : Byte) = false := by decide
  have s2 : isSpace (0x3A : Byte) = false := by decide
  have e : appendString src ++ sep :: rest
      = 0x22 :: (appendStringLoop src.length src ++ 0x22 :: sep :: rest) := by
    simp [appendString_eq]
  simp only [membersLoop]
  rw [skipSpace_cons _ _ s1]
  simp only [rescanLiteral_string key _ hk, hu, skipSpace_cons _ _ s2, List.tail_cons, e,
    skipSpace_cons _ _ s1,
    rescanLiteral_string _ _ (StringBody_appendStringLoop src.length src),
    skipSpace_cons _ _ hsep]
  simp [Fin.coe_ofNat_eq_mod, skipSpace_cons _ _ hsep]

/-! ## The claims -/

/-- C1 (as amended): round trip.  If `CreateLog(user_id, access_method,
timestamp)` succeeds and the store's read of `user_id` does not fail, then
`QueryLog(user_id)` on the resulting store succeeds and returns the record
whose three fields are the three inputs, each coerced to valid UTF-8 as
`json.Marshal` does; they are exactly the inputs when these are valid UTF-8. -/
theorem CreateLog_QueryLog_roundtrip (ctx : Stub) (userID accessMethod timestamp : GoString)
    (hc : (CreateLog ctx userID accessMethod timestamp).1 = none)
    (hr : ctx.getFault userID = none) :
    QueryLog (CreateLog ctx userID accessMethod timestamp).2 userID
        = (some ⟨toValidUTF8 userID, toValidUTF8 accessMethod, toValidUTF8 timestamp⟩, none)
    ∧ (ValidString userID = true → ValidString accessMethod = true →
        ValidString timestamp = true →
        QueryLog (CreateLog ctx userID accessMethod timestamp).2 userID
          = (some ⟨userID, accessMethod, timestamp⟩, none)) := by
  refine ⟨QueryLog_after_CreateLog ctx _ _ _ hc hr, ?_⟩
  intro h1 h2 h3
  rw [QueryLog_after_CreateLog ctx _ _ _ hc hr, toValidUTF8_of_valid _ h1,
    toValidUTF8_of_valid _ h2, toValidUTF8_of_valid _ h3]

/-- Witness of C1: scenario 1 of the specification, on a store without faults. -/
theorem CreateLog_QueryLog_roundtrip_witness :
    (CreateLog (Stub.fresh (fun _ => none) (fun _ _ => none)) (ascii "u1") (ascii "password")
        (ascii "2024-01-01T00:00:00Z")).1 = none
    ∧ QueryLog (CreateLog (Stub.fresh (fun _ => none) (fun _ _ => none)) (ascii "u1")
        (ascii "password") (ascii "2024-01-01T00:00:00Z")).2 (ascii "u1")
      = (some ⟨ascii "u1", ascii "password", ascii "2024-01-01T00:00:00Z"⟩, none) :=
  ⟨rfl, (CreateLog_QueryLog_roundtrip (Stub.fresh (fun _ => none) (fun _ _ => none)) (ascii "u1")
    (ascii "password") (ascii "2024-01-01T00:00:00Z") rfl rfl).2 (by decide) (by decide)
    (by decide)⟩

/-- Counterexample to C1 as stated.  On a store without faults,
`CreateLog("u", "\xff", "t")` succeeds and `QueryLog("u")` then returns the
access method U+FFFD (`EF BF BD`), not the byte `FF` that was written; and on a
store whose reads fail, `QueryLog` fails after a successful `CreateLog`. -/
theorem CreateLog_QueryLog_roundtrip_counterexample :
    ((CreateLog (Stub.fresh (fun _ => none) (fun _ _ => none)) (ascii "u") [0xFF] (ascii "t")).1
        = none
      ∧ QueryLog (CreateLog (Stub.fresh (fun _ => none) (fun _ _ => none)) (ascii "u") [0xFF]
          (ascii "t")).2 (ascii "u")
        = (some ⟨ascii "u", [0xEF, 0xBF, 0xBD], ascii "t"⟩, none)
      ∧ QueryLog (CreateLog (Stub.fresh (fun _ => none) (fun _ _ => none)) (ascii "u") [0xFF]
          (ascii "t")).2 (ascii "u")
        ≠ (some ⟨ascii "u", [0xFF], ascii "t"⟩, none))
    ∧ ((CreateLog (Stub.fresh (fun _ => some (ascii "down")) (fun _ _ => none)) (ascii "u")
          (ascii "m") (ascii "t")).1 = none
      ∧ QueryLog (CreateLog (Stub.fresh (fun _ => some (ascii "down")) (fun _ _ => none))
          (ascii "u") (ascii "m") (ascii "t")).2 (ascii "u")
        = (none, some (.errorString (ascii "failed to read from world state: down")))) := by
  refine ⟨⟨rfl, ?_, ?_⟩, rfl, ?_⟩ <;> decide

/-- C2 (as amended): last write wins.  After a successful
`CreateLog(user_id, A, T1)` followed by a successful `CreateLog(user_id, B, T2)`
the store is the same as if only the second had been applied, on every store;
and if the store's read of `user_id` does not fail, `QueryLog(user_id)` returns
the record of `user_id`, `B` and `T2`, each coerced to valid UTF-8: exactly
`(user_id, B, T2)` when these are valid UTF-8. -/
theorem CreateLog_last_write_wins (ctx : Stub) (userID A T1 B T2 : GoString)
    (h1 : (CreateLog ctx userID A T1).1 = none)
    (h2 : (CreateLog (CreateLog ctx userID A T1).2 userID B T2).1 = none) :
    (CreateLog (CreateLog ctx userID A T1).2 userID B T2).2 = (CreateLog ctx userID B T2).2
    ∧ (ctx.getFault userID = none →
        QueryLog (CreateLog (CreateLog ctx userID A T1).2 userID B T2).2 userID
          = (some ⟨toValidUTF8 userID, toValidUTF8 B, toValidUTF8 T2⟩, none)
        ∧ (ValidString userID = true → ValidString B = true → ValidString T2 = true →
          QueryLog (CreateLog (CreateLog ctx userID A T1).2 userID B T2).2 userID
            = (some ⟨userID, B, T2⟩, none))) := by
  constructor
  · have hB : (CreateLog ctx userID B T2).1 = none := by
      rw [CreateLog_eq] at h2 ⊢
      rw [(CreateLog_faults ctx userID A T1).2] at h2
      split at h2
      · simp at h2
      · rename_i hp; simp [hp]
    rw [CreateLog_ok _ _ _ _ h2, CreateLog_ok _ _ _ _ hB, CreateLog_ok _ _ _ _ h1]
    simp only [Stub.mk.injEq, and_self, and_true]
    funext k
    split_ifs <;> rfl
  · intro hr
    have hr1 : (CreateLog ctx userID A T1).2.getFault userID = none := by
      rw [(CreateLog_faults ctx userID A T1).1]; exact hr
    have hq := QueryLog_after_CreateLog (CreateLog ctx userID A T1).2 userID B T2 h2 hr1
    refine ⟨hq, ?_⟩
    intro v1 v2 v3
    rw [hq, toValidUTF8_of_valid _ v1, toValidUTF8_of_valid _ v2, toValidUTF8_of_valid _ v3]

/-- Witness of C2: scenario 3 of the specification, on a store without faults;
and the equality of the stores on a store whose reads fail. -/
theorem CreateLog_last_write_wins_witness :
    QueryLog (CreateLog (CreateLog (Stub.fresh (fun _ => none) (fun _ _ => none)) (ascii "u1")
        (ascii "password") (ascii "T1")).2 (ascii "u1") (ascii "biometric") (ascii "T2")).2
        (ascii "u1")
      = (some ⟨ascii "u1", ascii "biometric", ascii "T2"⟩, none)
    ∧ (CreateLog (CreateLog (Stub.fresh (fun _ => some (ascii "down")) (fun _ _ => none))
        (ascii "u1") (ascii "password") (ascii "T1")).2 (ascii "u1") (ascii "biometric")
        (ascii "T2")).2
      = (CreateLog (Stub.fresh (fun _ => some (ascii "down")) (fun _ _ => none)) (ascii "u1")
        (ascii "biometric") (ascii "T2")).2 :=
  ⟨((CreateLog_last_write_wins (Stub.fresh (fun _ => none) (fun _ _ => none)) (ascii "u1")
      (ascii "password") (ascii "T1") (ascii "biometric") (ascii "T2") rfl rfl).2 rfl).2
      (by decide) (by decide) (by decide),
    (CreateLog_last_write_wins (Stub.fresh (fun _ => some (ascii "down")) (fun _ _ => none))
      (ascii "u1") (ascii "password") (ascii "T1") (ascii "biometric") (ascii "T2") rfl rfl).1⟩

/-- Counterexample to C2 as stated.  On a store without faults, after
`CreateLog("u", "a", "t1")` and `CreateLog("u", "\xff", "t2")`, both successful,
`QueryLog("u")` returns the access method U+FFFD, not the byte `FF`; and on a
store whose reads fail, `QueryLog` fails after the two successful writes. -/
theorem CreateLog_last_write_wins_counterexample :
    ((CreateLog (Stub.fresh (fun _ => none) (fun _ _ => none)) (ascii "u") (ascii "a")
        (ascii "t1")).1 = none
      ∧ (CreateLog (CreateLog (Stub.fresh (fun _ => none) (fun _ _ => none)) (ascii "u") (ascii "a")
          (ascii "t1")).2 (ascii "u") [0xFF] (ascii "t2")).1 = none
      ∧ QueryLog (CreateLog (CreateLog (Stub.fresh (fun _ => none) (fun _ _ => none)) (ascii "u")
          (ascii "a") (ascii "t1")).2 (ascii "u") [0xFF] (ascii "t2")).2 (ascii "u")
        = (some ⟨ascii "u", [0xEF, 0xBF, 0xBD], ascii "t2"⟩, none)
      ∧ QueryLog (CreateLog (CreateLog (Stub.fresh (fun _ => none) (fun _ _ => none)) (ascii "u")
          (ascii "a") (ascii "t1")).2 (ascii "u") [0xFF] (ascii "t2")).2 (ascii "u")
        ≠ (some ⟨ascii "u", [0xFF], ascii "t2"⟩, none))
    ∧ ((CreateLog (CreateLog (Stub.fresh (fun _ => some (ascii "down")) (fun _ _ => none))
          (ascii "u") (ascii "a") (ascii "t1")).2 (ascii "u") (ascii "b") (ascii "t2")).1 = none
      ∧ QueryLog (CreateLog (CreateLog (Stub.fresh (fun _ => some (ascii "down")) (fun _ _ => none))
          (ascii "u") (ascii "a") (ascii "t1")).2 (ascii "u") (ascii "b") (ascii "t2")).2 (ascii "u")
        = (none, some (.errorString (ascii "failed to read from world state: down")))) := by
  refine ⟨⟨rfl, rfl, ?_, ?_⟩, rfl, ?_⟩ <;> decide

/-- C3: absence.  When the store's read of `user_id` succeeds and returns no
value, `QueryLog(user_id)` returns no record and the error
`the log <user_id> does not exist`; so it does for every `user_id` on the empty
store whose read does not fail. -/
theorem QueryLog_absent (ctx : Stub) (userID : GoString) (hr : ctx.getFault userID = none)
    (ha : ctx.state userID = none) :
    QueryLog ctx userID
        = (none, some (.errorString (ascii "the log " ++ userID ++ ascii " does not exist")))
    ∧ (QueryLog ctx userID).1 = none
    ∧ ∀ putFault, QueryLog (Stub.fresh ctx.getFault putFault) userID
        = (none, some (.errorString (ascii "the log " ++ userID ++ ascii " does not exist"))) := by
  have h := QueryLog_notFound ctx userID hr ha
  exact ⟨h, by rw [h], fun pf => QueryLog_notFound (Stub.fresh ctx.getFault pf) userID hr rfl⟩

/-- Witness of C3: scenario 2 of the specification, `QueryLog("u2")` on a fresh
store. -/
theorem QueryLog_absent_witness :
    QueryLog (Stub.fresh (fun _ => none) (fun _ _ => none)) (ascii "u2")
      = (none, some (.errorString (ascii "the log u2 does not exist"))) :=
  (QueryLog_absent (Stub.fresh (fun _ => none) (fun _ _ => none)) (ascii "u2") rfl rfl).1.trans
    (by decide)

/-- C4: key isolation.  For keys `a` and `b` that differ, `CreateLog(a, m, t)`
leaves the value stored under `b` as it was, and `QueryLog(b)` gives the same
result, record or error, before and after the call. -/
theorem CreateLog_key_isolation (ctx : Stub) (a b m t : GoString) (hab : a ≠ b) :
    (CreateLog ctx a m t).2.state b = ctx.state b
    ∧ QueryLog (CreateLog ctx a m t).2 b = QueryLog ctx b := by
  have h := CreateLog_other_key ctx a b m t hab
  exact ⟨h, QueryLog_congr _ _ b (by rw [(CreateLog_faults ctx a m t).1]) h⟩

/-- Witness of C4: writing a record for `alice` does not affect `bob`. -/
theorem CreateLog_key_isolation_witness :
    ascii "alice" ≠ ascii "bob"
    ∧ QueryLog (CreateLog (CreateLog (Stub.fresh (fun _ => none) (fun _ _ => none)) (ascii "bob")
        (ascii "otp") (ascii "T0")).2 (ascii "alice") (ascii "password") (ascii "T1")).2
        (ascii "bob")
      = QueryLog (CreateLog (Stub.fresh (fun _ => none) (fun _ _ => none)) (ascii "bob")
        (ascii "otp") (ascii "T0")).2 (ascii "bob") :=
  ⟨by decide, (CreateLog_key_isolation _ (ascii "alice") (ascii "bob") (ascii "password")
    (ascii "T1") (by decide)).2⟩

/-- C5: atomicity.  If `CreateLog` returns an error, the store afterwards is
the store before the call, and `QueryLog(user_id)` gives the same result as
before. -/
theorem CreateLog_failure_atomic (ctx : Stub) (userID accessMethod timestamp : GoString)
    (he : (CreateLog ctx userID accessMethod timestamp).1 ≠ none) :
    (CreateLog ctx userID accessMethod timestamp).2 = ctx
    ∧ QueryLog (CreateLog ctx userID accessMethod timestamp).2 userID = QueryLog ctx userID := by
  have h : (CreateLog ctx userID accessMethod timestamp).2 = ctx := by
    rw [CreateLog_eq] at he ⊢
    split
    · rfl
    · rename_i hp; simp [hp] at he
  exact ⟨h, by rw [h]⟩

/-- Witness of C5: a store whose writes fail, holding a record for `u1`. -/
theorem CreateLog_failure_atomic_witness :
    (CreateLog { (CreateLog (Stub.fresh (fun _ => none) (fun _ _ => none)) (ascii "u1")
        (ascii "password") (ascii "T1")).2 with putFault := fun _ _ => some (ascii "unavailable") }
        (ascii "u1") (ascii "biometric") (ascii "T2")).1 = some (.stub (ascii "unavailable"))
    ∧ QueryLog (CreateLog { (CreateLog (Stub.fresh (fun _ => none) (fun _ _ => none)) (ascii "u1")
        (ascii "password") (ascii "T1")).2 with putFault := fun _ _ => some (ascii "unavailable") }
        (ascii "u1") (ascii "biometric") (ascii "T2")).2 (ascii "u1")
      = (some ⟨ascii "u1", ascii "password", ascii "T1"⟩, none) :=
  ⟨rfl, ((CreateLog_failure_atomic _ (ascii "u1") (ascii "biometric") (ascii "T2")
    (by decide)).2).trans (by decide)⟩

/-- C6 (as amended): deserialization errors.  When the value under `user_id`
is present, `QueryLog` fails with the decoder's error, and returns no record,
exactly when the bytes cannot be decoded into the expected shape, which is:
they are not a valid JSON text (the `*json.SyntaxError` of `checkValid`); or
the value of the text is neither an object nor `null` (the
`*json.UnmarshalTypeError` that names its kind); or it is an object in which a
member whose name selects one of the three fields holds a value that is neither
a string nor `null` (the `*json.UnmarshalTypeError` of the first such member,
naming the kind of its value and the field).  The string type of the three
fields is thus enforced; their presence is not, and members of other names are
passed over. -/
theorem QueryLog_decode_failure (ctx : Stub) (userID : GoString) (bytes : List Byte)
    (hr : ctx.getFault userID = none) (hs : ctx.state userID = some bytes) :
    (∀ e, checkValid bytes = some e → QueryLog ctx userID = (none, some (.syntaxError e)))
    ∧ (checkValid bytes = none → ∀ c rest, skipSpace bytes = c :: rest →
        (c.val ≠ 0x7B → c.val ≠ 0x6E →
          QueryLog ctx userID = (none, some (.unmarshalTypeError (valueKind c) none)))
        ∧ (c.val = 0x7B → ∀ err, firstMemberError (objectMembers rest) = some err →
          QueryLog ctx userID = (none, some err))
        ∧ (c.val = 0x7B → firstMemberError (objectMembers rest) = none →
          IsRecord (QueryLog ctx userID))
        ∧ (c.val = 0x6E → QueryLog ctx userID = (some ⟨[], [], []⟩, none)))
    ∧ (IsDecodeFailure (QueryLog ctx userID) ↔
        checkValid bytes ≠ none ∨ ∃ c rest, skipSpace bytes = c :: rest ∧
          ((c.val ≠ 0x7B ∧ c.val ≠ 0x6E) ∨
            (c.val = 0x7B ∧ ∃ m ∈ objectMembers rest, ∃ f, lookupField m.1 = some f
              ∧ m.2.val ≠ 0x22 ∧ m.2.val ≠ 0x6E))) := by
  have hQ := QueryLog_present ctx userID bytes hr hs
  have part2 : checkValid bytes = none → ∀ c rest, skipSpace bytes = c :: rest →
      (c.val ≠ 0x7B → c.val ≠ 0x6E →
        QueryLog ctx userID = (none, some (.unmarshalTypeError (valueKind c) none)))
      ∧ (c.val = 0x7B → ∀ err, firstMemberError (objectMembers rest) = some err →
        QueryLog ctx userID = (none, some err))
      ∧ (c.val = 0x7B → firstMemberError (objectMembers rest) = none →
        IsRecord (QueryLog ctx userID))
      ∧ (c.val = 0x6E → QueryLog ctx userID = (some ⟨[], [], []⟩, none)) := by
    intro hv c rest hc
    refine ⟨?_, ?_, ?_, ?_⟩
    · intro h1 h2
      rw [hQ, Unmarshal_top_mismatch bytes ⟨[], [], []⟩ c rest hv hc h1 h2]
    · intro h1 err he
      rw [hQ, Unmarshal_object bytes ⟨[], [], []⟩ c rest hv hc h1, he]
    · intro h1 he
      rw [hQ, Unmarshal_object bytes ⟨[], [], []⟩ c rest hv hc h1, he]
      exact ⟨_, rfl⟩
    · intro h1
      rw [hQ, Unmarshal_null bytes ⟨[], [], []⟩ c rest hv hc h1]
  refine ⟨?_, part2, ?_⟩
  · intro e he
    rw [hQ]
    simp [Unmarshal, he]
  · cases hv : checkValid bytes with
    | some e =>
      have : (Unmarshal bytes ⟨[], [], []⟩).2 = some (.syntaxError e) := by simp [Unmarshal, hv]
      rw [hQ, this]
      simp [IsDecodeFailure, GoError.isDecodeError]
    | none =>
      obtain ⟨c, rest, hc⟩ := checkValid_skipSpace bytes hv
      obtain ⟨p1, p2, p3, p4⟩ := part2 hv c rest hc
      have uniq : ∀ c1 rest1, skipSpace bytes = c1 :: rest1 → c1 = c ∧ rest1 = rest := by
        intro c1 rest1 h1
        rw [hc] at h1
        simp only [List.cons.injEq] at h1
        exact ⟨h1.1.symm, h1.2.symm⟩
      by_cases cn : c.val = 0x6E
      · rw [p4 cn]
        constructor
        · rintro ⟨err, he, -⟩
          simp at he
        · rintro (h | ⟨c1, rest1, h1, h2⟩)
          · exact absurd rfl h
          · obtain ⟨rfl, rfl⟩ := uniq c1 rest1 h1
            omega
      by_cases cb : c.val = 0x7B
      · cases hm : firstMemberError (objectMembers rest) with
        | none =>
          obtain ⟨log, hlog⟩ := p3 cb hm
          rw [hlog]
          constructor
          · rintro ⟨err, he, -⟩
            simp at he
          · rintro (h | ⟨c1, rest1, h1, h2⟩)
            · exact absurd rfl h
            · obtain ⟨rfl, rfl⟩ := uniq c1 rest1 h1
              rcases h2 with h2 | ⟨-, h2⟩
              · omega
              · exact absurd hm ((firstMemberError_isSome _).mpr h2)
        | some err =>
          rw [p2 cb err hm]
          constructor
          · intro _
            exact Or.inr ⟨c, rest, hc, Or.inr ⟨cb, (firstMemberError_isSome _).mp (by simp [hm])⟩⟩
          · intro _
            exact ⟨err, rfl, firstMemberError_isDecodeError _ err hm⟩
      · rw [p1 cb cn]
        constructor
        · intro _
          exact Or.inr ⟨c, rest, hc, Or.inl ⟨cb, cn⟩⟩
        · intro _
          exact ⟨_, rfl, rfl⟩

/-- Witness of C6: the stored bytes `nul` (not valid JSON), `[1]` (a valid
text that is an array) and `\x7b"user_id":5\x7d` (an object whose `user_id` is
a number). -/
theorem QueryLog_decode_failure_witness :
    QueryLog (Stub.mk (fun _ => some (ascii "nul")) (fun _ => none) (fun _ _ => none)) (ascii "u")
      = (none, some (.syntaxError ⟨.invalidCharacter 0x20 "in literal null (expecting 'l')", 3⟩))
    ∧ QueryLog (Stub.mk (fun _ => some (ascii "[1]")) (fun _ => none) (fun _ _ => none)) (ascii "u")
      = (none, some (.unmarshalTypeError "array" none))
    ∧ QueryLog (Stub.mk (fun _ => some (ascii "\x7b\"user_id\":5\x7d")) (fun _ => none)
        (fun _ _ => none)) (ascii "u")
      = (none, some (.unmarshalTypeError "number" (some .UserID))) :=
  ⟨(QueryLog_decode_failure (Stub.mk (fun _ => some (ascii "nul")) (fun _ => none) (fun _ _ => none)) (ascii "u") (ascii "nul") rfl rfl).1 _ (by decide),
   ((QueryLog_decode_failure (Stub.mk (fun _ => some (ascii "[1]")) (fun _ => none) (fun _ _ => none)) (ascii "u") (ascii "[1]") rfl rfl).2.1 (by decide) 0x5B
      (ascii "1]") (by decide)).1 (by decide) (by decide),
   ((QueryLog_decode_failure (Stub.mk (fun _ => some (ascii "\x7b\"user_id\":5\x7d"))
      (fun _ => none) (fun _ _ => none)) (ascii "u") (ascii "\x7b\"user_id\":5\x7d") rfl rfl).2.1
      (by decide) 0x7B (ascii "\"user_id\":5\x7d") (by decide)).2.1 (by decide) _ (by decide)⟩

/-- Counterexample to C6 as stated.  The stored bytes `\x7b\x7d` are not the
encoding of any `Log`, and `null` is not an object at all, yet `QueryLog`
succeeds on both and returns the record with three empty fields. -/
theorem QueryLog_decode_failure_counterexample :
    (∀ v : Log, (Marshal v).1 ≠ ascii "\x7b\x7d")
    ∧ QueryLog (Stub.mk (fun _ => some (ascii "\x7b\x7d")) (fun _ => none) (fun _ _ => none)) (ascii "u") = (some ⟨[], [], []⟩, none)
    ∧ QueryLog (Stub.mk (fun _ => some (ascii "null")) (fun _ => none) (fun _ _ => none)) (ascii "u") = (some ⟨[], [], []⟩, none) := by
  refine ⟨?_, by decide, by decide⟩
  intro v h
  rw [Marshal_bytes] at h
  have e : ascii "\x7b\x7d" = [0x7B, 0x7D] := by decide
  rw [e] at h
  simp only [List.cons.injEq, true_and] at h
  exact absurd (congrArg Fin.val h.1) (by decide)

theorem QueryLog_readFault (ctx : Stub) (u msg : GoString) (h : ctx.getFault u = some msg) :
    QueryLog ctx u
      = (none, some (.errorString (ascii "failed to read from world state: " ++ msg))) := by
  simp only [QueryLog, Stub.GetState, h]

/-- Each outcome of `QueryLog` occurs exactly in its own case. -/
theorem QueryLog_causes (ctx : Stub) (userID : GoString) :
    (IsReadFailure (QueryLog ctx userID) ↔ ∃ msg, ctx.getFault userID = some msg)
    ∧ (IsNotFound userID (QueryLog ctx userID)
        ↔ ctx.getFault userID = none ∧ ctx.state userID = none)
    ∧ (IsDecodeFailure (QueryLog ctx userID)
        ↔ ctx.getFault userID = none ∧ ∃ bytes err, ctx.state userID = some bytes
            ∧ (Unmarshal bytes ⟨[], [], []⟩).2 = some err)
    ∧ (IsRecord (QueryLog ctx userID)
        ↔ ctx.getFault userID = none ∧ ∃ bytes, ctx.state userID = some bytes
            ∧ (Unmarshal bytes ⟨[], [], []⟩).2 = none) := by
  cases hf : ctx.getFault userID with
  | some msg =>
    rw [QueryLog_readFault ctx userID msg hf]
    refine ⟨⟨fun _ => ⟨msg, rfl⟩, fun _ => ⟨msg, rfl⟩⟩, ?_, ?_, ?_⟩
    · simp [IsNotFound, readFailure_msg_ne]
    · simp [IsDecodeFailure, GoError.isDecodeError]
    · simp [IsRecord]
  | none =>
    cases hs : ctx.state userID with
    | none =>
      rw [QueryLog_notFound ctx userID hf hs]
      have hne : ∀ msg t : GoString,
          ascii "the log " ++ t ≠ ascii "failed to read from world state: " ++ msg :=
        fun msg t => Ne.symm (readFailure_msg_ne msg t)
      refine ⟨?_, ?_, ?_, ?_⟩
      · simp [IsReadFailure, hne]
      · simp [IsNotFound]
      · simp [IsDecodeFailure, GoError.isDecodeError]
      · simp [IsRecord]
    | some bytes =>
      rw [QueryLog_present ctx userID bytes hf hs]
      cases hu : (Unmarshal bytes ⟨[], [], []⟩).2 with
      | some err =>
        have hk := Unmarshal_kind bytes _ err hu
        have he := Unmarshal_error bytes _ err hu
        refine ⟨?_, ?_, ?_, ?_⟩
        · simp [IsReadFailure, hk]
        · simp [IsNotFound, hk]
        · simp [IsDecodeFailure, he, hu]
        · simp [IsRecord, hu]
      | none =>
        refine ⟨?_, ?_, ?_, ?_⟩
        · simp [IsReadFailure]
        · simp [IsNotFound]
        · simp [IsDecodeFailure, hu]
        · simp [IsRecord, hu]

/-- C7: the error of `QueryLog` identifies its cause.  A failed read gives no
record and the error `failed to read from world state: ` followed by the
store's error, which differs from every not-found error; a decode failure gives
no record and the decoder's error (a syntax error or a type error, the decoder
never panics), which is neither of the two; and each of the
four outcomes (read failure, not found, decode failure, record) occurs exactly
in its own case, so exactly one occurs on each call. -/
theorem QueryLog_outcomes (ctx : Stub) (userID : GoString) :
    (∀ msg, ctx.getFault userID = some msg →
      QueryLog ctx userID
        = (none, some (.errorString (ascii "failed to read from world state: " ++ msg))))
    ∧ (∀ msg u, GoError.errorString (ascii "failed to read from world state: " ++ msg)
        ≠ GoError.errorString (ascii "the log " ++ u ++ ascii " does not exist"))
    ∧ (∀ bytes err, ctx.getFault userID = none → ctx.state userID = some bytes →
        (Unmarshal bytes ⟨[], [], []⟩).2 = some err →
        QueryLog ctx userID = (none, some err) ∧ err.isDecodeError = true
          ∧ ∀ s, err ≠ .errorString s)
    ∧ (IsReadFailure (QueryLog ctx userID) ↔ ∃ msg, ctx.getFault userID = some msg)
    ∧ (IsNotFound userID (QueryLog ctx userID)
        ↔ ctx.getFault userID = none ∧ ctx.state userID = none)
    ∧ (IsDecodeFailure (QueryLog ctx userID)
        ↔ ctx.getFault userID = none ∧ ∃ bytes err, ctx.state userID = some bytes
            ∧ (Unmarshal bytes ⟨[], [], []⟩).2 = some err)
    ∧ (IsRecord (QueryLog ctx userID)
        ↔ ctx.getFault userID = none ∧ ∃ bytes, ctx.state userID = some bytes
            ∧ (Unmarshal bytes ⟨[], [], []⟩).2 = none)
    ∧ (IsReadFailure (QueryLog ctx userID) ∨ IsNotFound userID (QueryLog ctx userID)
        ∨ IsDecodeFailure (QueryLog ctx userID) ∨ IsRecord (QueryLog ctx userID))
    ∧ ¬ (IsReadFailure (QueryLog ctx userID) ∧ IsNotFound userID (QueryLog ctx userID))
    ∧ ¬ (IsReadFailure (QueryLog ctx userID) ∧ IsDecodeFailure (QueryLog ctx userID))
    ∧ ¬ (IsReadFailure (QueryLog ctx userID) ∧ IsRecord (QueryLog ctx userID))
    ∧ ¬ (IsNotFound userID (QueryLog ctx userID) ∧ IsDecodeFailure (QueryLog ctx userID))
    ∧ ¬ (IsNotFound userID (QueryLog ctx userID) ∧ IsRecord (QueryLog ctx userID))
    ∧ ¬ (IsDecodeFailure (QueryLog ctx userID) ∧ IsRecord (QueryLog ctx userID)) := by
  have causes := QueryLog_causes ctx userID
  obtain ⟨c1, c2, c3, c4⟩ := causes
  refine ⟨fun msg h => QueryLog_readFault ctx userID msg h, readFailure_ne_notFound, ?_,
    c1, c2, c3, c4, ?_⟩
  · intro bytes err hr hs he
    rw [QueryLog_present ctx userID bytes hr hs, he]
    exact ⟨rfl, Unmarshal_error bytes _ err he, Unmarshal_kind bytes _ err he⟩
  · rw [c1, c2, c3, c4]
    cases hf : ctx.getFault userID with
    | some msg => simp
    | none =>
      cases hs : ctx.state userID with
      | none => simp
      | some bytes =>
        cases hu : (Unmarshal bytes ⟨[], [], []⟩).2 with
        | some err => simp [hu]
        | none => simp [hu]

/-- Witness of C7: each of the four outcomes occurs, on stores for the key `u`
whose read fails, that hold nothing, that hold `[1]`, and that hold `null`. -/
theorem QueryLog_outcomes_witness :
    IsReadFailure (QueryLog (Stub.mk (fun _ => none) (fun _ => some (ascii "down"))
      (fun _ _ => none)) (ascii "u"))
    ∧ IsNotFound (ascii "u") (QueryLog (Stub.mk (fun _ => none) (fun _ => none)
      (fun _ _ => none)) (ascii "u"))
    ∧ IsDecodeFailure (QueryLog (Stub.mk (fun _ => some (ascii "[1]")) (fun _ => none)
      (fun _ _ => none)) (ascii "u"))
    ∧ IsRecord (QueryLog (Stub.mk (fun _ => some (ascii "null")) (fun _ => none)
      (fun _ _ => none)) (ascii "u")) :=
  ⟨(QueryLog_outcomes _ _).2.2.2.1.mpr ⟨ascii "down", rfl⟩,
   (QueryLog_outcomes _ _).2.2.2.2.1.mpr ⟨rfl, rfl⟩,
   (QueryLog_outcomes _ _).2.2.2.2.2.1.mpr
     ⟨rfl, ascii "[1]", .unmarshalTypeError "array" none, rfl, by decide⟩,
   (QueryLog_outcomes _ _).2.2.2.2.2.2.1.mpr ⟨rfl, ascii "null", rfl, by decide⟩⟩

/-- C8 (as amended): serialized format.  A successful `CreateLog` writes one
key, `user_id`, and its value is the JSON object with the three fields
`user_id`, `access_method` and `timestamp` in that order, without white space:
a function of the three inputs only, a valid JSON text, each field a string
literal that holds the corresponding input coerced to valid UTF-8, which is the
input itself when it is valid UTF-8. -/
theorem CreateLog_serialized_format (ctx : Stub) (userID accessMethod timestamp : GoString)
    (hc : (CreateLog ctx userID accessMethod timestamp).1 = none) :
    (CreateLog ctx userID accessMethod timestamp).2
        = { ctx with
            state := fun k =>
              if k = userID then
                some (ascii "\x7b\"user_id\":" ++ appendString userID
                  ++ ascii ",\"access_method\":" ++ appendString accessMethod
                  ++ ascii ",\"timestamp\":" ++ appendString timestamp ++ ascii "\x7d")
              else ctx.state k }
    ∧ checkValid (ascii "\x7b\"user_id\":" ++ appendString userID
        ++ ascii ",\"access_method\":" ++ appendString accessMethod
        ++ ascii ",\"timestamp\":" ++ appendString timestamp ++ ascii "\x7d") = none
    ∧ unquoteBytes (appendString userID) = some (toValidUTF8 userID)
    ∧ unquoteBytes (appendString accessMethod) = some (toValidUTF8 accessMethod)
    ∧ unquoteBytes (appendString timestamp) = some (toValidUTF8 timestamp)
    ∧ (∀ s : GoString, ValidString s = true → unquoteBytes (appendString s) = some s) := by
  refine ⟨CreateLog_ok ctx _ _ _ hc, checkValid_Marshal ⟨userID, accessMethod, timestamp⟩,
    unquoteBytes_appendString _, unquoteBytes_appendString _, unquoteBytes_appendString _, ?_⟩
  intro s hs
  rw [unquoteBytes_appendString, toValidUTF8_of_valid s hs]

/-- Witness of C8: the bytes written by scenario 1 of the specification. -/
theorem CreateLog_serialized_format_witness :
    (CreateLog (Stub.fresh (fun _ => none) (fun _ _ => none)) (ascii "u1") (ascii "password")
        (ascii "2024-01-01T00:00:00Z")).2.state (ascii "u1")
      = some (ascii ("\x7b\"user_id\":\"u1\",\"access_method\":\"password\","
          ++ "\"timestamp\":\"2024-01-01T00:00:00Z\"\x7d")) := by
  rw [(CreateLog_serialized_format (Stub.fresh (fun _ => none) (fun _ _ => none)) (ascii "u1")
    (ascii "password") (ascii "2024-01-01T00:00:00Z") rfl).1]
  decide

/-- Counterexample to C8 as stated.  `CreateLog("\xff", "", "")` succeeds and
writes a `user_id` field whose string literal is `"\ufffd"`, which holds
U+FFFD (`EF BF BD`) and not the input byte `FF`. -/
theorem CreateLog_serialized_format_counterexample :
    (CreateLog (Stub.fresh (fun _ => none) (fun _ _ => none)) [0xFF] [] []).1 = none
    ∧ (CreateLog (Stub.fresh (fun _ => none) (fun _ _ => none)) [0xFF] [] []).2.state [0xFF]
      = some (ascii "\x7b\"user_id\":\"\\ufffd\",\"access_method\":\"\",\"timestamp\":\"\"\x7d")
    ∧ appendString [0xFF] = ascii "\"\\ufffd\""
    ∧ unquoteBytes (appendString [0xFF]) = some [0xEF, 0xBF, 0xBD]
    ∧ unquoteBytes (appendString [0xFF]) ≠ some [0xFF] := by
  refine ⟨rfl, ?_, ?_, ?_, ?_⟩ <;> decide

/-- C9: `CreateLog` validates nothing and its encoding step never fails.  For
all strings, empty ones included, `Marshal` returns no error, so the error of
`CreateLog` is the error of the store's write of the key `user_id`: `CreateLog`
fails exactly when that write fails. -/
theorem CreateLog_error_is_write_error (ctx : Stub) (userID accessMethod timestamp : GoString) :
    (Marshal ⟨userID, accessMethod, timestamp⟩).2 = none
    ∧ (CreateLog ctx userID accessMethod timestamp).1
        = (ctx.PutState userID (Marshal ⟨userID, accessMethod, timestamp⟩).1).1.map GoError.stub
    ∧ ((CreateLog ctx userID accessMethod timestamp).1 ≠ none
        ↔ (ctx.PutState userID (Marshal ⟨userID, accessMethod, timestamp⟩).1).1 ≠ none) := by
  have h : (CreateLog ctx userID accessMethod timestamp).1
      = (ctx.PutState userID (Marshal ⟨userID, accessMethod, timestamp⟩).1).1.map GoError.stub := by
    simp only [CreateLog, Marshal]
  refine ⟨rfl, h, ?_⟩
  rw [h]
  cases (ctx.PutState userID (Marshal ⟨userID, accessMethod, timestamp⟩).1).1 <;> simp

/-- The records in a reachable store: every value is what `Marshal` wrote for a
record whose `user_id` is the key. -/
theorem Reachable_state (ctx : Stub) (h : Reachable ctx) :
    ∀ k bytes, ctx.state k = some bytes → ∃ m t, bytes = (Marshal ⟨k, m, t⟩).1 := by
  induction h with
  | fresh gf pf => intro k bytes hk; simp [Stub.fresh] at hk
  | createLog ctx u m t _ ih =>
    intro k bytes hk
    rw [CreateLog_eq] at hk
    split at hk
    · exact ih k bytes hk
    · simp only at hk
      split_ifs at hk with hku
      · subst hku
        exact ⟨m, t, (Option.some.inj hk).symm⟩
      · exact ih k bytes hk
  | faults ctx gf pf _ ih => intro k bytes hk; exact ih k bytes hk

/-- C10 (as amended): key/record invariant.  In every store reachable from the
empty store by `CreateLog` calls, each key holds at most one value, the
encoding of a record written with that key as `user_id`; and whenever
`QueryLog(k)` succeeds, the `user_id` of the record returned is `k` coerced to
valid UTF-8, which is `k` itself when `k` is valid UTF-8. -/
theorem Reachable_key_invariant (ctx : Stub) (h : Reachable ctx) :
    (∀ k bytes, ctx.state k = some bytes → ∃ m t, bytes = (Marshal ⟨k, m, t⟩).1)
    ∧ (∀ k log, QueryLog ctx k = (some log, none) →
        log.UserID = toValidUTF8 k ∧ (ValidString k = true → log.UserID = k)) := by
  refine ⟨Reachable_state ctx h, ?_⟩
  intro k log hq
  have hu : log.UserID = toValidUTF8 k := by
    cases hf : ctx.getFault k with
    | some msg => rw [QueryLog_readFault ctx k msg hf] at hq; simp at hq
    | none =>
      cases hs : ctx.state k with
      | none => rw [QueryLog_notFound ctx k hf hs] at hq; simp at hq
      | some bytes =>
        obtain ⟨m, t, hb⟩ := Reachable_state ctx h k bytes hs
        rw [QueryLog_present ctx k bytes hf hs, hb, Unmarshal_Marshal] at hq
        simp only [Prod.mk.injEq, Option.some.injEq, and_true] at hq
        rw [← hq]
  exact ⟨hu, fun hv => by rw [hu, toValidUTF8_of_valid k hv]⟩

/-- Witness of C10: the store after `CreateLog("u1", ...)`, a failed
`CreateLog("u2", ...)` and `CreateLog("u1", ...)` again is reachable, and
`QueryLog("u1")` succeeds on it with a record whose `user_id` is `u1`. -/
theorem Reachable_key_invariant_witness :
    QueryLog (CreateLog (CreateLog { (CreateLog (Stub.fresh (fun _ => none)
        (fun _ _ => none)) (ascii "u1") (ascii "password") (ascii "T1")).2 with
        putFault := fun k _ => if k = ascii "u2" then some (ascii "unavailable") else none }
        (ascii "u2") (ascii "otp") (ascii "T2")).2 (ascii "u1") (ascii "biometric") (ascii "T3")).2
        (ascii "u1") = (some ⟨ascii "u1", ascii "biometric", ascii "T3"⟩, none)
    ∧ (⟨ascii "u1", ascii "biometric", ascii "T3"⟩ : Log).UserID = ascii "u1" :=
  ⟨by decide, ((Reachable_key_invariant _
    (Reachable.createLog _ _ _ _ (Reachable.createLog _ _ _ _ (Reachable.faults _ _ _
      (Reachable.createLog _ _ _ _ (Reachable.fresh _ _)))))).2 (ascii "u1") _
      (show QueryLog (CreateLog (CreateLog { (CreateLog (Stub.fresh (fun _ => none)
        (fun _ _ => none)) (ascii "u1") (ascii "password") (ascii "T1")).2 with
        putFault := fun k _ => if k = ascii "u2" then some (ascii "unavailable") else none }
        (ascii "u2") (ascii "otp") (ascii "T2")).2 (ascii "u1") (ascii "biometric") (ascii "T3")).2
        (ascii "u1") = (some ⟨ascii "u1", ascii "biometric", ascii "T3"⟩, none) by decide)).2
      (by decide)⟩

/-- Counterexample to C10 as stated.  The store after `CreateLog("\xff", "m",
"t")` on a fresh store is reachable, and `QueryLog("\xff")` succeeds on it with
a record whose `user_id` is U+FFFD (`EF BF BD`), not the key `FF`. -/
theorem Reachable_key_invariant_counterexample :
    Reachable (CreateLog (Stub.fresh (fun _ => none) (fun _ _ => none)) [0xFF] (ascii "m")
      (ascii "t")).2
    ∧ QueryLog (CreateLog (Stub.fresh (fun _ => none) (fun _ _ => none)) [0xFF] (ascii "m")
        (ascii "t")).2 [0xFF] = (some ⟨[0xEF, 0xBF, 0xBD], ascii "m", ascii "t"⟩, none)
    ∧ (⟨[0xEF, 0xBF, 0xBD], ascii "m", ascii "t"⟩ : Log).UserID ≠ [0xFF] :=
  ⟨Reachable.createLog _ _ _ _ (Reachable.fresh _ _), by decide, by decide⟩

/-! ## Further properties of the contract -/

/-- The transaction `InitLedger` returns no error and leaves the store as it
was. -/
theorem InitLedger_noop (ctx : Stub) : (InitLedger ctx).1 = none ∧ (InitLedger ctx).2 = ctx :=
  ⟨rfl, rfl⟩

/-- In a store that only `CreateLog` has written, `QueryLog` never fails with
a decode failure: every stored value is decoded without error. -/
theorem Reachable_no_decode_failure (ctx : Stub) (h : Reachable ctx) (k : GoString) :
    ¬ IsDecodeFailure (QueryLog ctx k) := by
  rw [(QueryLog_causes ctx k).2.2.1]
  rintro ⟨-, bytes, err, hs, he⟩
  obtain ⟨m, t, hb⟩ := Reachable_state ctx h k bytes hs
  rw [hb, Unmarshal_Marshal] at he
  simp at he

/-- Witness: the store after one `CreateLog` is reachable and its record for
`u1` is decoded without error. -/
theorem Reachable_no_decode_failure_witness :
    Reachable (CreateLog (Stub.fresh (fun _ => none) (fun _ _ => none)) (ascii "u1")
      (ascii "password") (ascii "T1")).2
    ∧ ¬ IsDecodeFailure (QueryLog (CreateLog (Stub.fresh (fun _ => none) (fun _ _ => none))
        (ascii "u1") (ascii "password") (ascii "T1")).2 (ascii "u1")) :=
  ⟨Reachable.createLog _ _ _ _ (Reachable.fresh _ _),
    Reachable_no_decode_failure _ (Reachable.createLog _ _ _ _ (Reachable.fresh _ _)) _⟩

/-- The contract never deletes: a key that holds a value still holds one after
any `CreateLog`. -/
theorem CreateLog_keeps_keys (ctx : Stub) (userID accessMethod timestamp k : GoString)
    (h : ctx.state k ≠ none) : (CreateLog ctx userID accessMethod timestamp).2.state k ≠ none := by
  rw [CreateLog_eq]
  split
  · exact h
  · simp only
    split_ifs
    · simp
    · exact h

/-- Witness: after `CreateLog("u1", ...)` the key `u1` holds a value, and
still does after `CreateLog("u2", ...)`. -/
theorem CreateLog_keeps_keys_witness :
    (CreateLog (Stub.fresh (fun _ => none) (fun _ _ => none)) (ascii "u1") (ascii "password")
      (ascii "T1")).2.state (ascii "u1") ≠ none
    ∧ (CreateLog (CreateLog (Stub.fresh (fun _ => none) (fun _ _ => none)) (ascii "u1")
        (ascii "password") (ascii "T1")).2 (ascii "u2") (ascii "otp") (ascii "T2")).2.state
        (ascii "u1") ≠ none :=
  ⟨by decide, CreateLog_keeps_keys _ (ascii "u2") (ascii "otp") (ascii "T2") (ascii "u1")
    (by decide)⟩

/-- Two `CreateLog` calls on different keys commute: the store afterwards does
not depend on their order. -/
theorem CreateLog_commute (ctx : Stub) (a m t b n s : GoString) (hab : a ≠ b) :
    (CreateLog (CreateLog ctx a m t).2 b n s).2 = (CreateLog (CreateLog ctx b n s).2 a m t).2 := by
  have e1 : (CreateLog ctx a m t).2.putFault = ctx.putFault := (CreateLog_faults ctx a m t).2
  have e2 : (CreateLog ctx b n s).2.putFault = ctx.putFault := (CreateLog_faults ctx b n s).2
  rw [CreateLog_eq (CreateLog ctx a m t).2, CreateLog_eq (CreateLog ctx b n s).2, e1, e2]
  rw [CreateLog_eq ctx a m t, CreateLog_eq ctx b n s]
  cases ha : ctx.putFault a (Marshal ⟨a, m, t⟩).1 <;>
    cases hb : ctx.putFault b (Marshal ⟨b, n, s⟩).1 <;> simp only []
  congr 1
  funext k
  by_cases hka : k = a
  · subst hka; simp [hab]
  · by_cases hkb : k = b
    · subst hkb; simp [hka]
    · simp [hka, hkb]

/-- Witness: writing `alice` then `bob` gives the store of writing `bob` then
`alice`. -/
theorem CreateLog_commute_witness :
    ascii "alice" ≠ ascii "bob"
    ∧ (CreateLog (CreateLog (Stub.fresh (fun _ => none) (fun _ _ => none)) (ascii "alice")
        (ascii "password") (ascii "T1")).2 (ascii "bob") (ascii "otp") (ascii "T2")).2
      = (CreateLog (CreateLog (Stub.fresh (fun _ => none) (fun _ _ => none)) (ascii "bob")
        (ascii "otp") (ascii "T2")).2 (ascii "alice") (ascii "password") (ascii "T1")).2 :=
  ⟨by decide, CreateLog_commute _ _ _ _ _ _ _ (by decide)⟩

/-- The transaction `CreateLog` is idempotent: repeating a call with the same
arguments leaves the store as the first call left it. -/
theorem CreateLog_idempotent (ctx : Stub) (userID accessMethod timestamp : GoString) :
    (CreateLog (CreateLog ctx userID accessMethod timestamp).2 userID accessMethod timestamp).2
      = (CreateLog ctx userID accessMethod timestamp).2 := by
  have e1 := (CreateLog_faults ctx userID accessMethod timestamp).2
  rw [CreateLog_eq (CreateLog ctx userID accessMethod timestamp).2, e1,
    CreateLog_eq ctx userID accessMethod timestamp]
  cases ha : ctx.putFault userID (Marshal ⟨userID, accessMethod, timestamp⟩).1 <;> simp only []
  congr 1
  funext k
  split_ifs <;> rfl

/-- The decoder never reaches its `panic(phasePanicMsg)` in `QueryLog`:
whatever bytes the store holds under the key, a text that `checkValid` has
passed is read by the decoder as the scanner read it, so the call returns. -/
theorem QueryLog_no_panic (ctx : Stub) (userID : GoString) :
    (QueryLog ctx userID).2 ≠ some .phasePanic := by
  cases hf : ctx.getFault userID with
  | some msg => rw [QueryLog_readFault ctx userID msg hf]; simp
  | none =>
    cases hs : ctx.state userID with
    | none => rw [QueryLog_notFound ctx userID hf hs]; simp
    | some bytes =>
      rw [QueryLog_present ctx userID bytes hf hs]
      have hp := Unmarshal_noPanic bytes ⟨[], [], []⟩
      cases hu : (Unmarshal bytes ⟨[], [], []⟩).2 with
      | some err =>
        rw [hu] at hp
        simpa using hp
      | none => simp

/-- The object that `CreateLog` writes has exactly three members, named
`user_id`, `access_method` and `timestamp` in this order, and each holds a
string: read as a JSON object, the stored text has the shape that `QueryLog`
expects. -/
theorem Marshal_objectMembers (v : Log) :
    objectMembers (Marshal v).1.tail
        = [(ascii "user_id", 0x22), (ascii "access_method", 0x22), (ascii "timestamp", 0x22)]
    ∧ firstMemberError (objectMembers (Marshal v).1.tail) = none := by
  have key : objectMembers (Marshal v).1.tail
      = [(ascii "user_id", 0x22), (ascii "access_method", 0x22), (ascii "timestamp", 0x22)] := by
    obtain ⟨n1, n2, n3⟩ := StringBody_names
    have c1 : isSpace (0x2C : Byte) = false := by decide
    have c2 : isSpace (0x7D : Byte) = false := by decide
    rw [Marshal_bytes]
    simp only [objectMembers, List.tail_cons]
    obtain ⟨fuel, hf⟩ : ∃ fuel, (0x22 :: (Field.UserID.name ++ 0x22 :: 0x3A ::
        (appendString v.UserID ++ 0x2C :: 0x22 :: (Field.AccessMethod.name ++ 0x22 :: 0x3A ::
        (appendString v.AccessMethod ++ 0x2C :: 0x22 :: (Field.Timestamp.name ++ 0x22 :: 0x3A ::
        (appendString v.Timestamp ++ [0x7D]))))))).length + 1 = fuel + 3 := by
      refine ⟨(Field.UserID.name ++ 0x22 :: 0x3A :: (appendString v.UserID ++
        0x2C :: 0x22 :: (Field.AccessMethod.name ++ 0x22 :: 0x3A :: (appendString v.AccessMethod ++
        0x2C :: 0x22 :: (Field.Timestamp.name ++ 0x22 :: 0x3A :: (appendString v.Timestamp ++
        [0x7D])))))).length - 1, ?_⟩
      simp only [List.length_cons, List.length_append]
      omega
    rw [hf]
    rw [membersLoop_member (fuel + 2) _ _ v.UserID 0x2C _ n1 (unquoteBytes_names .UserID).1 c1]
    rw [if_pos (by decide)]
    rw [membersLoop_member (fuel + 1) _ _ v.AccessMethod 0x2C _ n2
      (unquoteBytes_names .AccessMethod).1 c1]
    rw [if_pos (by decide)]
    rw [membersLoop_member fuel _ _ v.Timestamp 0x7D _ n3 (unquoteBytes_names .Timestamp).1 c2]
    rw [if_neg (by decide)]
    decide
  rw [key]
  exact ⟨rfl, by decide⟩

end AccessLog
